import Mathlib

/-!
A verification development for `morm`.

A shallow embedding of `morm.go` (a reflection-driven SQL helper) and theorems
about its string escaping, field rendering and statement building.

Conventions of the embedding:

* a Go `string` is a `GoString`, the list of its characters; every pattern the
  source searches for is a single ASCII character (or two), so replacing on
  characters and replacing on bytes agree;
* a Go `map` is an association list without duplicate keys; the order in which
  a `range` loop visits it is not fixed by the language, so every function that
  ranges over a map takes the order of that traversal as a `RangeOrder`;
* a run-time panic is the result `none`.
-/

/-! ## Definitions -/

/-- A Go string, as the list of its characters. -/
abbrev GoString := List Char

/-! ### `strings.Replace` and `MysqlRealEscapeString` -/

/-- The scanning loop of `strings.Replace(s, old, new, -1)` for a non-empty
`old`: occurrences are found left to right and do not overlap. The counter is
the number of characters of the current occurrence still to be skipped. -/
def stringsReplaceFrom (old new : GoString) : Nat → GoString → GoString
  | _, [] => []
  | k + 1, _ :: cs => stringsReplaceFrom old new k cs
  | 0, c :: cs =>
    if old.isPrefixOf (c :: cs) then new ++ stringsReplaceFrom old new (old.length - 1) cs
    else c :: stringsReplaceFrom old new 0 cs

/-- The library call `strings.Replace(s, old, new, -1)`. For an empty `old` the
library puts `new` before every character and at the end. -/
def stringsReplace (s old new : GoString) : GoString :=
  match old with
  | [] => new ++ s.flatMap (fun c => c :: new)
  | _ :: _ => stringsReplaceFrom old new 0 s

/-- The table `replace` of `MysqlRealEscapeString` (morm.go, lines 523-530),
in the order of the source. -/
def replaceTable : List (GoString × GoString) :=
  [ ("\\".toList, "\\\\".toList),
    ("'".toList, "\\'".toList),
    ("\\0".toList, "\\\\0".toList),
    ("\n".toList, "\\n".toList),
    ("\r".toList, "\\r".toList),
    ("\"".toList, "\\\"".toList),
    ("\x1a".toList, "\\Z".toList) ]

/-- The function `MysqlRealEscapeString` (morm.go, lines 522-535): the
replacements of the table are applied one after the other, each to the whole
result of the previous one. -/
def MysqlRealEscapeString (value : GoString) : GoString :=
  replaceTable.foldl (fun value s => stringsReplace value s.1 s.2) value

/-- The escape of one character, as the specification words it: two
backslashes for a backslash, backslash+quote for a single quote, backslash+n
for a newline, backslash+r for a carriage return, backslash+double-quote for a
double quote, backslash+Z for the character 0x1A, the character itself
otherwise. -/
def escapeChar (c : Char) : GoString :=
  if c = '\\' then "\\\\".toList
  else if c = '\'' then "\\'".toList
  else if c = '\n' then "\\n".toList
  else if c = '\r' then "\\r".toList
  else if c = '"' then "\\\"".toList
  else if c = '\x1a' then "\\Z".toList
  else [c]

/-- The single pass of the specification: every character is escaped once. -/
def escapeSinglePass (s : GoString) : GoString := s.flatMap escapeChar

/-- What the first two replacements do to one character. -/
def escapeStage2 (c : Char) : GoString :=
  if c = '\\' then "\\\\".toList else if c = '\'' then "\\'".toList else [c]

/-- The text after the first three replacements, as one pass with one
character of lookahead. -/
def escapeStage3 : GoString → GoString
  | [] => []
  | c :: rest =>
    (if c = '\\' ∧ rest.head? = some '0' then "\\\\\\".toList else escapeStage2 c)
      ++ escapeStage3 rest

/-- What the last four replacements do to one character. -/
def escapeStage7 (c : Char) : GoString :=
  if c = '\n' then "\\n".toList
  else if c = '\r' then "\\r".toList
  else if c = '"' then "\\\"".toList
  else if c = '\x1a' then "\\Z".toList
  else [c]

/-- The seven replacements as one pass with one character of lookahead: a
backslash that stands before the digit `0` gives three backslashes, every
other character its single-pass escape. -/
def escapeLookahead : GoString → GoString
  | [] => []
  | c :: rest =>
    (if c = '\\' ∧ rest.head? = some '0' then "\\\\\\".toList else escapeChar c)
      ++ escapeLookahead rest

/-- The length of the run of backslashes at the end of a text. -/
def trailingBackslashes (l : GoString) : Nat :=
  (l.reverse.takeWhile (fun c => c == '\\')).length

/-- The literal `GetMapValues` writes for a string field (morm.go, line 359):
a double quote, the escaped value, a double quote. -/
def stringLiteral (s : GoString) : GoString :=
  "\"".toList ++ MysqlRealEscapeString s ++ "\"".toList

/-- Every double quote of the text stands right after a run of backslashes of
odd length (the run is maximal: it is the whole run that ends there). -/
def QuotesEscaped (l : GoString) : Prop :=
  ∀ pre post : GoString, l = pre ++ '"' :: post → Odd (trailingBackslashes pre)

/-! ### Numbers and time as text -/

/-- The character of a decimal digit. -/
def digitChar (d : Nat) : Char := Char.ofNat (48 + d)

/-- The decimal digits of a natural number, most significant first; the first
argument bounds the number of digits. -/
def decimalDigits : Nat → Nat → GoString
  | 0, _ => []
  | fuel + 1, n =>
    if n < 10 then [digitChar n] else decimalDigits fuel (n / 10) ++ [digitChar (n % 10)]

/-- The library call `strconv.FormatUint(n, 10)`. -/
def FormatUint (n : Nat) : GoString := decimalDigits (n + 1) n

/-- The library call `strconv.FormatInt(i, 10)`. -/
def FormatInt (i : Int) : GoString :=
  if i < 0 then '-' :: FormatUint i.natAbs else FormatUint i.natAbs

/-- The helper `appendInt` of the time library: a sign for a negative number,
then the decimal digits, padded with zeros on the left up to `width`. -/
def appendInt (x : Int) (width : Nat) : GoString :=
  (if x < 0 then ['-'] else [])
    ++ List.replicate (width - (FormatUint x.natAbs).length) '0' ++ FormatUint x.natAbs

/-- A `time.Time`: an instant, as the number of seconds since
1970-01-01 00:00:00 UTC (the text `SQLTime` writes has no finer unit and no
zone). The number is not bounded here, where `time.Time` counts in 64 bits and
its date arithmetic wraps around at the edge of that range; what is proved
about the digits of a date is stated for the years 0 to 9999, far from that
edge. -/
structure Time where
  unix : Int
deriving DecidableEq

/-- A calendar date and clock time. -/
structure Civil where
  year : Int
  month : Int
  day : Int
  hour : Int
  minute : Int
  second : Int
deriving DecidableEq

/-- The date and time of an instant in UTC (`t.UTC()` read through `Date` and
`Clock`), in the proleptic Gregorian calendar. -/
def Time.UTC (t : Time) : Civil :=
  let days := t.unix / 86400
  let secs := t.unix % 86400
  let z := days + 719468
  let era := z / 146097
  let doe := z % 146097
  let yoe := (doe - doe / 1460 + doe / 36524 - doe / 146096) / 365
  let doy := doe - (365 * yoe + yoe / 4 - yoe / 100)
  let mp := (5 * doy + 2) / 153
  let d := doy - (153 * mp + 2) / 5 + 1
  let m := if mp < 10 then mp + 3 else mp - 9
  let y := yoe + era * 400 + (if m ≤ 2 then 1 else 0)
  ⟨y, m, d, secs / 3600, secs % 3600 / 60, secs % 60⟩

/-- The function `SQLTime` (morm.go, lines 37-39):
`t.UTC().Format("2006-01-02 15:04:05")`. -/
def SQLTime (t : Time) : GoString :=
  let c := t.UTC
  appendInt c.year 4 ++ "-".toList ++ appendInt c.month 2 ++ "-".toList ++ appendInt c.day 2
    ++ " ".toList ++ appendInt c.hour 2 ++ ":".toList ++ appendInt c.minute 2
    ++ ":".toList ++ appendInt c.second 2

/-! ### Maps -/

/-- A Go map keyed by strings: an association list in which no key occurs
twice. A nil map reads as the empty one. -/
abbrev GoMap (ν : Type) := List (GoString × ν)

/-- The read `m[k]` with its presence flag. -/
def GoMap.get? {ν : Type} (m : GoMap ν) (k : GoString) : Option ν :=
  match m with
  | [] => none
  | (k2, v) :: rest => if k2 = k then some v else GoMap.get? rest k

/-- The write `m[k] = v`: the value of an existing key is replaced, a new key
is added. -/
def GoMap.set {ν : Type} (m : GoMap ν) (k : GoString) (v : ν) : GoMap ν :=
  match m with
  | [] => [(k, v)]
  | (k2, v2) :: rest => if k2 = k then (k, v) :: rest else (k2, v2) :: GoMap.set rest k v

/-- The order in which one `range` loop visits the entries of a map: some
rearrangement of them. -/
structure RangeOrder (α : Type) where
  pick : List α → List α
  perm : ∀ l : List α, (pick l).Perm l

/-- The traversal in the order of the association list. -/
def RangeOrder.stored (α : Type) : RangeOrder α := ⟨id, fun l => List.Perm.refl l⟩

/-- The traversal in the opposite order. -/
def RangeOrder.reversed (α : Type) : RangeOrder α := ⟨List.reverse, List.reverse_perm⟩

/-! ### Structs, the registry and the driver -/

/-- The value of a struct field, by the kind `GetMapValues` switches on. A
float carries the text `strconv.FormatFloat(v, 'f', 2, bitSize)` gives for it
(floating point is not modelled). A pointer is a `*time.Time` (`timePtr`), a
non-nil pointer to a struct that is not a `time.Time` (`structPtr`), or any
other pointer (`ptr`: a nil pointer of another type, or a non-nil pointer to a
type that is not a struct). `other` is every remaining kind (bool, struct,
slice, map, ...). -/
inductive Value where
  | int (v : Int)
  | uint (v : Nat)
  | float (bitSize : Nat) (text : GoString)
  | string (s : GoString)
  | timePtr (t : Option Time)
  | ptr (isNil : Bool)
  | structPtr
  | other
deriving DecidableEq

/-- A field of a struct instance: its Go name, the value of the `sqlx` key of
its tag (empty when the field has none) and its value. -/
structure StructField where
  Name : GoString
  Tag : GoString
  Val : Value
deriving DecidableEq

/-- A pointer to a struct whose type has the method `TableName`: the argument
`m interface{}` of `prepareModelForScan` and `GetMapValues`. The table name is
a constant of the type (the source asks a fresh instance for it when it
registers and the instance itself when it renders). The named fields of a Go
struct have distinct names; only the blank field `_` may occur more than
once. -/
structure Struct where
  TableName : GoString
  Fields : List StructField
deriving DecidableEq

/-- The type `fieldStruct` (morm.go, lines 21-25). Of the `reflect.StructField`
kept in `Type` the source never reads anything; the field's name stands for
it. -/
structure fieldStruct where
  SQLName : GoString
  GoType : GoString
  Index : Nat
deriving DecidableEq

/-- An `error`, by its message. -/
abbrev Error := GoString

/-- A transaction handle `*sqlx.Tx`. -/
structure Tx where
  id : Nat
deriving DecidableEq

/-- Where a statement is executed: on a transaction or on the handle `dbx`. -/
inductive Target where
  | tx (t : Tx)
  | db
deriving DecidableEq

/-- What `Exec` returns: an error, or a result whose `LastInsertId` gives an
identifier or an error. -/
inductive ExecResult where
  | failed (err : Error)
  | done (lastInsertId : Int)
  | doneNoId (err : Error)
deriving DecidableEq

/-- The database behind the handle `dbx` and the transactions: its answer to
`Exec(query)`. The handle is taken to be open. -/
structure Driver where
  exec : Target → GoString → ExecResult

/-- The package-level state: the registry `modelFields`, the cache
`modelSQLFields`, and the statements executed so far, oldest first. A nil map
is the empty one: `modelFields` is only written by `prepareModelForScan`, which
creates both maps first, and `GetSQLFields` writes the cache only after it has
read a registry entry. -/
structure World where
  modelFields : GoMap (GoMap fieldStruct)
  modelSQLFields : GoMap GoString
  executed : List (Target × GoString)
deriving DecidableEq

/-- The loop of `prepareModelForScan` (morm.go, lines 276-280), from field
`i` on. -/
def scanFields : Nat → List StructField → GoMap fieldStruct → GoMap fieldStruct
  | _, [], acc => acc
  | i, f :: rest, acc =>
    if f.Tag.length > 0 then scanFields (i + 1) rest (acc.set f.Name ⟨f.Tag, f.Name, i⟩)
    else scanFields (i + 1) rest acc

/-- The function `prepareModelForScan` (morm.go, lines 256-283). -/
def prepareModelForScan (m : Struct) (w : World) : World :=
  { w with modelFields := w.modelFields.set m.TableName (scanFields 0 m.Fields []) }

/-- Whether a field name is exported: it starts with an upper-case letter.
Names are taken to be ASCII, as in the package and its tests (a name that
starts with an upper-case letter outside ASCII counts as not exported here).
The blank name `_` is not exported. -/
def isExported (name : GoString) : Bool :=
  match name with
  | [] => false
  | c :: _ => c.isUpper

/-- The `switch v.Kind()` of `GetMapValues` (morm.go, lines 348-368): the text
`stringvalue` for a field value. On a non-nil pointer to a struct that is not
a `time.Time` the assertion of line 365 panics and there is no text (see
`renderFields`). -/
def renderValue : Value → GoString
  | .int v => FormatInt v
  | .uint v => FormatUint v
  | .float _ text => text
  | .string s => stringLiteral s
  | .timePtr none => "null".toList
  | .timePtr (some t) => "\"".toList ++ SQLTime t ++ "\"".toList
  | .ptr true => "null".toList
  | .ptr false => []
  | .structPtr => []
  | .other => []

/-- The loop of `GetMapValues` (morm.go, lines 344-370). It panics in three
places: `val.Field(i)` when the struct has no field `i`; `valuefield.Interface()`
(line 346) when the field is not exported; and the assertion
`v.Elem().Interface().(time.Time)` (line 365) when the value is a non-nil
pointer to a struct that is not a `time.Time`. -/
def renderFields (vals : List StructField) :
    List (GoString × fieldStruct) → GoMap GoString → Option (GoMap GoString)
  | [], result => some result
  | (_, field) :: rest, result =>
    match vals[field.Index]? with
    | none => none
    | some valuefield =>
      if isExported valuefield.Name = false then none
      else if valuefield.Val = Value.structPtr then none
      else renderFields vals rest (result.set field.SQLName (renderValue valuefield.Val))

/-- The function `GetMapValues` (morm.go, lines 329-373), with the order
in which it ranges over the descriptors. -/
def GetMapValues (o : RangeOrder (GoString × fieldStruct)) (m : Struct) (w : World) :
    Option (GoMap GoString × World) :=
  let w1 := match w.modelFields.get? m.TableName with
    | some _ => w
    | none => prepareModelForScan m w
  match w1.modelFields.get? m.TableName with
  | none => none
  | some fields =>
    match renderFields m.Fields (o.pick fields) [] with
    | none => none
    | some result => some (result, w1)

/-- The function `GetSQLFieldsAndValues` (morm.go, lines 392-408), with the
orders of the two traversals (descriptors, rendered map). The loop state is
`(resultV, oldResultV, resultK, oldResultK)`; the result is
`(oldResultK, oldResultV)`. -/
def GetSQLFieldsAndValues (oF : RangeOrder (GoString × fieldStruct))
    (oV : RangeOrder (GoString × GoString)) (m : Struct) (w : World) :
    Option ((GoString × GoString) × World) :=
  match GetMapValues oF m w with
  | none => none
  | some (mp, w1) =>
    let st := (oV.pick mp).foldl
      (fun (st : GoString × GoString × GoString × GoString) (kv : GoString × GoString) =>
        let resultV := st.1 ++ kv.2
        let resultK := st.2.2.1 ++ ("`".toList ++ kv.1 ++ "`".toList)
        (resultV ++ ", ".toList, resultV, resultK ++ ", ".toList, resultK))
      ([], [], [], [])
    some ((st.2.2.2, st.2.1), w1)

/-- A value of the interface `Model`, implemented as the test models of the
repository implement it: the struct starts with the field `ID uint64`, which
`GetID` reads and `SetID` writes; `IDTag` is the `sqlx` tag of that field and
`Fields` are the fields declared after it. -/
structure Model where
  TableName : GoString
  ID : Nat
  IDTag : GoString
  Fields : List StructField
deriving DecidableEq

/-- The struct behind a model, as reflection sees it. -/
def Model.toStruct (m : Model) : Struct :=
  ⟨m.TableName, ⟨"ID".toList, m.IDTag, Value.uint m.ID⟩ :: m.Fields⟩

/-- The method `GetID` (morm_test.go, lines 46-48). -/
def Model.GetID (m : Model) : Nat := m.ID

/-- The method `SetID` (morm_test.go, lines 42-44). -/
def Model.SetID (m : Model) (id : Nat) : Model := { m with ID := id }

/-- The conversion `uint64(id)` of an `int64`. -/
def uint64 (id : Int) : Nat := (id % 2 ^ 64).toNat

/-- The call `FieldByName(field).Set(reflect.ValueOf(time))` on a list of
fields: it panics when no field has the name or when the field is not of type
`*time.Time`. A field of another type that accepts a `*time.Time` (an interface
type such as `interface{}`) is not modelled: it counts as a panic here. -/
def setField : List StructField → GoString → Time → Option (List StructField)
  | [], _, _ => none
  | f :: rest, field, time =>
    if f.Name = field then
      match f.Val with
      | .timePtr _ => some ({ f with Val := .timePtr (some time) } :: rest)
      | _ => none
    else
      match setField rest field time with
      | none => none
      | some rest2 => some (f :: rest2)

/-- The function `setTimeField` (morm.go, lines 419-421). The field `ID` is a
`uint64`, so that setting it to a time panics. -/
def setTimeField (m : Model) (field : GoString) (time : Time) : Option Model :=
  if field = "ID".toList then none
  else
    match setField m.Fields field time with
    | none => none
    | some fields => some { m with Fields := fields }

/-- The function `prepareUpdateQuery` (morm.go, lines 458-482), at the instant
`now` and with the orders of its two traversals. The loop state is
`(sqlvals, oldSqlvals, sqlid)`. The result is the pair the source returns, the
model and the package state afterwards. -/
def prepareUpdateQuery (now : Time) (oF : RangeOrder (GoString × fieldStruct))
    (oV : RangeOrder (GoString × GoString)) (m : Model) (w : World) :
    Option ((GoString × Option Error) × Model × World) :=
  if m.GetID = 0 then
    some (([], some "ID is null; update impossible ".toList), m, w)
  else
    match setTimeField m "UpdatedAt".toList now with
    | none => none
    | some m1 =>
      match GetMapValues oF m1.toStruct w with
      | none => none
      | some (mp, w1) =>
        let st := (oV.pick mp).foldl
          (fun (st : GoString × GoString × GoString) (kv : GoString × GoString) =>
            if kv.1 = "id".toList then (st.1, st.2.1, kv.2)
            else
              let sqlvals := st.1 ++ (kv.1 ++ "=".toList ++ kv.2)
              (sqlvals ++ ", ".toList, sqlvals, st.2.2))
          ([], [], [])
        some (("update ".toList ++ m1.TableName ++ " set ".toList ++ st.2.1
          ++ " where id=".toList ++ st.2.2 ++ ";".toList, none), m1, w1)

/-- The package state after `Exec(query)` on a target. -/
def World.record (w : World) (target : Target) (query : GoString) : World :=
  { w with executed := w.executed ++ [(target, query)] }

/-- The function `Update` (morm.go, lines 485-500). The result is the error
returned (`none` for nil), the model and the package state afterwards. -/
def Update (d : Driver) (now : Time) (oF : RangeOrder (GoString × fieldStruct))
    (oV : RangeOrder (GoString × GoString)) (m : Model) (transaction : Option Tx)
    (w : World) : Option (Option Error × Model × World) :=
  match prepareUpdateQuery now oF oV m w with
  | none => none
  | some ((_, some err), m1, w1) => some (some err, m1, w1)
  | some ((query, none), m1, w1) =>
    match transaction with
    | some t =>
      match d.exec (.tx t) query with
      | .failed err => some (some err, m1, w1.record (.tx t) query)
      | _ => some (none, m1, w1.record (.tx t) query)
    | none =>
      match d.exec .db query with
      | .failed err => some (some err, m1, w1.record .db query)
      | _ => some (none, m1, w1.record .db query)

/-- The function `Save` (morm.go, lines 425-456). -/
def Save (d : Driver) (now : Time) (oF : RangeOrder (GoString × fieldStruct))
    (oV : RangeOrder (GoString × GoString)) (m : Model) (transaction : Option Tx)
    (w : World) : Option (Option Error × Model × World) :=
  if m.GetID ≠ 0 then Update d now oF oV m transaction w
  else
    match setTimeField m "CreatedAt".toList now with
    | none => none
    | some m1 =>
      match setTimeField m1 "UpdatedAt".toList now with
      | none => none
      | some m2 =>
        match GetSQLFieldsAndValues oF oV m2.toStruct w with
        | none => none
        | some ((fields, values), w1) =>
          let query := "insert into ".toList ++ m2.TableName ++ " ( ".toList ++ fields
            ++ ") VALUES (".toList ++ values ++ ")".toList
          match transaction with
          | some t =>
            match d.exec (.tx t) query with
            | .failed err => some (some err, m2, w1.record (.tx t) query)
            | .done id => some (none, m2.SetID (uint64 id), w1.record (.tx t) query)
            | .doneNoId _ => some (none, m2, w1.record (.tx t) query)
          | none =>
            match d.exec .db query with
            | .failed err => some (some err, m2, w1.record .db query)
            | .done id => some (none, m2.SetID (uint64 id), w1.record .db query)
            | .doneNoId _ => some (none, m2, w1.record .db query)

/-! ### Select lists -/

/-- The library call `strings.Split(s, sep)` for a separator of one
character. -/
def stringsSplit (sep : Char) : GoString → List GoString
  | [] => [[]]
  | c :: cs =>
    if c = sep then [] :: stringsSplit sep cs
    else
      match stringsSplit sep cs with
      | [] => [[c]]
      | seg :: segs => (c :: seg) :: segs

/-- The library call `strings.Join(elems, sep)`. -/
def stringsJoin (elems : List GoString) (sep : GoString) : GoString :=
  sep.intercalate elems

/-- The entry `getChainedFields` writes for one column (morm.go, line 302). -/
def chainedEntry (tableName pfx SQLName : GoString) : GoString :=
  tableName ++ ".".toList ++ SQLName ++ " \"".toList ++ pfx ++ SQLName ++ "\"".toList

/-- The function `getChainedFields` (morm.go, lines 285-306), with the order
in which it ranges over the descriptors. The loop state is
`(rawsql, rawsqlLast)`. Reading through the nil pointer the registry gives for
an unknown table panics. -/
def getChainedFields (o : RangeOrder (GoString × fieldStruct)) (qualifiedName : GoString)
    (w : World) : Option GoString :=
  let path := stringsSplit '.' qualifiedName
  let pfx := if path.length = 1 then qualifiedName ++ ".".toList
    else stringsJoin (path.drop 1) ".".toList ++ ".".toList
  let tableName := if path.length = 1 then qualifiedName else path.getLastD []
  match w.modelFields.get? tableName with
  | none => none
  | some fields =>
    some ((o.pick fields).foldl
      (fun (st : GoString × GoString) (kv : GoString × fieldStruct) =>
        let rawsql := st.2 ++ chainedEntry tableName pfx kv.2.SQLName
        (rawsql, rawsql ++ ",\n".toList))
      ([], [])).1

/-- The package state after the write `modelSQLFields[qualifiedName] = temp`. -/
def World.cached (w : World) (qualifiedName temp : GoString) : World :=
  { w with modelSQLFields := w.modelSQLFields.set qualifiedName temp }

/-- The loop of `GetSQLFields` (morm.go, lines 313-323), with the loop
variables `result` and `oldResult`. -/
def GetSQLFieldsLoop (o : GoString → RangeOrder (GoString × fieldStruct)) :
    List GoString → GoString → GoString → World → Option (GoString × World)
  | [], _, oldResult, w => some (oldResult, w)
  | qualifiedName :: rest, result, _, w =>
    match w.modelSQLFields.get? qualifiedName with
    | some temp =>
      GetSQLFieldsLoop o rest (result ++ temp ++ ",\n".toList) (result ++ temp) w
    | none =>
      match getChainedFields (o qualifiedName) qualifiedName w with
      | none => none
      | some temp =>
        GetSQLFieldsLoop o rest (result ++ temp ++ ",\n".toList) (result ++ temp)
          (w.cached qualifiedName temp)

/-- The function `GetSQLFields` (morm.go, lines 310-325); `o q` is the order
in which the descriptors are visited when the list of `q` is computed. -/
def GetSQLFields (o : GoString → RangeOrder (GoString × fieldStruct))
    (tableNames : List GoString) (w : World) : Option (GoString × World) :=
  GetSQLFieldsLoop o tableNames [] [] w

/-! ### Coercion helpers -/

/-- The scanning loop of `strconv.ParseUint(s, 10, bitSize)`: every character
has to be a decimal digit, and the value may not exceed `maxVal` (a range
error otherwise). `none` is an error. -/
def parseUintLoop (maxVal : Nat) : GoString → Nat → Option Nat
  | [], n => some n
  | c :: cs, n =>
    if c.isDigit then
      if n * 10 + (c.toNat - 48) > maxVal then none
      else parseUintLoop maxVal cs (n * 10 + (c.toNat - 48))
    else none

/-- The library call `strconv.ParseUint(s, 10, bitSize)`; `none` is an error
(of syntax for the empty text or a character that is no digit, of range for a
value above `2 ^ bitSize - 1`). -/
def ParseUint (s : GoString) (bitSize : Nat) : Option Nat :=
  if s = [] then none else parseUintLoop (2 ^ bitSize - 1) s 0

/-- The library call `strconv.ParseInt(s, 10, bitSize)`: an optional sign `+`
or `-`, then what `ParseUint` reads; the value has to lie in the signed range
of `bitSize` bits. `none` is an error. -/
def ParseInt (s : GoString) (bitSize : Nat) : Option Int :=
  match s with
  | [] => none
  | c :: rest =>
    match ParseUint (if c = '+' ∨ c = '-' then rest else c :: rest) bitSize with
    | none => none
    | some un =>
      if c = '-' then
        if un > 2 ^ (bitSize - 1) then none else some (-(un : Int))
      else
        if un ≥ 2 ^ (bitSize - 1) then none else some (un : Int)

/-- The dynamic value of the argument `i interface{}` of the coercion helpers:
nil, an integer of a fixed width, a byte sequence (`[]byte`, read as text), or
a value of any other type. -/
inductive Untyped where
  | nil
  | int8 (v : Int)
  | int16 (v : Int)
  | int32 (v : Int)
  | int64 (v : Int)
  | uint8 (v : Nat)
  | uint16 (v : Nat)
  | uint32 (v : Nat)
  | uint64 (v : Nat)
  | bytes (b : GoString)
  | other
deriving DecidableEq

/-- The conversion `int64(v)`: the value in the signed 64-bit range that is
congruent to `v` modulo `2 ^ 64`. -/
def int64 (v : Int) : Int := (v + 2 ^ 63) % 2 ^ 64 - 2 ^ 63

/-- The function `SafeUint64` (morm.go, lines 42-68); `none` is the panic on
an unsupported type. -/
def SafeUint64 : Untyped → Option Nat
  | .nil => some 0
  | .int32 v => some (uint64 v)
  | .int64 v => some (uint64 v)
  | .int16 v => some (uint64 v)
  | .uint32 v => some (uint64 v)
  | .uint64 v => some (uint64 v)
  | .uint16 v => some (uint64 v)
  | .bytes b =>
    match ParseUint b 64 with
    | none => some 0
    | some r => some r
  | _ => none

/-- The function `SafeInt64` (morm.go, lines 71-97). -/
def SafeInt64 : Untyped → Option Int
  | .nil => some 0
  | .int32 v => some (int64 v)
  | .int64 v => some (int64 v)
  | .int16 v => some (int64 v)
  | .uint32 v => some (int64 v)
  | .uint64 v => some (int64 v)
  | .uint16 v => some (int64 v)
  | .bytes b =>
    match ParseInt b 64 with
    | none => some 0
    | some r => some r
  | _ => none

/-- The function `SafeInt` (morm.go, lines 100-124), with `int` 64 bits wide,
so that `int(v)` is `int64(v)`. -/
def SafeInt : Untyped → Option Int
  | .nil => some 0
  | .int64 v => some (int64 v)
  | .int32 v => some (int64 v)
  | .int16 v => some (int64 v)
  | .uint32 v => some (int64 v)
  | .uint16 v => some (int64 v)
  | .bytes b =>
    match ParseInt b 32 with
    | none => some 0
    | some r => some (int64 r)
  | _ => none

/-- The value of a text of decimal digits, read from the left; `none` for a
text with a character that is no digit. No bound on the value. -/
def numeralValue : GoString → Nat → Option Nat
  | [], n => some n
  | c :: cs, n => if c.isDigit then numeralValue cs (n * 10 + (c.toNat - 48)) else none

/-- The natural number a text denotes in base 10: one or more decimal digits
(leading zeros allowed), no sign. -/
def unsignedNumeral (b : GoString) : Option Nat :=
  if b = [] then none else numeralValue b 0

/-- The integer a text denotes in base 10: an optional sign `+` or `-`, then
one or more decimal digits. -/
def signedNumeral (b : GoString) : Option Int :=
  match b with
  | [] => none
  | c :: ds =>
    if c = '+' then (unsignedNumeral ds).map (fun k => (k : Int))
    else if c = '-' then (unsignedNumeral ds).map (fun k => -(k : Int))
    else (unsignedNumeral (c :: ds)).map (fun k => (k : Int))

/-! ### Finding rows -/

/-- A row as `MapScan` fills it: column name to untyped value. -/
abbrev Row := GoMap Untyped

/-- What `MapScan` returns for a row: the error `sql.ErrNoRows`, another
error, or the filled map. -/
inductive ScanResult where
  | noRows
  | failed (err : Error)
  | row (r : Row)

/-- What `Queryx` returns: the error `sql.ErrNoRows`, another error, or the
rows, each with what `MapScan` will return for it. -/
inductive QueryResult where
  | errNoRows
  | failed (err : Error)
  | rows (l : List ScanResult)

/-- The database behind the handle `dbx` for queries: its answer to
`QueryRowx(query).MapScan` and to `Queryx(query)`. The handle is taken to be
open. -/
structure QueryDriver where
  queryRowx : GoString → ScanResult
  queryx : GoString → QueryResult

/-- The text both find functions build (morm.go, lines 543-549 and 568-574):
the select list, the table, one condition followed by ` AND ` for every entry
of the predicate map in the order of the traversal, and the condition on
`deleted_at` with the given ending. -/
def findQuery (oM : RangeOrder (GoString × GoString)) (fields tablename : GoString)
    (m : GoMap GoString) (ending : GoString) : GoString :=
  (oM.pick m).foldl
      (fun (query : GoString) (kv : GoString × GoString) =>
        query ++ (tablename ++ ".".toList ++ kv.1 ++ "=".toList ++ kv.2) ++ " AND ".toList)
      ("select ".toList ++ fields ++ " from ".toList ++ tablename ++ " where ".toList)
    ++ (tablename ++ ending)

/-- The function `FindByColumn` (morm.go, lines 542-559). The result is the
pair the source returns (`none` for a nil map, `none` for a nil error) and the
package state afterwards. -/
def FindByColumn (d : QueryDriver) (o : GoString → RangeOrder (GoString × fieldStruct))
    (oM : RangeOrder (GoString × GoString)) (tablename : GoString) (m : GoMap GoString)
    (w : World) : Option ((Option Row × Option Error) × World) :=
  match GetSQLFields o [tablename] w with
  | none => none
  | some (fields, w1) =>
    match d.queryRowx (findQuery oM fields tablename m ".deleted_at is null limit 1".toList) with
    | .noRows => some ((none, none), w1)
    | .failed err => some ((none, some err), w1)
    | .row r => some ((some r, none), w1)

/-- The loop `for rows.Next()` of `FindAllByColumn` (morm.go, lines 583-592). -/
def scanRows : List ScanResult → List Row → Option (List Row) × Option Error
  | [], result => (some result, none)
  | .noRows :: _, _ => (none, none)
  | .failed err :: _, _ => (none, some err)
  | .row r :: rest, result => scanRows rest (result ++ [r])

/-- The function `FindAllByColumn` (morm.go, lines 567-594). In the result
`none` is the nil slice and `some []` the empty slice made by `make`. -/
def FindAllByColumn (d : QueryDriver) (o : GoString → RangeOrder (GoString × fieldStruct))
    (oM : RangeOrder (GoString × GoString)) (tablename : GoString) (m : GoMap GoString)
    (w : World) : Option ((Option (List Row) × Option Error) × World) :=
  match GetSQLFields o [tablename] w with
  | none => none
  | some (fields, w1) =>
    match d.queryx (findQuery oM fields tablename m ".deleted_at is null".toList) with
    | .errNoRows => some ((none, none), w1)
    | .failed err => some ((none, some err), w1)
    | .rows l => some (scanRows l [], w1)

/-! ### The connection -/

/-- A database handle `*sqlx.DB`. -/
structure DB where
  id : Nat
deriving DecidableEq

/-- What `sqlx.Open` returns: an error (and a nil handle) or a handle. -/
inductive OpenResult where
  | failed (err : Error)
  | opened (db : DB)
deriving DecidableEq

/-- The world outside for the connection: the answer to `Ping` on a handle
(`none` for no error) and to `sqlx.Open("mysql", connectionString)`. -/
structure Network where
  ping : DB → Option Error
  sqlxOpen : GoString → OpenResult

/-- What the package does to the database server: a probe of a handle or an
attempt to connect with a connection string. -/
inductive ConnEvent where
  | ping (db : DB)
  | sqlxOpen (connectionString : GoString)
deriving DecidableEq

/-- The package-level variables `dbx` and `connectionString` (morm.go, lines
18-19), with the probes and connection attempts made so far, oldest first. -/
structure Conn where
  dbx : Option DB
  connectionString : GoString
  events : List ConnEvent
deriving DecidableEq

/-- The function `connectDB` (morm.go, lines 222-231). -/
def connectDB (net : Network) (c : Conn) : (Option DB × Option Error) × Conn :=
  match net.sqlxOpen c.connectionString with
  | .failed err =>
    ((none, some err),
      { c with dbx := none, events := c.events ++ [.sqlxOpen c.connectionString] })
  | .opened db =>
    ((some db, none),
      { c with dbx := some db, events := c.events ++ [.sqlxOpen c.connectionString] })

/-- The function `CheckDB` (morm.go, lines 197-211). -/
def CheckDB (net : Network) (c : Conn) : (Option DB × Option Error) × Conn :=
  match c.dbx with
  | none => ((none, some "DB not initialized".toList), c)
  | some db =>
    match net.ping db with
    | some _ =>
      match connectDB net { c with events := c.events ++ [.ping db] } with
      | ((_, some err2), c2) => ((none, some err2), c2)
      | ((_, none), c2) => ((c2.dbx, none), c2)
    | none => ((some db, none), { c with events := c.events ++ [.ping db] })

/-! ### Words of the specification and sample values -/

/-- The assignment `column=literal` of one rendered entry. -/
def assignment (kv : GoString × GoString) : GoString := kv.1 ++ "=".toList ++ kv.2

/-- The rendered entries other than the one of the column `id`. -/
def withoutID (l : List (GoString × GoString)) : List (GoString × GoString) :=
  l.filter (fun kv => decide (¬ kv.1 = "id".toList))

/-- The descriptors `prepareModelForScan` records for the fields of a struct,
from field `i` on, in the order of declaration: one for every field with a
non-empty tag, under the field's Go name. -/
def taggedFrom : Nat → List StructField → List (GoString × fieldStruct)
  | _, [] => []
  | i, f :: rest =>
    if f.Tag.length > 0 then (f.Name, ⟨f.Tag, f.Name, i⟩) :: taggedFrom (i + 1) rest
    else taggedFrom (i + 1) rest

/-- The fields of a struct that carry a non-empty `sqlx` tag. -/
def Struct.tagged (m : Struct) : List StructField :=
  m.Fields.filter (fun f => decide (f.Tag ≠ []))

/-- The registry knows the table of `m` from the type of `m` or not at all: an
entry under the table name of `m` is the one `prepareModelForScan` makes for
the struct type of `m`. -/
def RegistryFits (w : World) (m : Struct) : Prop :=
  w.modelFields.get? m.TableName = none
    ∨ w.modelFields.get? m.TableName = some (scanFields 0 m.Fields [])

/-- The loop of `GetMapValues` gets through its body for the field: the field
is exported and does not hold a non-nil pointer to a struct other than
`time.Time`. -/
def StructField.readable (f : StructField) : Bool :=
  isExported f.Name && decide (f.Val ≠ Value.structPtr)

/-- Every tagged field of the struct can be read by `GetMapValues`. -/
def Struct.readable (m : Struct) : Bool := m.tagged.all StructField.readable

/-- The text the loop of `GetMapValues` writes for the field at an index. -/
def renderAt (vals : List StructField) (i : Nat) : GoString :=
  match vals[i]? with
  | some f => renderValue f.Val
  | none => []

/-- Where `Save` and `Update` execute their statement: on the transaction when
one is given, on the handle `dbx` otherwise. -/
def targetOf (transaction : Option Tx) : Target :=
  match transaction with
  | some t => .tx t
  | none => .db

/-- The field of the model's struct with the given Go name, among the fields
declared after `ID`. -/
def Model.field? (m : Model) (name : GoString) : Option StructField :=
  m.Fields.find? (fun f => decide (f.Name = name))

/-- Whether a value is of type `*time.Time`. -/
def isTimePtr : Value → Bool
  | .timePtr _ => true
  | _ => false

/-- The model has a field of the given Go name and of type `*time.Time`. -/
def Model.hasTimeField (m : Model) (name : GoString) : Bool :=
  match m.field? name with
  | some f => isTimePtr f.Val
  | none => false

/-- The text of the statement `Save` builds (morm.go, line 433). -/
def insertQuery (tableName fields values : GoString) : GoString :=
  "insert into ".toList ++ tableName ++ " ( ".toList ++ fields
    ++ ") VALUES (".toList ++ values ++ ")".toList

/-- The form `YYYY-MM-DD HH:MM:SS`: four digits, a hyphen, two digits, a
hyphen, two digits, a space, and two digits three times with colons between;
19 characters. -/
def IsDateTimeText (s : GoString) : Prop :=
  ∃ Y Mo D H Mi S : GoString,
    s = Y ++ "-".toList ++ Mo ++ "-".toList ++ D ++ " ".toList ++ H ++ ":".toList ++ Mi
        ++ ":".toList ++ S
      ∧ Y.length = 4 ∧ Mo.length = 2 ∧ D.length = 2 ∧ H.length = 2 ∧ Mi.length = 2
      ∧ S.length = 2 ∧ ∀ c ∈ Y ++ Mo ++ D ++ H ++ Mi ++ S, c.isDigit = true

/-- The entry of the select list for the column `c` of the table `T`: the
qualified column `T.c`, a space, and the same qualified name between double
quotes. -/
def qualifiedEntry (T c : GoString) : GoString :=
  T ++ ".".toList ++ c ++ " ".toList ++ "\"".toList ++ (T ++ ".".toList ++ c) ++ "\"".toList

/-- The entries of a table whose descriptors are visited in the given
sequence. -/
def tableEntries (T : GoString) (descriptors : List (GoString × fieldStruct)) :
    List GoString :=
  descriptors.map (fun kv => qualifiedEntry T kv.2.SQLName)

/-- The model `teststruct1` of morm_test.go (lines 9-16) with the given
identifier, name and timestamps. -/
def teststruct1 (ID : Nat) (Name : GoString) (CreatedAt UpdatedAt DeletedAt : Option Time) :
    Model :=
  { TableName := "teststruct1".toList
    ID := ID
    IDTag := "id".toList
    Fields :=
      [ ⟨"Name".toList, "name".toList, .string Name⟩,
        ⟨"Dummy".toList, [], .string []⟩,
        ⟨"CreatedAt".toList, "created_at".toList, .timePtr CreatedAt⟩,
        ⟨"UpdatedAt".toList, "updated_at".toList, .timePtr UpdatedAt⟩,
        ⟨"DeletedAt".toList, "deleted_at".toList, .timePtr DeletedAt⟩ ] }

/-- The model `teststruct2` of morm_test.go (lines 18-24). -/
def teststruct2 (ID : Nat) (Name : GoString) (CreatedAt UpdatedAt DeletedAt : Option Time) :
    Model :=
  { TableName := "teststruct2".toList
    ID := ID
    IDTag := "id".toList
    Fields :=
      [ ⟨"Name".toList, "name".toList, .string Name⟩,
        ⟨"CreatedAt".toList, "created_at".toList, .timePtr CreatedAt⟩,
        ⟨"UpdatedAt".toList, "updated_at".toList, .timePtr UpdatedAt⟩,
        ⟨"DeletedAt".toList, "deleted_at".toList, .timePtr DeletedAt⟩ ] }

/-- A model with the table name `t`, the given identifier, a string field
`name` tagged `name` whose Go name is not exported, and the two time stamps. -/
def lowerCaseModel (ID : Nat) : Model :=
  { TableName := "t".toList
    ID := ID
    IDTag := "id".toList
    Fields :=
      [ ⟨"name".toList, "name".toList, .string "bob".toList⟩,
        ⟨"CreatedAt".toList, "created_at".toList, .timePtr none⟩,
        ⟨"UpdatedAt".toList, "updated_at".toList, .timePtr none⟩ ] }

/-- The package state of a fresh process. -/
def World.fresh : World := ⟨[], [], []⟩

/-- The package state of the test `TestPrepareModelForScan` (morm_test.go,
lines 51 and 59) when it calls `GetSQLFields`: both test models registered. -/
def World.afterInitModels : World :=
  prepareModelForScan (teststruct2 0 [] none none none).toStruct
    (prepareModelForScan (teststruct1 0 [] none none none).toStruct World.fresh)

/-- A package state in which a model whose table name is `a.b` (one column,
`x`) and a model whose table name is `t` (one column, `y`) are registered. -/
def World.dottedTable : World :=
  prepareModelForScan ⟨"t".toList, [⟨"Y".toList, "y".toList, .int 0⟩]⟩
    (prepareModelForScan ⟨"a.b".toList, [⟨"X".toList, "x".toList, .int 0⟩]⟩ World.fresh)

/-- The entry that selects the column `c` of the table `L` under the alias
`P.c`: the qualified column `L.c`, a space, and `P.c` between double quotes. -/
def aliasedEntry (L P c : GoString) : GoString :=
  L ++ ".".toList ++ c ++ " ".toList ++ "\"".toList ++ (P ++ ".".toList ++ c) ++ "\"".toList

/-- The item of the column list for one rendered entry: the key between
backquotes. -/
def columnItem (kv : GoString × GoString) : GoString := "`".toList ++ kv.1 ++ "`".toList

/-- One change of the package state by the package: a registration
(`prepareModelForScan`, `InitModels`), a rendering (`GetMapValues`, and through
it `GetSQLValues`, `GetSQLFieldsAndValues`, `prepareUpdateQuery`, `Save` and
`Update`), a select list (`GetSQLFields`, and through it the find functions),
or the execution of a statement. -/
inductive World.Step : World → World → Prop
  | register (m : Struct) (w : World) : World.Step w (prepareModelForScan m w)
  | render (o : RangeOrder (GoString × fieldStruct)) (m : Struct) (w w1 : World)
      (mp : GoMap GoString) (h : GetMapValues o m w = some (mp, w1)) : World.Step w w1
  | fields (o : GoString → RangeOrder (GoString × fieldStruct)) (names : List GoString)
      (w w1 : World) (text : GoString) (h : GetSQLFields o names w = some (text, w1)) :
      World.Step w w1
  | exec (w : World) (target : Target) (query : GoString) :
      World.Step w (w.record target query)

/-- Any number of changes of the package state, one after the other. -/
def World.Steps : World → World → Prop := Relation.ReflTransGen World.Step

/-- The select list of `teststruct1` with the columns in the order of
declaration. -/
def teststruct1List : GoString :=
  "teststruct1.id \"teststruct1.id\",\nteststruct1.name \"teststruct1.name\",\nteststruct1.created_at \"teststruct1.created_at\",\nteststruct1.updated_at \"teststruct1.updated_at\",\nteststruct1.deleted_at \"teststruct1.deleted_at\"".toList

/-- A package state in which a model without a tagged field, table `a`, and
a model with the one column `y`, table `b`, are registered. -/
def World.emptyTable : World :=
  prepareModelForScan ⟨"b".toList, [⟨"Y".toList, "y".toList, .int 0⟩]⟩
    (prepareModelForScan ⟨"a".toList, [⟨"Note".toList, [], .string []⟩]⟩ World.fresh)

/-! ## Theorems -/

/-! ### Escaping -/

theorem stringsReplace_single (a : Char) (new s : GoString) :
    stringsReplace s [a] new = s.flatMap (fun c => if c = a then new else [c]) := by
  show stringsReplaceFrom [a] new 0 s = _
  induction s with
  | nil => rfl
  | cons c cs ih =>
    by_cases h : c = a
    · subst h
      simp [stringsReplaceFrom, List.isPrefixOf, ih]
    · have h2 : ¬ a = c := fun e => h e.symm
      simp [stringsReplaceFrom, List.isPrefixOf, ih, h, h2]

theorem stage2_eq (s : GoString) :
    stringsReplace (stringsReplace s "\\".toList "\\\\".toList) "'".toList "\\'".toList
      = s.flatMap escapeStage2 := by
  have e1 : "\\".toList = ['\\'] := rfl
  have e2 : "'".toList = ['\''] := rfl
  rw [e1, e2, stringsReplace_single, stringsReplace_single, List.flatMap_assoc]
  congr 1
  funext c
  unfold escapeStage2
  by_cases h1 : c = '\\'
  · subst h1; simp
  · by_cases h2 : c = '\''
    · subst h2; simp
    · simp [h1, h2]

theorem head_flatMap_stage2 (rest : GoString) :
    (rest.flatMap escapeStage2).head? = some '0' ↔ rest.head? = some '0' := by
  cases rest with
  | nil => simp
  | cons d ds =>
    unfold escapeStage2
    by_cases h1 : d = '\\'
    · subst h1; simp
    · by_cases h2 : d = '\''
      · subst h2; simp
      · simp [h1, h2]

theorem replaceFrom_cons_of_no_match (new : GoString) (c : Char) (X : GoString)
    (h : ¬ (c = '\\' ∧ X.head? = some '0')) :
    stringsReplaceFrom "\\0".toList new 0 (c :: X)
      = c :: stringsReplaceFrom "\\0".toList new 0 X := by
  have e : "\\0".toList = ['\\', '0'] := rfl
  rw [e]
  cases X with
  | nil => simp [stringsReplaceFrom, List.isPrefixOf]
  | cons d ds =>
    have h2 : ¬ ('\\' = c ∧ '0' = d) := by
      rintro ⟨rfl, rfl⟩
      exact h ⟨rfl, rfl⟩
    simp only [not_and] at h2
    simp [stringsReplaceFrom, List.isPrefixOf]
    intro a b
    exact absurd b (h2 a)

theorem stage3_eq (s : GoString) :
    stringsReplaceFrom "\\0".toList "\\\\0".toList 0 (s.flatMap escapeStage2)
      = escapeStage3 s := by
  induction s with
  | nil => rfl
  | cons c rest ih =>
    by_cases h1 : c = '\\'
    · subst h1
      by_cases h0 : rest.head? = some '0'
      · obtain ⟨ds, rfl⟩ : ∃ ds, rest = '0' :: ds := by
          cases rest with
          | nil => simp at h0
          | cons d ds => exact ⟨ds, by simp at h0; rw [h0]⟩
        simp [escapeStage2, escapeStage3, stringsReplaceFrom, List.isPrefixOf] at ih ⊢
        exact ih
      · have hX : ¬ ((rest.flatMap escapeStage2).head? = some '0') := by
          rw [head_flatMap_stage2]; exact h0
        have e : ('\\' :: rest).flatMap escapeStage2
            = '\\' :: '\\' :: rest.flatMap escapeStage2 := by
          simp [escapeStage2]
        rw [e, replaceFrom_cons_of_no_match _ _ _ (by simp),
          replaceFrom_cons_of_no_match _ _ _ (by simp [hX]), ih]
        simp [escapeStage3, escapeStage2, h0]
    · by_cases h2 : c = '\''
      · subst h2
        have e : ('\'' :: rest).flatMap escapeStage2
            = '\\' :: '\'' :: rest.flatMap escapeStage2 := by
          simp [escapeStage2]
        rw [e, replaceFrom_cons_of_no_match _ _ _ (by simp),
          replaceFrom_cons_of_no_match _ _ _ (by simp), ih]
        simp [escapeStage3, escapeStage2]
      · have e : (c :: rest).flatMap escapeStage2 = c :: rest.flatMap escapeStage2 := by
          simp [escapeStage2, h1, h2]
        rw [e, replaceFrom_cons_of_no_match _ _ _ (by simp [h1]), ih]
        simp [escapeStage3, escapeStage2, h1, h2]

theorem stage7_eq (x : GoString) :
    stringsReplace (stringsReplace (stringsReplace (stringsReplace x
      "\n".toList "\\n".toList) "\r".toList "\\r".toList) "\"".toList "\\\"".toList)
      "\x1a".toList "\\Z".toList = x.flatMap escapeStage7 := by
  have e1 : "\n".toList = ['\n'] := rfl
  have e2 : "\r".toList = ['\r'] := rfl
  have e3 : "\"".toList = ['"'] := rfl
  have e4 : "\x1a".toList = ['\x1a'] := rfl
  rw [e1, e2, e3, e4, stringsReplace_single, stringsReplace_single, stringsReplace_single,
    stringsReplace_single, List.flatMap_assoc, List.flatMap_assoc, List.flatMap_assoc]
  congr 1
  funext c
  unfold escapeStage7
  by_cases h1 : c = '\n'
  · subst h1; simp
  · by_cases h2 : c = '\r'
    · subst h2; simp
    · by_cases h3 : c = '"'
      · subst h3; simp
      · by_cases h4 : c = '\x1a'
        · subst h4; simp
        · simp [h1, h2, h3, h4]

theorem stage7_stage2 (c : Char) : (escapeStage2 c).flatMap escapeStage7 = escapeChar c := by
  unfold escapeStage2 escapeChar
  by_cases h1 : c = '\\'
  · subst h1; simp [escapeStage7]
  · by_cases h2 : c = '\''
    · subst h2; simp [escapeStage7]
    · simp [h1, h2, escapeStage7]

theorem stage7_stage3 (s : GoString) :
    (escapeStage3 s).flatMap escapeStage7 = escapeLookahead s := by
  induction s with
  | nil => rfl
  | cons c rest ih =>
    simp only [escapeStage3, escapeLookahead, List.flatMap_append, ih]
    congr 1
    split_ifs with h
    · simp [escapeStage7]
    · exact stage7_stage2 c

/-- The seven successive replacements amount to one pass with one character of
lookahead. -/
theorem MysqlRealEscapeString_eq_lookahead (s : GoString) :
    MysqlRealEscapeString s = escapeLookahead s := by
  have h : MysqlRealEscapeString s
      = stringsReplace (stringsReplace (stringsReplace (stringsReplace
          (stringsReplace (stringsReplace (stringsReplace s "\\".toList "\\\\".toList)
          "'".toList "\\'".toList) "\\0".toList "\\\\0".toList)
          "\n".toList "\\n".toList) "\r".toList "\\r".toList) "\"".toList "\\\"".toList)
          "\x1a".toList "\\Z".toList := rfl
  rw [h, stage7_eq, stage2_eq]
  have h3 : stringsReplace (s.flatMap escapeStage2) "\\0".toList "\\\\0".toList
      = stringsReplaceFrom "\\0".toList "\\\\0".toList 0 (s.flatMap escapeStage2) := rfl
  rw [h3, stage3_eq, stage7_stage3]

/-! ### Runs of backslashes before a double quote -/

theorem trailingBackslashes_snoc (l : GoString) (c : Char) :
    trailingBackslashes (l ++ [c]) = if c = '\\' then trailingBackslashes l + 1 else 0 := by
  unfold trailingBackslashes
  by_cases h : c = '\\'
  · subst h; simp [List.takeWhile]
  · simp [List.takeWhile, h]

theorem takeWhile_append_stop (p : Char → Bool) (q : Char) (hq : p q = false)
    (r : GoString) : (r ++ [q]).takeWhile p = r.takeWhile p := by
  induction r with
  | nil => simp [List.takeWhile, hq]
  | cons a r ih =>
    by_cases ha : p a = true
    · simp [List.takeWhile, ha, ih]
    · simp [List.takeWhile, ha]

theorem trailingBackslashes_quote_cons (x : GoString) :
    trailingBackslashes ('"' :: x) = trailingBackslashes x := by
  unfold trailingBackslashes
  rw [List.reverse_cons, takeWhile_append_stop _ _ (by decide)]

theorem quotesEscaped_snoc (l : GoString) (c : Char) :
    QuotesEscaped (l ++ [c])
      ↔ QuotesEscaped l ∧ (c = '"' → Odd (trailingBackslashes l)) := by
  constructor
  · intro h
    refine ⟨fun pre post e => h pre (post ++ [c]) (by simp [e]), fun hc => ?_⟩
    exact h l [] (by simp [hc])
  · rintro ⟨h1, h2⟩ pre post e
    rcases List.eq_nil_or_concat post with rfl | ⟨post2, d, rfl⟩
    · have e2 : l ++ [c] = pre ++ ['"'] := e
      obtain ⟨rfl, hc⟩ := List.append_inj_left' e2 rfl, List.append_inj_right' e2 rfl
      exact h2 (by simpa using hc)
    · have e2 : l ++ [c] = (pre ++ '"' :: post2) ++ [d] := by simp [e]
      exact h1 pre post2 (List.append_inj_left' e2 rfl)

theorem quotesEscaped_backslashes (p : GoString) (h : QuotesEscaped p) :
    QuotesEscaped (p ++ ['\\', '\\']) ∧ QuotesEscaped (p ++ ['\\', '\\', '\\']) := by
  have two : p ++ ['\\', '\\'] = (p ++ ['\\']) ++ ['\\'] := by simp
  have three : p ++ ['\\', '\\', '\\'] = ((p ++ ['\\']) ++ ['\\']) ++ ['\\'] := by simp
  rw [two, three]
  simp only [quotesEscaped_snoc]
  simp [h]

theorem trailingBackslashes_backslashes (p : GoString) :
    trailingBackslashes (p ++ ['\\', '\\']) = trailingBackslashes p + 2
      ∧ trailingBackslashes (p ++ ['\\', '\\', '\\']) = trailingBackslashes p + 3 := by
  have two : p ++ ['\\', '\\'] = (p ++ ['\\']) ++ ['\\'] := by simp
  have three : p ++ ['\\', '\\', '\\'] = ((p ++ ['\\']) ++ ['\\']) ++ ['\\'] := by simp
  rw [two, three]
  simp only [trailingBackslashes_snoc]
  simp

theorem quotesEscaped_escape_pair (p : GoString) (b : Char) (h : QuotesEscaped p)
    (hev : Even (trailingBackslashes p)) (hb : b ≠ '\\') :
    QuotesEscaped (p ++ ['\\', b]) ∧ trailingBackslashes (p ++ ['\\', b]) = 0 := by
  have two : p ++ ['\\', b] = (p ++ ['\\']) ++ [b] := by simp
  rw [two]
  simp only [quotesEscaped_snoc, trailingBackslashes_snoc]
  refine ⟨⟨⟨h, by simp⟩, fun _ => ?_⟩, by simp [hb]⟩
  simpa using hev.add_one

theorem escapeLookahead_invariant (s : GoString) :
    ∀ p : GoString, QuotesEscaped p → (Even (trailingBackslashes p) ∨ s.head? = some '0') →
      QuotesEscaped (p ++ escapeLookahead s)
        ∧ Even (trailingBackslashes (p ++ escapeLookahead s)) := by
  induction s with
  | nil =>
    intro p hq hp
    simpa [escapeLookahead, hq] using hp
  | cons c rest ih =>
    intro p hq hp
    have step : ∀ t : GoString, QuotesEscaped (p ++ t) →
        (Even (trailingBackslashes (p ++ t)) ∨ rest.head? = some '0') →
        QuotesEscaped (p ++ (t ++ escapeLookahead rest))
          ∧ Even (trailingBackslashes (p ++ (t ++ escapeLookahead rest))) := by
      intro t h1 h2
      rw [← List.append_assoc]
      exact ih (p ++ t) h1 h2
    have pair : ∀ b : Char, b ≠ '\\' → Even (trailingBackslashes p) →
        QuotesEscaped (p ++ (['\\', b] ++ escapeLookahead rest))
          ∧ Even (trailingBackslashes (p ++ (['\\', b] ++ escapeLookahead rest))) := by
      intro b hb hev
      obtain ⟨h1, h2⟩ := quotesEscaped_escape_pair p b hq hev hb
      exact step _ h1 (Or.inl (by rw [h2]; exact even_zero))
    simp only [escapeLookahead]
    by_cases h0 : c = '0'
    · subst h0
      have e : escapeChar '0' = ['0'] := by decide
      rw [if_neg (by simp), e]
      refine step _ ?_ (Or.inl ?_)
      · rw [quotesEscaped_snoc]; exact ⟨hq, by simp⟩
      · rw [trailingBackslashes_snoc]; simp
    have hev : Even (trailingBackslashes p) := by
      rcases hp with h | h
      · exact h
      · simp at h; exact absurd h h0
    by_cases hb : c = '\\'
    · subst hb
      by_cases h0 : rest.head? = some '0'
      · rw [if_pos ⟨rfl, h0⟩]
        have e : "\\\\\\".toList = ['\\', '\\', '\\'] := rfl
        rw [e]
        exact step _ (quotesEscaped_backslashes p hq).2 (Or.inr h0)
      · rw [if_neg (fun h => h0 h.2)]
        have e : escapeChar '\\' = ['\\', '\\'] := rfl
        rw [e]
        refine step _ (quotesEscaped_backslashes p hq).1 (Or.inl ?_)
        rw [(trailingBackslashes_backslashes p).1]
        exact hev.add (by decide)
    · rw [if_neg (fun h => hb h.1)]
      unfold escapeChar
      rw [if_neg hb]
      split_ifs with h1 h2 h3 h4 h5
      · exact pair _ (by decide) hev
      · exact pair _ (by decide) hev
      · exact pair _ (by decide) hev
      · exact pair _ (by decide) hev
      · exact pair _ (by decide) hev
      · refine step _ ?_ (Or.inl ?_)
        · rw [quotesEscaped_snoc]; exact ⟨hq, fun h => absurd h h4⟩
        · rw [trailingBackslashes_snoc]; simp [hb]

theorem quotesEscaped_nil : QuotesEscaped [] := by
  intro pre post e
  cases pre <;> simp at e

theorem escaped_runs (s : GoString) :
    QuotesEscaped (MysqlRealEscapeString s)
      ∧ Even (trailingBackslashes (MysqlRealEscapeString s)) := by
  have h := escapeLookahead_invariant s [] quotesEscaped_nil
    (Or.inl (by simp [trailingBackslashes]))
  rw [MysqlRealEscapeString_eq_lookahead]
  simpa using h

/-- C1: in `MysqlRealEscapeString s` every double quote stands right after a
maximal run of backslashes of odd length, and the text does not end with a run
of backslashes of odd length. Hence in the literal `GetMapValues` writes for a
string field (quote, escaped text, quote) every quote that is neither the first
nor the last character is escaped (odd run before it), and the closing quote is
not (the run before it is not odd). -/
theorem MysqlRealEscapeString_quotes_escaped (s : GoString) :
    (∀ pre post : GoString, MysqlRealEscapeString s = pre ++ '"' :: post →
        Odd (trailingBackslashes pre))
    ∧ ¬ Odd (trailingBackslashes (MysqlRealEscapeString s))
    ∧ renderValue (Value.string s) = "\"".toList ++ MysqlRealEscapeString s ++ "\"".toList
    ∧ (∀ pre post : GoString, renderValue (Value.string s) = pre ++ '"' :: post → pre ≠ [] →
        (post ≠ [] → Odd (trailingBackslashes pre))
        ∧ (post = [] → ¬ Odd (trailingBackslashes pre))) := by
  obtain ⟨hq, hev⟩ := escaped_runs s
  refine ⟨hq, by simpa using hev, rfl, ?_⟩
  intro pre post e hpre
  have hlit : renderValue (Value.string s) = stringLiteral s := rfl
  rw [hlit] at e
  obtain ⟨a, pre2, rfl⟩ := List.exists_cons_of_ne_nil hpre
  have e1 : stringLiteral s = '"' :: (MysqlRealEscapeString s ++ ['"']) := rfl
  rw [e1, List.cons_append, List.cons.injEq] at e
  obtain ⟨ha, e⟩ := e
  subst ha
  rw [trailingBackslashes_quote_cons]
  constructor
  · intro hpost
    obtain ⟨post2, d, rfl⟩ := (List.eq_nil_or_concat post).resolve_left hpost
    have e2 : MysqlRealEscapeString s ++ ['"'] = (pre2 ++ '"' :: post2) ++ [d] := by
      simp [e]
    exact hq pre2 post2 (List.append_inj_left' e2 rfl)
  · rintro rfl
    have e2 : MysqlRealEscapeString s = pre2 := List.append_inj_left' e rfl
    rw [← e2]
    simpa using hev

/-- Apart from a backslash that stands before the digit `0`, the code is the
single pass: on a text without that pair the two agree. -/
theorem MysqlRealEscapeString_eq_singlePass (s : GoString)
    (h : ∀ pre post : GoString, s ≠ pre ++ '\\' :: '0' :: post) :
    MysqlRealEscapeString s = escapeSinglePass s := by
  rw [MysqlRealEscapeString_eq_lookahead]
  unfold escapeSinglePass
  induction s with
  | nil => rfl
  | cons c rest ih =>
    have hc : ¬ (c = '\\' ∧ rest.head? = some '0') := by
      rintro ⟨rfl, h0⟩
      cases rest with
      | nil => simp at h0
      | cons d ds =>
        simp only [List.head?_cons, Option.some.injEq] at h0
        exact h [] ds (by simp [h0])
    simp only [escapeLookahead, if_neg hc, List.flatMap_cons]
    rw [ih (fun pre post e => h (c :: pre) post (by simp [e]))]

/-- C2 (the code at the failing input): for the two characters backslash, `0`
the code returns three backslashes and `0`, where a single pass that escapes
every character once returns two backslashes and `0`: the third replacement
of the table escapes again a backslash the first one wrote. -/
theorem MysqlRealEscapeString_backslash_zero :
    MysqlRealEscapeString "\\0".toList = "\\\\\\0".toList
      ∧ escapeSinglePass "\\0".toList = "\\\\0".toList
      ∧ MysqlRealEscapeString "\\0".toList ≠ escapeSinglePass "\\0".toList := by
  decide

/-! ### Loops that join texts with a separator -/

theorem intercalate_cons (sep x : GoString) (xs : List GoString) :
    sep.intercalate (x :: xs) = if xs = [] then x else x ++ sep ++ sep.intercalate xs := by
  cases xs with
  | nil => simp [List.intercalate]
  | cons y ys => simp [List.intercalate]

/-- The idiom of the source for joining with a separator: `result` carries a
trailing separator, `oldResult` is `result` before the last separator. -/
theorem foldl_join (sep : GoString) (items : List GoString) :
    ∀ a b : GoString,
      items.foldl (fun (st : GoString × GoString) x => (st.1 ++ x ++ sep, st.1 ++ x)) (a, b)
        = (a ++ (items.map (fun x => x ++ sep)).flatten,
            if items = [] then b else a ++ sep.intercalate items) := by
  induction items with
  | nil => intro a b; simp
  | cons x xs ih =>
    intro a b
    rw [List.foldl_cons, ih, intercalate_cons]
    by_cases h : xs = []
    · simp [h]
    · simp [h]

/-! ### Maps -/

theorem goMap_keys_set {ν : Type} (m : GoMap ν) (k : GoString) (v : ν) :
    (GoMap.set m k v).map Prod.fst
      = if k ∈ m.map Prod.fst then m.map Prod.fst else m.map Prod.fst ++ [k] := by
  induction m with
  | nil => simp [GoMap.set]
  | cons e rest ih =>
    obtain ⟨k2, v2⟩ := e
    by_cases h : k2 = k
    · subst h; simp only [GoMap.set, List.map_cons, List.mem_cons, true_or, if_true]
    · have h2 : ¬ k = k2 := fun e => h e.symm
      simp only [GoMap.set, if_neg h, List.map_cons, ih, List.mem_cons, h2, false_or]
      split_ifs <;> simp

theorem goMap_nodup_set {ν : Type} (m : GoMap ν) (k : GoString) (v : ν)
    (h : (m.map Prod.fst).Nodup) : ((GoMap.set m k v).map Prod.fst).Nodup := by
  rw [goMap_keys_set]
  split_ifs with hk
  · exact h
  · exact List.Nodup.append h (List.nodup_singleton k) (List.disjoint_singleton.2 hk)

theorem goMap_mem_of_get {ν : Type} (m : GoMap ν) (k : GoString) (v : ν)
    (h : GoMap.get? m k = some v) : (k, v) ∈ m := by
  induction m with
  | nil => simp [GoMap.get?] at h
  | cons e rest ih =>
    obtain ⟨k2, v2⟩ := e
    by_cases hk : k2 = k
    · subst hk
      simp [GoMap.get?] at h
      simp [h]
    · simp only [GoMap.get?, if_neg hk] at h
      exact List.mem_cons_of_mem _ (ih h)

theorem goMap_get_of_mem {ν : Type} (m : GoMap ν) (k : GoString) (v : ν)
    (hn : (m.map Prod.fst).Nodup) (h : (k, v) ∈ m) : GoMap.get? m k = some v := by
  induction m with
  | nil => simp at h
  | cons e rest ih =>
    obtain ⟨k2, v2⟩ := e
    rw [List.map_cons, List.nodup_cons] at hn
    rcases List.mem_cons.mp h with h1 | h1
    · cases h1; simp [GoMap.get?]
    · have hk : k2 ≠ k := by
        rintro rfl
        exact hn.1 (List.mem_map.mpr ⟨_, h1, rfl⟩)
      simp only [GoMap.get?, if_neg hk]
      exact ih hn.2 h1

theorem renderFields_cons (vals : List StructField) (name : GoString) (field : fieldStruct)
    (rest : List (GoString × fieldStruct)) (acc : GoMap GoString) (vf : StructField)
    (hf : vals[field.Index]? = some vf) (hr : vf.readable = true) :
    renderFields vals ((name, field) :: rest) acc
      = renderFields vals rest (acc.set field.SQLName (renderValue vf.Val)) := by
  unfold StructField.readable at hr
  simp only [Bool.and_eq_true, decide_eq_true_eq] at hr
  simp only [renderFields, hf]
  rw [if_neg (by simp [hr.1]), if_neg hr.2]

theorem renderFields_cons_some (vals : List StructField) (name : GoString)
    (field : fieldStruct) (rest : List (GoString × fieldStruct)) (acc result : GoMap GoString)
    (h : renderFields vals ((name, field) :: rest) acc = some result) :
    ∃ vf, vals[field.Index]? = some vf ∧ vf.readable = true
      ∧ renderFields vals rest (acc.set field.SQLName (renderValue vf.Val)) = some result := by
  simp only [renderFields] at h
  cases hf : vals[field.Index]? with
  | none => rw [hf] at h; simp at h
  | some vf =>
    rw [hf] at h
    simp only at h
    by_cases h1 : isExported vf.Name = false
    · rw [if_pos h1] at h; cases h
    · rw [if_neg h1] at h
      by_cases h2 : vf.Val = Value.structPtr
      · rw [if_pos h2] at h; cases h
      · rw [if_neg h2] at h
        exact ⟨vf, rfl, by simpa [StructField.readable, h2] using h1, h⟩

theorem renderFields_nodup (vals : List StructField) (l : List (GoString × fieldStruct)) :
    ∀ acc result : GoMap GoString, (acc.map Prod.fst).Nodup →
      renderFields vals l acc = some result → (result.map Prod.fst).Nodup := by
  induction l with
  | nil =>
    intro acc result hn h
    simp only [renderFields, Option.some.injEq] at h
    exact h ▸ hn
  | cons e rest ih =>
    intro acc result hn h
    obtain ⟨name, field⟩ := e
    obtain ⟨vf, _, _, h2⟩ := renderFields_cons_some vals name field rest acc result h
    exact ih _ _ (goMap_nodup_set acc _ _ hn) h2

theorem GetMapValues_nodup (o : RangeOrder (GoString × fieldStruct)) (m : Struct)
    (w w1 : World) (mp : GoMap GoString) (h : GetMapValues o m w = some (mp, w1)) :
    (mp.map Prod.fst).Nodup := by
  unfold GetMapValues at h
  simp only at h
  split at h
  · simp at h
  · split at h
    · simp at h
    · rename_i result hr
      simp only [Option.some.injEq, Prod.mk.injEq] at h
      exact h.1 ▸ renderFields_nodup _ _ [] result (by simp) hr

/-! ### The update statement -/

theorem foldl_join_filter {α : Type} (q : α → Prop) [DecidablePred q]
    (g val : α → GoString) (sep : GoString) (l : List α) :
    ∀ sv osv sid : GoString,
      l.foldl
        (fun (st : GoString × GoString × GoString) (x : α) =>
          if q x then (st.1, st.2.1, val x)
          else (st.1 ++ g x ++ sep, st.1 ++ g x, st.2.2))
        (sv, osv, sid)
      = (sv ++ (((l.filter (fun x => decide (¬ q x))).map g).map (fun x => x ++ sep)).flatten,
          (if (l.filter (fun x => decide (¬ q x))).map g = [] then osv
            else sv ++ sep.intercalate ((l.filter (fun x => decide (¬ q x))).map g)),
          l.foldl (fun s x => if q x then val x else s) sid) := by
  induction l with
  | nil => intro sv osv sid; simp
  | cons e rest ih =>
    intro sv osv sid
    by_cases h : q e
    · rw [List.foldl_cons, if_pos h, ih, List.foldl_cons, if_pos h]
      have hf : List.filter (fun x => decide (¬ q x)) (e :: rest)
          = List.filter (fun x => decide (¬ q x)) rest := by
        rw [List.filter_cons]; simp [h]
      rw [hf]
    · rw [List.foldl_cons, if_neg h, ih, List.foldl_cons, if_neg h]
      have hf : List.filter (fun x => decide (¬ q x)) (e :: rest)
          = e :: List.filter (fun x => decide (¬ q x)) rest := by
        rw [List.filter_cons]; simp [h]
      rw [hf, List.map_cons, intercalate_cons]
      generalize (List.filter (fun x => decide (¬ q x)) rest).map g = items
      by_cases hr : items = []
      · simp [hr]
      · simp [hr]

theorem lastValue_of_not_mem (k : GoString) (l : List (GoString × GoString)) :
    ∀ s : GoString, k ∉ l.map Prod.fst →
      l.foldl (fun s kv => if kv.1 = k then kv.2 else s) s = s := by
  induction l with
  | nil => intro s _; rfl
  | cons e rest ih =>
    intro s h
    rw [List.map_cons, List.mem_cons, not_or] at h
    rw [List.foldl_cons, if_neg (fun e2 => h.1 e2.symm)]
    exact ih s h.2

theorem lastValue_of_mem (k v : GoString) (l : List (GoString × GoString)) :
    ∀ s : GoString, (l.map Prod.fst).Nodup → (k, v) ∈ l →
      l.foldl (fun s kv => if kv.1 = k then kv.2 else s) s = v := by
  induction l with
  | nil => intro s _ h; simp at h
  | cons e rest ih =>
    intro s hn h
    rw [List.map_cons, List.nodup_cons] at hn
    rcases List.mem_cons.mp h with h1 | h1
    · subst h1
      rw [List.foldl_cons, if_pos rfl]
      exact lastValue_of_not_mem k rest v hn.1
    · rw [List.foldl_cons]
      exact ih _ hn.2 h1

theorem setField_names (fs : List StructField) (field : GoString) (t : Time) :
    ∀ fs2 : List StructField, setField fs field t = some fs2 →
      fs2.map (fun f => (f.Name, f.Tag)) = fs.map (fun f => (f.Name, f.Tag)) := by
  induction fs with
  | nil => intro fs2 h; simp [setField] at h
  | cons f rest ih =>
    intro fs2 h
    simp only [setField] at h
    split_ifs at h with hn
    · split at h
      · simp only [Option.some.injEq] at h
        subst h
        simp
      · simp at h
    · split at h
      · simp at h
      · rename_i rest2 hr
        simp only [Option.some.injEq] at h
        subst h
        simp [ih rest2 hr]

theorem setTimeField_same (m m1 : Model) (field : GoString) (t : Time)
    (h : setTimeField m field t = some m1) :
    m1.TableName = m.TableName ∧ m1.ID = m.ID ∧ m1.IDTag = m.IDTag := by
  unfold setTimeField at h
  split_ifs at h
  split at h
  · simp at h
  · simp only [Option.some.injEq] at h
    subst h
    exact ⟨rfl, rfl, rfl⟩

/-- C3: for a model with a non-zero identifier whose rendered field map (the
one `prepareUpdateQuery` builds after it has set `UpdatedAt`) has an entry `L`
for the column `id`, `prepareUpdateQuery` returns no error and the text
`update T set A where id=L;`, where `A` joins with `, ` the assignments
`column=literal` of the entries visited other than `id`; these are, in some
order, the rendered entries other than `id`, each once, and none of them is
the column `id`. -/
theorem prepareUpdateQuery_text (now : Time) (oF : RangeOrder (GoString × fieldStruct))
    (oV : RangeOrder (GoString × GoString)) (m m1 : Model) (w w1 : World)
    (mp : GoMap GoString) (L : GoString)
    (hid : m.GetID ≠ 0)
    (hset : setTimeField m "UpdatedAt".toList now = some m1)
    (hmap : GetMapValues oF m1.toStruct w = some (mp, w1))
    (hL : GoMap.get? mp "id".toList = some L) :
    prepareUpdateQuery now oF oV m w
        = some (("update ".toList ++ m.TableName ++ " set ".toList
            ++ stringsJoin ((withoutID (oV.pick mp)).map assignment) ", ".toList
            ++ " where id=".toList ++ L ++ ";".toList, none), m1, w1)
      ∧ (withoutID (oV.pick mp)).Perm (withoutID mp)
      ∧ (∀ kv ∈ withoutID (oV.pick mp), kv.1 ≠ "id".toList) := by
  refine ⟨?_, List.Perm.filter _ (oV.perm mp), ?_⟩
  · have hn := GetMapValues_nodup oF m1.toStruct w w1 mp hmap
    have hmem : ("id".toList, L) ∈ oV.pick mp :=
      (oV.perm mp).mem_iff.mpr (goMap_mem_of_get mp _ _ hL)
    have hn2 : ((oV.pick mp).map Prod.fst).Nodup :=
      ((oV.perm mp).map Prod.fst).nodup_iff.mpr hn
    have hlast := lastValue_of_mem "id".toList L (oV.pick mp) [] hn2 hmem
    have hloop := foldl_join_filter (fun kv : GoString × GoString => kv.1 = "id".toList)
      (fun kv => kv.1 ++ "=".toList ++ kv.2) Prod.snd ", ".toList (oV.pick mp) [] [] []
    unfold prepareUpdateQuery
    rw [if_neg hid, hset]
    simp only [hmap]
    have hloop2 : (oV.pick mp).foldl
          (fun (st : GoString × GoString × GoString) (kv : GoString × GoString) =>
            if kv.1 = "id".toList then (st.1, st.2.1, kv.2)
            else
              let sqlvals := st.1 ++ (kv.1 ++ "=".toList ++ kv.2)
              (sqlvals ++ ", ".toList, sqlvals, st.2.2))
          ([], [], [])
        = (_, _, _) := hloop
    rw [hloop2, hlast, (setTimeField_same m m1 _ _ hset).1]
    have e : (if List.map (fun kv : GoString × GoString => kv.1 ++ "=".toList ++ kv.2)
          (List.filter (fun x => decide ¬x.1 = "id".toList) (oV.pick mp)) = [] then []
        else [] ++ ", ".toList.intercalate (List.map (fun kv => kv.1 ++ "=".toList ++ kv.2)
          (List.filter (fun x => decide ¬x.1 = "id".toList) (oV.pick mp))))
        = stringsJoin ((withoutID (oV.pick mp)).map assignment) ", ".toList := by
      unfold stringsJoin withoutID
      have : (fun kv : GoString × GoString => kv.1 ++ "=".toList ++ kv.2) = assignment := rfl
      rw [this]
      split_ifs with h0
      · rw [h0]; rfl
      · rfl
    simp only [e]
  · intro kv hkv
    unfold withoutID at hkv
    simpa using (List.mem_filter.mp hkv).2

/-- C3 at the model `teststruct1` with identifier 23 and name `bob`, the
rendered map visited in reverse order. -/
theorem prepareUpdateQuery_text_witness :
    (prepareUpdateQuery ⟨1570698000⟩ (RangeOrder.stored _) (RangeOrder.reversed _)
        (teststruct1 23 "bob".toList none none none) World.fresh).map (fun r => r.1)
      = some ("update teststruct1 set deleted_at=null, updated_at=\"2019-10-10 09:00:00\", created_at=null, name=\"bob\" where id=23;".toList,
          none) := by
  rw [(prepareUpdateQuery_text ⟨1570698000⟩ (RangeOrder.stored _) (RangeOrder.reversed _)
    (teststruct1 23 "bob".toList none none none)
    (teststruct1 23 "bob".toList none (some ⟨1570698000⟩) none)
    World.fresh
    (prepareModelForScan (teststruct1 23 "bob".toList none none none).toStruct World.fresh)
    [("id".toList, "23".toList), ("name".toList, "\"bob\"".toList),
      ("created_at".toList, "null".toList),
      ("updated_at".toList, "\"2019-10-10 09:00:00\"".toList),
      ("deleted_at".toList, "null".toList)]
    "23".toList (by decide) (by decide) (by decide) (by decide)).1]
  decide

/-! ### `Update` and `Save` -/

/-- C5: for a model whose identifier is 0, with or without a transaction,
`Update` returns the error of `prepareUpdateQuery`; the package state, with the
statements executed on the transaction and on the handle, and the model, with
every field (`UpdatedAt` included), are as before. -/
theorem Update_zero_identifier (d : Driver) (now : Time)
    (oF : RangeOrder (GoString × fieldStruct)) (oV : RangeOrder (GoString × GoString))
    (m : Model) (transaction : Option Tx) (w : World) (hid : m.GetID = 0) :
    Update d now oF oV m transaction w
      = some (some "ID is null; update impossible ".toList, m, w) := by
  unfold Update prepareUpdateQuery
  rw [if_pos hid]

/-- C5 at a `teststruct1` without identifier, inside a transaction. -/
theorem Update_zero_identifier_witness :
    Update ⟨fun _ _ => .done 7⟩ ⟨1570698000⟩ (RangeOrder.stored _) (RangeOrder.stored _)
        (teststruct1 0 "bob".toList none none none) (some ⟨1⟩) World.fresh
      = some (some "ID is null; update impossible ".toList,
          teststruct1 0 "bob".toList none none none, World.fresh) :=
  Update_zero_identifier _ _ _ _ _ _ _ (by decide)

theorem setField_other (fs : List StructField) (field name : GoString) (t : Time)
    (hne : name ≠ field) :
    ∀ fs2 : List StructField, setField fs field t = some fs2 →
      fs2.find? (fun f => decide (f.Name = name)) = fs.find? (fun f => decide (f.Name = name)) := by
  induction fs with
  | nil => intro fs2 h; simp [setField] at h
  | cons f rest ih =>
    intro fs2 h
    simp only [setField] at h
    split_ifs at h with hn
    · split at h
      · simp only [Option.some.injEq] at h
        subst h
        have h1 : ¬ f.Name = name := fun e => hne (e.symm.trans hn)
        simp [List.find?, h1]
      · simp at h
    · split at h
      · simp at h
      · rename_i rest2 hr
        simp only [Option.some.injEq] at h
        subst h
        simp only [List.find?, ih rest2 hr]

theorem setTimeField_other (m m1 : Model) (field name : GoString) (t : Time)
    (hne : name ≠ field) (h : setTimeField m field t = some m1) :
    m1.field? name = m.field? name := by
  unfold setTimeField at h
  split_ifs at h
  split at h
  · simp at h
  · rename_i fields hf
    simp only [Option.some.injEq] at h
    subst h
    exact setField_other m.Fields field name t hne fields hf

theorem GetMapValues_executed (o : RangeOrder (GoString × fieldStruct)) (m : Struct)
    (w w1 : World) (mp : GoMap GoString) (h : GetMapValues o m w = some (mp, w1)) :
    w1.executed = w.executed ∧ w1.modelSQLFields = w.modelSQLFields := by
  unfold GetMapValues at h
  simp only at h
  split at h
  · simp at h
  · split at h
    · simp at h
    · simp only [Option.some.injEq, Prod.mk.injEq] at h
      rw [← h.2]
      split <;> simp [prepareModelForScan]

theorem prepareUpdateQuery_ok (now : Time) (oF : RangeOrder (GoString × fieldStruct))
    (oV : RangeOrder (GoString × GoString)) (m m1 : Model) (w w1 : World)
    (query : GoString) (err : Option Error) (hid : m.GetID ≠ 0)
    (h : prepareUpdateQuery now oF oV m w = some ((query, err), m1, w1)) :
    err = none ∧ (∃ rest, query = "update ".toList ++ rest)
      ∧ setTimeField m "UpdatedAt".toList now = some m1
      ∧ w1.executed = w.executed := by
  unfold prepareUpdateQuery at h
  rw [if_neg hid] at h
  split at h
  · simp at h
  · rename_i m2 hm2
    split at h
    · simp at h
    · rename_i mp w2 hmap
      simp only [Option.some.injEq, Prod.mk.injEq] at h
      obtain ⟨⟨hq, he⟩, hm, hw⟩ := h
      subst hm hw
      refine ⟨he.symm, ⟨_, by rw [← hq]; simp only [List.append_assoc]; rfl⟩, hm2, ?_⟩
      exact (GetMapValues_executed _ _ _ _ _ hmap).1

/-! ### The registry entry of a struct and the rendered map -/

theorem goMap_set_of_not_mem {ν : Type} (m : GoMap ν) (k : GoString) (v : ν)
    (h : k ∉ m.map Prod.fst) : GoMap.set m k v = m ++ [(k, v)] := by
  induction m with
  | nil => rfl
  | cons e rest ih =>
    obtain ⟨k2, v2⟩ := e
    rw [List.map_cons, List.mem_cons, not_or] at h
    have h1 : ¬ k2 = k := fun e => h.1 e.symm
    simp only [GoMap.set, if_neg h1, ih h.2, List.cons_append]

theorem scanFields_eq (fs : List StructField) :
    ∀ (i : Nat) (acc : GoMap fieldStruct), (fs.map (fun f => f.Name)).Nodup →
      (∀ f ∈ fs, f.Name ∉ acc.map Prod.fst) →
      scanFields i fs acc = acc ++ taggedFrom i fs := by
  induction fs with
  | nil => intro i acc _ _; simp [scanFields, taggedFrom]
  | cons f rest ih =>
    intro i acc hn hacc
    rw [List.map_cons, List.nodup_cons] at hn
    have hrest : ∀ g ∈ rest, g.Name ∉ acc.map Prod.fst :=
      fun g hg => hacc g (List.mem_cons_of_mem _ hg)
    by_cases ht : f.Tag.length > 0
    · simp only [scanFields, taggedFrom, if_pos ht]
      rw [goMap_set_of_not_mem acc _ _ (hacc f (List.mem_cons_self _ _)), ih _ _ hn.2]
      · simp
      · intro g hg hmem
        rw [List.map_append, List.mem_append] at hmem
        rcases hmem with h1 | h1
        · exact hrest g hg h1
        · simp only [List.map_cons, List.map_nil, List.mem_singleton] at h1
          exact hn.1 (List.mem_map.mpr ⟨g, hg, h1⟩)
    · simp only [scanFields, taggedFrom, if_neg ht]
      exact ih _ _ hn.2 hrest

theorem scanFields_eq_of_tagged (fs : List StructField) :
    ∀ (i : Nat) (acc : GoMap fieldStruct),
      ((fs.filter (fun f => decide (f.Tag ≠ []))).map (fun f => f.Name)).Nodup →
      (∀ f ∈ fs.filter (fun f => decide (f.Tag ≠ [])), f.Name ∉ acc.map Prod.fst) →
      scanFields i fs acc = acc ++ taggedFrom i fs := by
  induction fs with
  | nil => intro i acc _ _; simp [scanFields, taggedFrom]
  | cons f rest ih =>
    intro i acc hn hacc
    by_cases ht : f.Tag.length > 0
    · have h0 : f.Tag ≠ [] := by
        intro h0
        simp [h0] at ht
      have hf : List.filter (fun f => decide (f.Tag ≠ [])) (f :: rest)
          = f :: List.filter (fun f => decide (f.Tag ≠ [])) rest := by
        rw [List.filter_cons]; simp [h0]
      rw [hf] at hn hacc
      rw [List.map_cons, List.nodup_cons] at hn
      simp only [scanFields, taggedFrom, if_pos ht]
      rw [goMap_set_of_not_mem acc _ _ (hacc f (List.mem_cons_self _ _)), ih _ _ hn.2]
      · simp
      · intro g hg hmem
        rw [List.map_append, List.mem_append] at hmem
        rcases hmem with h1 | h1
        · exact hacc g (List.mem_cons_of_mem _ hg) h1
        · simp only [List.map_cons, List.map_nil, List.mem_singleton] at h1
          exact hn.1 (List.mem_map.mpr ⟨g, hg, h1⟩)
    · have h0 : f.Tag = [] := by
        cases hf : f.Tag with
        | nil => rfl
        | cons a b => simp [hf] at ht
      have hf : List.filter (fun f => decide (f.Tag ≠ [])) (f :: rest)
          = List.filter (fun f => decide (f.Tag ≠ [])) rest := by
        rw [List.filter_cons]; simp [h0]
      rw [hf] at hn hacc
      simp only [scanFields, taggedFrom, if_neg ht]
      exact ih _ _ hn hacc

theorem mem_taggedFrom (fs : List StructField) :
    ∀ (i : Nat) (e : GoString × fieldStruct), e ∈ taggedFrom i fs →
      ∃ f, fs[e.2.Index - i]? = some f ∧ i ≤ e.2.Index ∧ e.2.SQLName = f.Tag
        ∧ e.1 = f.Name ∧ f.Tag ≠ [] := by
  induction fs with
  | nil => intro i e h; simp [taggedFrom] at h
  | cons f rest ih =>
    intro i e h
    have hrest : e ∈ taggedFrom (i + 1) rest →
        ∃ g, (f :: rest)[e.2.Index - i]? = some g ∧ i ≤ e.2.Index ∧ e.2.SQLName = g.Tag
          ∧ e.1 = g.Name ∧ g.Tag ≠ [] := by
      intro h2
      obtain ⟨g, hg, hi, h3⟩ := ih (i + 1) e h2
      refine ⟨g, ?_, by omega, h3⟩
      have : e.2.Index - i = (e.2.Index - (i + 1)) + 1 := by omega
      rw [this, List.getElem?_cons_succ]
      exact hg
    by_cases ht : f.Tag.length > 0
    · simp only [taggedFrom, if_pos ht, List.mem_cons] at h
      rcases h with h1 | h1
      · subst h1
        refine ⟨f, by simp, le_refl _, rfl, rfl, ?_⟩
        intro h0
        simp [h0] at ht
      · exact hrest h1
    · simp only [taggedFrom, if_neg ht] at h
      exact hrest h

theorem taggedFrom_columns (fs : List StructField) :
    ∀ i : Nat, (taggedFrom i fs).map (fun e => e.2.SQLName)
        = (fs.filter (fun f => decide (f.Tag ≠ []))).map (fun f => f.Tag)
      ∧ (taggedFrom i fs).map Prod.fst
        = (fs.filter (fun f => decide (f.Tag ≠ []))).map (fun f => f.Name) := by
  induction fs with
  | nil => intro i; simp [taggedFrom]
  | cons f rest ih =>
    intro i
    by_cases ht : f.Tag.length > 0
    · have h0 : f.Tag ≠ [] := by
        intro h0
        simp [h0] at ht
      have hf : List.filter (fun f => decide (f.Tag ≠ [])) (f :: rest)
          = f :: List.filter (fun f => decide (f.Tag ≠ [])) rest := by
        rw [List.filter_cons]; simp [h0]
      rw [hf]
      simp only [taggedFrom, if_pos ht, List.map_cons, (ih (i + 1)).1, (ih (i + 1)).2,
        and_self]
    · have h0 : f.Tag = [] := by
        cases hf : f.Tag with
        | nil => rfl
        | cons a b => simp [hf] at ht
      have hf : List.filter (fun f => decide (f.Tag ≠ [])) (f :: rest)
          = List.filter (fun f => decide (f.Tag ≠ [])) rest := by
        rw [List.filter_cons]; simp [h0]
      rw [hf]
      simp only [taggedFrom, if_neg ht]
      exact ih (i + 1)

theorem goMap_get_set_self {ν : Type} (m : GoMap ν) (k : GoString) (v : ν) :
    GoMap.get? (GoMap.set m k v) k = some v := by
  induction m with
  | nil => simp only [GoMap.set, GoMap.get?, if_true]
  | cons e rest ih =>
    obtain ⟨k2, v2⟩ := e
    by_cases h : k2 = k
    · simp only [GoMap.set, if_pos h, GoMap.get?, if_true]
    · simp only [GoMap.set, if_neg h, GoMap.get?, ih]

theorem goMap_get_set_other {ν : Type} (m : GoMap ν) (k k3 : GoString) (v : ν)
    (hne : k3 ≠ k) : GoMap.get? (GoMap.set m k v) k3 = GoMap.get? m k3 := by
  induction m with
  | nil =>
    have h : ¬ k = k3 := fun e => hne e.symm
    simp only [GoMap.set, GoMap.get?, if_neg h]
  | cons e rest ih =>
    obtain ⟨k2, v2⟩ := e
    by_cases h : k2 = k
    · have h3 : ¬ k = k3 := fun e => hne e.symm
      have h4 : ¬ k2 = k3 := fun e => hne (e.symm.trans h)
      simp only [GoMap.set, if_pos h, GoMap.get?, if_neg h3, if_neg h4]
    · simp only [GoMap.set, if_neg h, GoMap.get?, ih]

theorem renderFields_some (vals : List StructField) (l : List (GoString × fieldStruct)) :
    ∀ acc : GoMap GoString,
      (∀ e ∈ l, ∃ f, vals[e.2.Index]? = some f ∧ f.readable = true) →
      ∃ result, renderFields vals l acc = some result := by
  induction l with
  | nil => intro acc _; exact ⟨acc, rfl⟩
  | cons e rest ih =>
    intro acc h
    obtain ⟨f, hf, hr⟩ := h e (List.mem_cons_self _ _)
    obtain ⟨name, field⟩ := e
    rw [renderFields_cons vals name field rest acc f hf hr]
    exact ih _ (fun e2 he2 => h e2 (List.mem_cons_of_mem _ he2))

theorem taggedFrom_index (fs : List StructField) (e : GoString × fieldStruct)
    (h : e ∈ taggedFrom 0 fs) :
    ∃ f, fs[e.2.Index]? = some f ∧ e.2.SQLName = f.Tag ∧ e.1 = f.Name ∧ f.Tag ≠ [] := by
  obtain ⟨f, h1, _, h2⟩ := mem_taggedFrom fs 0 e h
  exact ⟨f, by simpa using h1, h2⟩

theorem readable_of_tagged (m : Struct) (h : m.readable = true) (f : StructField)
    (hf : f ∈ m.Fields) (ht : f.Tag ≠ []) : f.readable = true := by
  unfold Struct.readable at h
  rw [List.all_eq_true] at h
  exact h f (List.mem_filter.mpr ⟨hf, by simpa using ht⟩)

/-- For a struct whose tagged fields can be read and have distinct names, and
a registry that fits, `GetMapValues` returns: the rendered map is what its loop
builds from the descriptors of the tagged fields, visited in the given
order. -/
theorem GetMapValues_returns (o : RangeOrder (GoString × fieldStruct)) (m : Struct)
    (w : World) (hn : (m.tagged.map (fun f => f.Name)).Nodup) (hread : m.readable = true)
    (hfit : RegistryFits w m) :
    ∃ (result : GoMap GoString) (w1 : World), GetMapValues o m w = some (result, w1)
      ∧ renderFields m.Fields (o.pick (taggedFrom 0 m.Fields)) [] = some result
      ∧ w1.modelFields.get? m.TableName = some (taggedFrom 0 m.Fields) := by
  have hscan : scanFields 0 m.Fields [] = taggedFrom 0 m.Fields := by
    rw [scanFields_eq_of_tagged m.Fields 0 [] hn (by simp)]
    rfl
  obtain ⟨result, hr⟩ := renderFields_some m.Fields (o.pick (taggedFrom 0 m.Fields)) []
    (fun e he => by
      obtain ⟨f, hf, _, _, ht⟩ := taggedFrom_index m.Fields e ((o.perm _).mem_iff.mp he)
      exact ⟨f, hf, readable_of_tagged m hread f (List.getElem?_mem hf) ht⟩)
  unfold GetMapValues
  rcases hfit with h | h
  · refine ⟨result, prepareModelForScan m w, ?_, hr, ?_⟩
    · simp only [h, prepareModelForScan, goMap_get_set_self, hscan, hr]
    · simp only [prepareModelForScan, goMap_get_set_self, hscan]
  · refine ⟨result, w, ?_, hr, ?_⟩
    · simp only [h, hscan, hr]
    · rw [h, hscan]

theorem setField_some (fs : List StructField) (field : GoString) (t : Time) :
    ∀ f : StructField, fs.find? (fun g => decide (g.Name = field)) = some f →
      isTimePtr f.Val = true → ∃ fs2, setField fs field t = some fs2 := by
  induction fs with
  | nil => intro f h; simp at h
  | cons g rest ih =>
    intro f h ht
    by_cases hn : g.Name = field
    · simp only [List.find?, hn, decide_True, Option.some.injEq] at h
      subst h
      simp only [setField, if_pos hn]
      cases hv : g.Val <;> simp [hv, isTimePtr] at ht ⊢
    · simp only [List.find?, hn, decide_False] at h
      obtain ⟨fs2, h2⟩ := ih f h ht
      exact ⟨g :: fs2, by simp only [setField, if_neg hn, h2]⟩

theorem setTimeField_some (m : Model) (field : GoString) (t : Time)
    (h : m.hasTimeField field = true) (hne : field ≠ "ID".toList) :
    ∃ m1, setTimeField m field t = some m1 := by
  unfold Model.hasTimeField at h
  cases hf : m.field? field with
  | none => simp [hf] at h
  | some f =>
    rw [hf] at h
    obtain ⟨fs2, h2⟩ := setField_some m.Fields field t f hf h
    exact ⟨{ m with Fields := fs2 }, by simp only [setTimeField, if_neg hne, h2]⟩

theorem setTimeField_names (m m1 : Model) (field : GoString) (t : Time)
    (h : setTimeField m field t = some m1) :
    m1.toStruct.Fields.map (fun f => (f.Name, f.Tag))
      = m.toStruct.Fields.map (fun f => (f.Name, f.Tag)) := by
  have hsame := setTimeField_same m m1 field t h
  unfold setTimeField at h
  split_ifs at h
  split at h
  · simp at h
  · rename_i fields hf
    simp only [Option.some.injEq] at h
    subst h
    simp [Model.toStruct, setField_names m.Fields field t fields hf]

theorem scanFields_congr (fs : List StructField) :
    ∀ (fs2 : List StructField) (i : Nat) (acc : GoMap fieldStruct),
      fs2.map (fun f => (f.Name, f.Tag)) = fs.map (fun f => (f.Name, f.Tag)) →
      scanFields i fs2 acc = scanFields i fs acc := by
  induction fs with
  | nil =>
    intro fs2 i acc h
    simp only [List.map_nil, List.map_eq_nil_iff] at h
    rw [h]
  | cons f rest ih =>
    intro fs2 i acc h
    cases fs2 with
    | nil => simp at h
    | cons g rest2 =>
      simp only [List.map_cons, List.cons.injEq, Prod.mk.injEq] at h
      obtain ⟨⟨h1, h2⟩, h3⟩ := h
      simp only [scanFields, h1, h2]
      split_ifs
      · exact ih rest2 _ _ h3
      · exact ih rest2 _ _ h3

theorem registryFits_of_names (w : World) (m m1 : Struct)
    (ht : m1.TableName = m.TableName)
    (hf : m1.Fields.map (fun f => (f.Name, f.Tag)) = m.Fields.map (fun f => (f.Name, f.Tag)))
    (h : RegistryFits w m) : RegistryFits w m1 := by
  unfold RegistryFits at h ⊢
  rw [ht, scanFields_congr m.Fields m1.Fields 0 [] hf]
  exact h

theorem names_of_pairs (fs fs2 : List StructField)
    (hf : fs2.map (fun f => (f.Name, f.Tag)) = fs.map (fun f => (f.Name, f.Tag))) :
    fs2.map (fun f => f.Name) = fs.map (fun f => f.Name) := by
  have h := congrArg (List.map Prod.fst) hf
  simpa [List.map_map, Function.comp_def] using h

theorem goMap_mem_set {ν : Type} (m : GoMap ν) (k : GoString) (v : ν) (e : GoString × ν)
    (h : e ∈ GoMap.set m k v) : e = (k, v) ∨ e ∈ m := by
  induction m with
  | nil =>
    simp only [GoMap.set, List.mem_singleton] at h
    exact Or.inl h
  | cons e2 rest ih =>
    obtain ⟨k2, v2⟩ := e2
    by_cases hk : k2 = k
    · simp only [GoMap.set, if_pos hk, List.mem_cons] at h
      rcases h with h | h
      · exact Or.inl h
      · exact Or.inr (List.mem_cons_of_mem _ h)
    · simp only [GoMap.set, if_neg hk, List.mem_cons] at h
      rcases h with h | h
      · exact Or.inr (h ▸ List.mem_cons_self _ _)
      · rcases ih h with h2 | h2
        · exact Or.inl h2
        · exact Or.inr (List.mem_cons_of_mem _ h2)

theorem scanFields_index (fs : List StructField) :
    ∀ (i : Nat) (acc : GoMap fieldStruct) (e : GoString × fieldStruct),
      e ∈ scanFields i fs acc → e ∈ acc ∨ (i ≤ e.2.Index ∧ e.2.Index < i + fs.length) := by
  induction fs with
  | nil => intro i acc e h; exact Or.inl h
  | cons f rest ih =>
    intro i acc e h
    simp only [scanFields] at h
    split_ifs at h
    · rcases ih _ _ e h with h1 | h1
      · rcases goMap_mem_set _ _ _ _ h1 with h2 | h2
        · right
          rw [h2]
          simp
        · exact Or.inl h2
      · right
        simp only [List.length_cons]
        omega
    · rcases ih _ _ e h with h1 | h1
      · exact Or.inl h1
      · right
        simp only [List.length_cons]
        omega

theorem scanFields_mem (fs : List StructField) :
    ∀ (i : Nat) (acc : GoMap fieldStruct) (e : GoString × fieldStruct),
      e ∈ scanFields i fs acc →
      e ∈ acc ∨ ∃ f, fs[e.2.Index - i]? = some f ∧ i ≤ e.2.Index ∧ f.Tag ≠ [] := by
  induction fs with
  | nil => intro i acc e h; exact Or.inl h
  | cons f rest ih =>
    intro i acc e h
    have hrest : (∃ g, rest[e.2.Index - (i + 1)]? = some g ∧ i + 1 ≤ e.2.Index ∧ g.Tag ≠ []) →
        ∃ g, (f :: rest)[e.2.Index - i]? = some g ∧ i ≤ e.2.Index ∧ g.Tag ≠ [] := by
      rintro ⟨g, hg, hi, ht⟩
      refine ⟨g, ?_, by omega, ht⟩
      have : e.2.Index - i = (e.2.Index - (i + 1)) + 1 := by omega
      rw [this, List.getElem?_cons_succ]
      exact hg
    simp only [scanFields] at h
    split_ifs at h with ht
    · rcases ih _ _ e h with h1 | h1
      · rcases goMap_mem_set _ _ _ _ h1 with h2 | h2
        · right
          refine ⟨f, ?_, ?_, ?_⟩
          · rw [h2]; simp
          · rw [h2]
          · intro h0
            simp [h0] at ht
        · exact Or.inl h2
      · exact Or.inr (hrest h1)
    · rcases ih _ _ e h with h1 | h1
      · exact Or.inl h1
      · exact Or.inr (hrest h1)

/-- For a struct whose tagged fields can be read and a registry that fits,
`GetMapValues` returns. -/
theorem GetMapValues_total (o : RangeOrder (GoString × fieldStruct)) (m : Struct)
    (w : World) (hread : m.readable = true) (hfit : RegistryFits w m) :
    ∃ (mp : GoMap GoString) (w1 : World), GetMapValues o m w = some (mp, w1) := by
  obtain ⟨result, hr⟩ := renderFields_some m.Fields (o.pick (scanFields 0 m.Fields [])) []
    (fun e he => by
      rcases scanFields_mem m.Fields 0 [] e ((o.perm _).mem_iff.mp he) with h | h
      · simp at h
      · obtain ⟨f, hf, _, ht⟩ := h
        have hf2 : m.Fields[e.2.Index]? = some f := by simpa using hf
        exact ⟨f, hf2, readable_of_tagged m hread f (List.getElem?_mem hf2) ht⟩)
  unfold GetMapValues
  rcases hfit with h | h
  · exact ⟨result, prepareModelForScan m w,
      by simp only [h, prepareModelForScan, goMap_get_set_self, hr]⟩
  · exact ⟨result, w, by simp only [h, hr]⟩

theorem uint64_of_nonneg (g : Int) (h0 : 0 ≤ g) (h1 : g < 2 ^ 64) : (uint64 g : Int) = g := by
  unfold uint64
  rw [Int.emod_eq_of_lt h0 h1]
  exact Int.toNat_of_nonneg h0

theorem setField_readable (fs : List StructField) (field : GoString) (t : Time) :
    ∀ fs2 : List StructField, setField fs field t = some fs2 →
      fs2.map (fun f => (f.Tag, f.readable)) = fs.map (fun f => (f.Tag, f.readable)) := by
  induction fs with
  | nil => intro fs2 h; simp [setField] at h
  | cons f rest ih =>
    intro fs2 h
    simp only [setField] at h
    split_ifs at h with hn
    · split at h
      · rename_i x hx
        simp only [Option.some.injEq] at h
        subst h
        simp [StructField.readable, hx]
      · simp at h
    · split at h
      · simp at h
      · rename_i rest2 hr
        simp only [Option.some.injEq] at h
        subst h
        simp [ih rest2 hr]

theorem readable_congr (fs : List StructField) :
    ∀ fs2 : List StructField,
      fs2.map (fun f => (f.Tag, f.readable)) = fs.map (fun f => (f.Tag, f.readable)) →
      (fs2.filter (fun f => decide (f.Tag ≠ []))).all StructField.readable
        = (fs.filter (fun f => decide (f.Tag ≠ []))).all StructField.readable := by
  induction fs with
  | nil =>
    intro fs2 h
    simp only [List.map_nil, List.map_eq_nil_iff] at h
    rw [h]
  | cons f rest ih =>
    intro fs2 h
    cases fs2 with
    | nil => simp at h
    | cons g rest2 =>
      simp only [List.map_cons, List.cons.injEq, Prod.mk.injEq] at h
      obtain ⟨⟨h1, h2⟩, h3⟩ := h
      have ih2 := ih rest2 h3
      by_cases ht : f.Tag = []
      · have hg : g.Tag = [] := h1.trans ht
        simp only [List.filter_cons, ht, hg, ne_eq, not_true_eq_false, decide_False]
        exact ih2
      · have hg : ¬ g.Tag = [] := fun e => ht (h1.symm.trans e)
        simp only [List.filter_cons, ht, hg, ne_eq, not_false_eq_true, decide_True, if_true,
          List.all_cons, h2, ih2]

theorem setTimeField_readable (m m1 : Model) (field : GoString) (t : Time)
    (h : setTimeField m field t = some m1) :
    m1.toStruct.readable = m.toStruct.readable := by
  have hsame := setTimeField_same m m1 field t h
  unfold setTimeField at h
  split_ifs at h
  split at h
  · simp at h
  · rename_i fields hf
    simp only [Option.some.injEq] at h
    subst h
    have hl := setField_readable m.Fields field t fields hf
    exact readable_congr _ _ (by simp only [Model.toStruct, List.map_cons, hl])

/-- C4, amended: for a model with identifier 0 that has the fields `CreatedAt`
and `UpdatedAt` of type `*time.Time`, whose tagged fields are exported and hold
no non-nil pointer to a struct other than `time.Time`, and whose table is
unregistered or registered from the struct type of the model, `Save` returns,
and it has executed exactly one more statement:
`insert into T ( columns) VALUES (values)`, where `columns` and `values` are
what `GetSQLFieldsAndValues` gives for the time-stamped model, on the
transaction when one is given and on the handle otherwise. When the driver
answers with the generated identifier `g`, `Save` returns no error and the
identifier of the model is `uint64(g)` (which is `g` for `0 ≤ g`); when the
driver answers with an error, `Save` returns that error and the identifier is
still 0. -/
theorem Save_insert (d : Driver) (now : Time)
    (oF : RangeOrder (GoString × fieldStruct)) (oV : RangeOrder (GoString × GoString))
    (m : Model) (transaction : Option Tx) (w : World)
    (hid : m.GetID = 0)
    (hc : m.hasTimeField "CreatedAt".toList = true)
    (hu : m.hasTimeField "UpdatedAt".toList = true)
    (hread : m.toStruct.readable = true)
    (hfit : RegistryFits w m.toStruct) :
    ∃ (m1 m2 : Model) (columns values : GoString) (w1 : World)
        (r : Option Error × Model × World),
      setTimeField m "CreatedAt".toList now = some m1
      ∧ setTimeField m1 "UpdatedAt".toList now = some m2
      ∧ GetSQLFieldsAndValues oF oV m2.toStruct w = some ((columns, values), w1)
      ∧ Save d now oF oV m transaction w = some r
      ∧ r.2.2.executed
          = w.executed ++ [(targetOf transaction, insertQuery m.TableName columns values)]
      ∧ (∀ g : Int,
          d.exec (targetOf transaction) (insertQuery m.TableName columns values) = .done g →
          r.1 = none ∧ r.2.1.GetID = uint64 g
            ∧ (0 ≤ g → g < 2 ^ 64 → (r.2.1.GetID : Int) = g))
      ∧ (∀ err : Error,
          d.exec (targetOf transaction) (insertQuery m.TableName columns values) = .failed err →
          r.1 = some err ∧ r.2.1.GetID = 0) := by
  obtain ⟨m1, h1⟩ := setTimeField_some m "CreatedAt".toList now hc (by decide)
  have hu1 : m1.hasTimeField "UpdatedAt".toList = true := by
    unfold Model.hasTimeField at hu ⊢
    rw [setTimeField_other m m1 "CreatedAt".toList "UpdatedAt".toList now (by decide) h1]
    exact hu
  obtain ⟨m2, h2⟩ := setTimeField_some m1 "UpdatedAt".toList now hu1 (by decide)
  have hs1 := setTimeField_same m m1 _ _ h1
  have hs2 := setTimeField_same m1 m2 _ _ h2
  have hpairs : m2.toStruct.Fields.map (fun f => (f.Name, f.Tag))
      = m.toStruct.Fields.map (fun f => (f.Name, f.Tag)) :=
    (setTimeField_names m1 m2 _ _ h2).trans (setTimeField_names m m1 _ _ h1)
  have hfit2 : RegistryFits w m2.toStruct :=
    registryFits_of_names w m.toStruct m2.toStruct
      (by simp [Model.toStruct, hs1.1, hs2.1]) hpairs hfit
  have hread2 : m2.toStruct.readable = true := by
    rw [setTimeField_readable m1 m2 _ _ h2, setTimeField_readable m m1 _ _ h1]
    exact hread
  obtain ⟨mp, w1, hmap⟩ := GetMapValues_total oF m2.toStruct w hread2 hfit2
  have hex := (GetMapValues_executed oF m2.toStruct w w1 mp hmap).1
  have htable : m2.TableName = m.TableName := hs2.1.trans hs1.1
  have hid2 : m2.ID = 0 := by rw [hs2.2.1, hs1.2.1]; exact hid
  cases hgs : GetSQLFieldsAndValues oF oV m2.toStruct w with
  | none => simp [GetSQLFieldsAndValues, hmap] at hgs
  | some fv =>
    obtain ⟨⟨columns, values⟩, w1b⟩ := fv
    have hw : w1b = w1 := by
      simp only [GetSQLFieldsAndValues, hmap, Option.some.injEq, Prod.mk.injEq] at hgs
      exact hgs.2.symm
    subst hw
    have hq : "insert into ".toList ++ m2.TableName ++ " ( ".toList ++ columns
        ++ ") VALUES (".toList ++ values ++ ")".toList
        = insertQuery m.TableName columns values := by
      rw [htable]; rfl
    have hsave : Save d now oF oV m transaction w
        = match d.exec (targetOf transaction) (insertQuery m.TableName columns values) with
          | .failed err => some (some err, m2,
              w1b.record (targetOf transaction) (insertQuery m.TableName columns values))
          | .done id => some (none, m2.SetID (uint64 id),
              w1b.record (targetOf transaction) (insertQuery m.TableName columns values))
          | .doneNoId _ => some (none, m2,
              w1b.record (targetOf transaction) (insertQuery m.TableName columns values)) := by
      unfold Save
      rw [if_neg (by simpa using hid), h1]
      simp only [h2, hgs, hq]
      cases transaction <;> rfl
    refine ⟨m1, m2, columns, values, w1b, ?_⟩
    cases hexec : d.exec (targetOf transaction) (insertQuery m.TableName columns values) with
    | failed err =>
      rw [hexec] at hsave
      refine ⟨_, h1, h2, hgs, hsave, by simp [World.record, hex], ?_, ?_⟩
      · intro g hg; cases hg
      · intro e he
        cases he
        exact ⟨rfl, hid2⟩
    | done g =>
      rw [hexec] at hsave
      refine ⟨_, h1, h2, hgs, hsave, by simp [World.record, hex], ?_, ?_⟩
      · intro g2 hg
        cases hg
        exact ⟨rfl, rfl, fun h0 h3 => uint64_of_nonneg g h0 h3⟩
      · intro e he; cases he
    | doneNoId e =>
      rw [hexec] at hsave
      refine ⟨_, h1, h2, hgs, hsave, by simp [World.record, hex], ?_, ?_⟩
      · intro g hg; cases hg
      · intro e2 he; cases he

set_option maxRecDepth 100000 in
/-- C4 at a new `teststruct1`, without a transaction, the driver answering
with the identifier 42. -/
theorem Save_insert_witness :
    ∃ r, Save ⟨fun _ _ => .done 42⟩ ⟨1570698000⟩ (RangeOrder.stored _) (RangeOrder.stored _)
        (teststruct1 0 "bob".toList none none none) none World.fresh = some r
      ∧ r.1 = none ∧ r.2.1.GetID = 42
      ∧ r.2.2.executed = [(Target.db, "insert into teststruct1 ( `id`, `name`, `created_at`, `updated_at`, `deleted_at`) VALUES (0, \"bob\", \"2019-10-10 09:00:00\", \"2019-10-10 09:00:00\", null)".toList)] := by
  obtain ⟨_, _, columns, values, _, r, _, _, _, hs, _, hdone, _⟩ :=
    Save_insert ⟨fun _ _ => .done 42⟩ ⟨1570698000⟩ (RangeOrder.stored _) (RangeOrder.stored _)
      (teststruct1 0 "bob".toList none none none) none World.fresh
      (by decide) (by decide) (by decide) (by decide) (Or.inl rfl)
  refine ⟨r, hs, (hdone 42 rfl).1, (hdone 42 rfl).2.1.trans (by decide), ?_⟩
  have hr : some r = some (none, (teststruct1 0 "bob".toList (some ⟨1570698000⟩)
      (some ⟨1570698000⟩) none).SetID 42,
      (prepareModelForScan (teststruct1 0 "bob".toList none none none).toStruct
        World.fresh).record Target.db "insert into teststruct1 ( `id`, `name`, `created_at`, `updated_at`, `deleted_at`) VALUES (0, \"bob\", \"2019-10-10 09:00:00\", \"2019-10-10 09:00:00\", null)".toList) :=
    hs.symm.trans (by decide)
  rw [Option.some.inj hr]
  decide

/-- C4 as stated fails: a model with identifier 0 and the fields `CreatedAt`
and `UpdatedAt` that has a tagged field whose name is not exported. `Save`
panics when `GetMapValues` reads that field, and no statement is executed. -/
theorem Save_insert_counterexample :
    (lowerCaseModel 0).GetID = 0
      ∧ (lowerCaseModel 0).hasTimeField "CreatedAt".toList = true
      ∧ (lowerCaseModel 0).hasTimeField "UpdatedAt".toList = true
      ∧ Save ⟨fun _ _ => .done 42⟩ ⟨1570698000⟩ (RangeOrder.stored _) (RangeOrder.stored _)
          (lowerCaseModel 0) none World.fresh = none := by
  decide

theorem Update_returns (d : Driver) (now : Time)
    (oF : RangeOrder (GoString × fieldStruct)) (oV : RangeOrder (GoString × GoString))
    (m : Model) (transaction : Option Tx) (w : World)
    (hu : m.hasTimeField "UpdatedAt".toList = true) (hread : m.toStruct.readable = true)
    (hfit : RegistryFits w m.toStruct) :
    ∃ r, Update d now oF oV m transaction w = some r := by
  by_cases hid : m.GetID = 0
  · refine ⟨(some "ID is null; update impossible ".toList, m, w), ?_⟩
    unfold Update prepareUpdateQuery
    rw [if_pos hid]
  · obtain ⟨m1, h1⟩ := setTimeField_some m "UpdatedAt".toList now hu (by decide)
    have hs := setTimeField_same m m1 _ _ h1
    have hfit1 : RegistryFits w m1.toStruct :=
      registryFits_of_names w m.toStruct m1.toStruct (by simp [Model.toStruct, hs.1])
        (setTimeField_names m m1 _ _ h1) hfit
    have hread1 : m1.toStruct.readable = true := by
      rw [setTimeField_readable m m1 _ _ h1]
      exact hread
    obtain ⟨mp, w1, hmap⟩ := GetMapValues_total oF m1.toStruct w hread1 hfit1
    unfold Update prepareUpdateQuery
    rw [if_neg hid, h1]
    simp only [hmap]
    cases transaction with
    | some t =>
      simp only
      split <;> exact ⟨_, rfl⟩
    | none =>
      simp only
      split <;> exact ⟨_, rfl⟩

/-- C6, amended: for a model with a non-zero identifier `Save` is `Update`:
same result, same model and same package state afterwards, a panic included.
When it returns, the one statement it has executed (on the transaction when
one is given, on the handle otherwise) is the text of `prepareUpdateQuery`,
which starts with `update`; the identifier and the field `CreatedAt` are as
before. It does return when the model has the field `UpdatedAt` of type
`*time.Time`, its tagged fields are exported and hold no non-nil pointer to a
struct other than `time.Time`, and its table is unregistered or registered
from the struct type of the model. -/
theorem Save_nonzero_identifier (d : Driver) (now : Time)
    (oF : RangeOrder (GoString × fieldStruct)) (oV : RangeOrder (GoString × GoString))
    (m : Model) (transaction : Option Tx) (w : World) (hid : m.GetID ≠ 0) :
    Save d now oF oV m transaction w = Update d now oF oV m transaction w
      ∧ (∀ (err : Option Error) (m2 : Model) (w2 : World),
          Save d now oF oV m transaction w = some (err, m2, w2) →
          (∃ (query : GoString) (w1 : World),
              prepareUpdateQuery now oF oV m w = some ((query, none), m2, w1)
              ∧ (∃ rest, query = "update ".toList ++ rest)
              ∧ w2.executed = w.executed ++ [(targetOf transaction, query)])
          ∧ m2.GetID = m.GetID
          ∧ m2.field? "CreatedAt".toList = m.field? "CreatedAt".toList)
      ∧ (m.hasTimeField "UpdatedAt".toList = true → m.toStruct.readable = true →
          RegistryFits w m.toStruct →
          ∃ r, Save d now oF oV m transaction w = some r) := by
  have hsave : Save d now oF oV m transaction w = Update d now oF oV m transaction w := by
    unfold Save
    rw [if_pos hid]
  refine ⟨hsave, ?_, fun hu hread hfit =>
    hsave ▸ Update_returns d now oF oV m transaction w hu hread hfit⟩
  intro err m2 w2 h
  rw [hsave] at h
  unfold Update at h
  cases hp : prepareUpdateQuery now oF oV m w with
  | none => simp [hp] at h
  | some r =>
    obtain ⟨⟨query, e⟩, m1, w1⟩ := r
    obtain ⟨he, hq, hset, hex⟩ := prepareUpdateQuery_ok now oF oV m m1 w w1 query e hid hp
    subst he
    rw [hp] at h
    have hm : m2 = m1 ∧ w2 = w1.record (targetOf transaction) query := by
      cases transaction with
      | some t =>
        simp only at h
        split at h <;> simp only [Option.some.injEq, Prod.mk.injEq] at h <;>
          exact ⟨h.2.1.symm, h.2.2.symm⟩
      | none =>
        simp only at h
        split at h <;> simp only [Option.some.injEq, Prod.mk.injEq] at h <;>
          exact ⟨h.2.1.symm, h.2.2.symm⟩
    obtain ⟨rfl, rfl⟩ := hm
    refine ⟨⟨query, w1, rfl, hq, ?_⟩, ?_, ?_⟩
    · simp [World.record, hex]
    · exact (setTimeField_same m m2 _ _ hset).2.1
    · exact setTimeField_other m m2 _ _ now (by decide) hset

set_option maxRecDepth 100000 in
/-- C6 at a `teststruct1` with identifier 23, without a transaction: `Save`
is `Update`, and the statement executed on the handle is the update. -/
theorem Save_nonzero_identifier_witness :
    Save ⟨fun _ _ => .done 0⟩ ⟨1570698000⟩ (RangeOrder.stored _) (RangeOrder.stored _)
        (teststruct1 23 "bob".toList none none none) none World.fresh
      = Update ⟨fun _ _ => .done 0⟩ ⟨1570698000⟩ (RangeOrder.stored _) (RangeOrder.stored _)
        (teststruct1 23 "bob".toList none none none) none World.fresh
    ∧ (Save ⟨fun _ _ => .done 0⟩ ⟨1570698000⟩ (RangeOrder.stored _) (RangeOrder.stored _)
        (teststruct1 23 "bob".toList none none none) none World.fresh).map
        (fun r => (r.1, r.2.1.GetID, r.2.2.executed))
      = some (none, 23, [(Target.db, "update teststruct1 set name=\"bob\", created_at=null, updated_at=\"2019-10-10 09:00:00\", deleted_at=null where id=23;".toList)]) :=
  ⟨(Save_nonzero_identifier _ _ _ _ _ _ _ (by decide)).1, by decide⟩

/-- C6 as stated fails: a model with identifier 23 and the field `UpdatedAt`
that has a tagged field whose name is not exported. `Save`, like `Update`,
panics when `GetMapValues` reads that field, and no statement is executed. -/
theorem Save_nonzero_identifier_counterexample :
    (lowerCaseModel 23).GetID ≠ 0
      ∧ (lowerCaseModel 23).hasTimeField "UpdatedAt".toList = true
      ∧ Save ⟨fun _ _ => .done 0⟩ ⟨1570698000⟩ (RangeOrder.stored _) (RangeOrder.stored _)
          (lowerCaseModel 23) none World.fresh = none
      ∧ Update ⟨fun _ _ => .done 0⟩ ⟨1570698000⟩ (RangeOrder.stored _) (RangeOrder.stored _)
          (lowerCaseModel 23) none World.fresh = none := by
  decide

/-! ### The entries of the rendered map -/

theorem renderFields_eq (vals : List StructField) (l : List (GoString × fieldStruct)) :
    ∀ acc : GoMap GoString,
      (∀ e ∈ l, ∃ f, vals[e.2.Index]? = some f ∧ f.readable = true) →
      (l.map (fun e => e.2.SQLName)).Nodup →
      (∀ e ∈ l, e.2.SQLName ∉ acc.map Prod.fst) →
      renderFields vals l acc
        = some (acc ++ l.map (fun e => (e.2.SQLName, renderAt vals e.2.Index))) := by
  induction l with
  | nil => intro acc _ _ _; simp [renderFields]
  | cons e rest ih =>
    intro acc hidx hn hacc
    obtain ⟨f, hf, hread⟩ := hidx e (List.mem_cons_self _ _)
    rw [List.map_cons, List.nodup_cons] at hn
    obtain ⟨name, field⟩ := e
    simp only at hf
    rw [renderFields_cons vals name field rest acc f hf hread]
    rw [goMap_set_of_not_mem acc _ _ (hacc _ (List.mem_cons_self _ _)),
      ih _ (fun e2 he2 => hidx e2 (List.mem_cons_of_mem _ he2)) hn.2]
    · simp [renderAt, hf]
    · intro e2 he2 hmem
      rw [List.map_append, List.mem_append] at hmem
      rcases hmem with h1 | h1
      · exact hacc e2 (List.mem_cons_of_mem _ he2) h1
      · simp only [List.map_cons, List.map_nil, List.mem_singleton] at h1
        exact hn.1 (List.mem_map.mpr ⟨e2, he2, h1⟩)

theorem renderFields_get (vals : List StructField) (k v : GoString)
    (l : List (GoString × fieldStruct)) :
    ∀ acc result : GoMap GoString, renderFields vals l acc = some result →
      (k ∈ l.map (fun e => e.2.SQLName) ∨ GoMap.get? acc k = some v) →
      (∀ e ∈ l, e.2.SQLName = k → renderAt vals e.2.Index = v) →
      GoMap.get? result k = some v := by
  induction l with
  | nil =>
    intro acc result h hk _
    simp only [renderFields, Option.some.injEq] at h
    subst h
    simpa using hk
  | cons e rest ih =>
    intro acc result h0 hk hv
    obtain ⟨name, field⟩ := e
    obtain ⟨valuefield, hf, _, h⟩ := renderFields_cons_some vals name field rest acc result h0
    have hrest : ∀ e2 ∈ rest, e2.2.SQLName = k → renderAt vals e2.2.Index = v :=
      fun e2 he2 => hv e2 (List.mem_cons_of_mem _ he2)
    by_cases hkey : field.SQLName = k
    · have hval : renderValue valuefield.Val = v := by
        have := hv (name, field) (List.mem_cons_self _ _) hkey
        simpa [renderAt, hf] using this
      refine ih _ _ h (Or.inr ?_) hrest
      rw [hkey, hval, goMap_get_set_self]
    · refine ih _ _ h ?_ hrest
      rcases hk with h1 | h1
      · left
        simp only [List.map_cons, List.mem_cons] at h1
        rcases h1 with h2 | h2
        · exact absurd h2.symm hkey
        · exact h2
      · right
        rw [goMap_get_set_other _ _ _ _ (fun e => hkey e.symm)]
        exact h1

theorem renderFields_get_some (vals : List StructField) (k : GoString)
    (l : List (GoString × fieldStruct)) :
    ∀ acc result : GoMap GoString, renderFields vals l acc = some result →
      (k ∈ l.map (fun e => e.2.SQLName) ∨ ∃ v, GoMap.get? acc k = some v) →
      ∃ v, GoMap.get? result k = some v := by
  induction l with
  | nil =>
    intro acc result h hk
    simp only [renderFields, Option.some.injEq] at h
    subst h
    simpa using hk
  | cons e rest ih =>
    intro acc result h0 hk
    obtain ⟨name, field⟩ := e
    obtain ⟨valuefield, _, _, h⟩ := renderFields_cons_some vals name field rest acc result h0
    by_cases hkey : field.SQLName = k
    · refine ih _ _ h (Or.inr ?_)
      rw [hkey, goMap_get_set_self]
      exact ⟨_, rfl⟩
    · refine ih _ _ h ?_
      rcases hk with h1 | h1
      · left
        simp only [List.map_cons, List.mem_cons] at h1
        rcases h1 with h2 | h2
        · exact absurd h2.symm hkey
        · exact h2
      · right
        rw [goMap_get_set_other _ _ _ _ (fun e => hkey e.symm)]
        exact h1

/-- The entry of a tagged field in the rendered map: it exists, and it holds
the text of the field's value when no other field carries the same tag. -/
theorem GetMapValues_entry (o : RangeOrder (GoString × fieldStruct)) (m : Struct)
    (w : World) (f : StructField) (hn : (m.tagged.map (fun f => f.Name)).Nodup)
    (hread : m.readable = true)
    (hfit : RegistryFits w m) (hf : f ∈ m.Fields) (ht : f.Tag ≠ []) :
    ∃ (mp : GoMap GoString) (w1 : World), GetMapValues o m w = some (mp, w1)
      ∧ (∃ v, GoMap.get? mp f.Tag = some v)
      ∧ ((∀ g ∈ m.Fields, g.Tag = f.Tag → g = f) →
          GoMap.get? mp f.Tag = some (renderValue f.Val)) := by
  obtain ⟨mp, w1, hmap, hr, _⟩ := GetMapValues_returns o m w hn hread hfit
  have hmem : f.Tag ∈ (o.pick (taggedFrom 0 m.Fields)).map (fun e => e.2.SQLName) := by
    rw [((o.perm _).map _).mem_iff, (taggedFrom_columns m.Fields 0).1]
    exact List.mem_map.mpr ⟨f, List.mem_filter.mpr ⟨hf, by simpa using ht⟩, rfl⟩
  refine ⟨mp, w1, hmap, renderFields_get_some _ _ _ _ _ hr (Or.inl hmem), fun huniq => ?_⟩
  refine renderFields_get _ _ _ _ _ _ hr (Or.inl hmem) ?_
  intro e he hk
  obtain ⟨g, hg, hsql, _, _⟩ := taggedFrom_index m.Fields e ((o.perm _).mem_iff.mp he)
  have hgf : g = f := huniq g (List.getElem?_mem hg) (hsql.symm.trans hk)
  simp [renderAt, hg, hgf]

/-! ### Time as text -/

theorem Time.UTC_bounds (t : Time) :
    1 ≤ t.UTC.month ∧ t.UTC.month ≤ 12 ∧ 1 ≤ t.UTC.day ∧ t.UTC.day ≤ 31
      ∧ 0 ≤ t.UTC.hour ∧ t.UTC.hour ≤ 23 ∧ 0 ≤ t.UTC.minute ∧ t.UTC.minute ≤ 59
      ∧ 0 ≤ t.UTC.second ∧ t.UTC.second ≤ 59 := by
  simp only [Time.UTC]
  split_ifs <;> omega

theorem digitChar_isDigit (d : Nat) (h : d < 10) : (digitChar d).isDigit = true := by
  interval_cases d <;> decide

theorem decimalDigits_shape (fuel : Nat) :
    ∀ n k : Nat, n < fuel → n < 10 ^ k → 1 ≤ k →
      (decimalDigits fuel n).length ≤ k ∧ ∀ c ∈ decimalDigits fuel n, c.isDigit = true := by
  induction fuel with
  | zero => intro n k h; omega
  | succ fuel ih =>
    intro n k hf hk h1
    by_cases h10 : n < 10
    · simp only [decimalDigits, if_pos h10, List.length_singleton, List.mem_singleton]
      exact ⟨h1, fun c hc => hc ▸ digitChar_isDigit n h10⟩
    · have hk2 : 2 ≤ k := by
        rcases Nat.lt_or_ge k 2 with h | h
        · have : k = 1 := by omega
          subst this
          omega
        · exact h
      have hdiv : n / 10 < 10 ^ (k - 1) := by
        have : 10 ^ k = 10 ^ (k - 1) * 10 := by
          rw [← pow_succ]; congr 1; omega
        rw [this] at hk
        exact Nat.div_lt_of_lt_mul (by rw [Nat.mul_comm]; exact hk)
      obtain ⟨hl, hd⟩ := ih (n / 10) (k - 1) (by omega) hdiv (by omega)
      simp only [decimalDigits, if_neg h10, List.length_append, List.length_singleton,
        List.mem_append, List.mem_singleton]
      refine ⟨by omega, fun c hc => ?_⟩
      rcases hc with hc | hc
      · exact hd c hc
      · exact hc ▸ digitChar_isDigit _ (Nat.mod_lt _ (by decide))

theorem appendInt_shape (x : Int) (width : Nat) (h0 : 0 ≤ x) (h1 : x < 10 ^ width)
    (hw : 1 ≤ width) :
    (appendInt x width).length = width ∧ ∀ c ∈ appendInt x width, c.isDigit = true := by
  have hx : ¬ x < 0 := by omega
  have hnat : x.natAbs < 10 ^ width := by
    have : (x.natAbs : Int) < ((10 ^ width : Nat) : Int) := by
      rw [Int.natAbs_of_nonneg h0]; push_cast; exact h1
    exact_mod_cast this
  obtain ⟨hl, hd⟩ := decimalDigits_shape (x.natAbs + 1) x.natAbs width (by omega) hnat hw
  simp only [appendInt, if_neg hx, List.nil_append, List.length_append, List.length_replicate,
    List.mem_append, List.mem_replicate, FormatUint]
  refine ⟨by omega, fun c hc => ?_⟩
  rcases hc with hc | hc
  · rw [hc.2]; decide
  · exact hd c hc

theorem SQLTime_form (t : Time) (h0 : 0 ≤ t.UTC.year) (h1 : t.UTC.year ≤ 9999) :
    IsDateTimeText (SQLTime t) ∧ (SQLTime t).length = 19 := by
  obtain ⟨hm1, hm2, hd1, hd2, hh1, hh2, hi1, hi2, hs1, hs2⟩ := Time.UTC_bounds t
  obtain ⟨yl, yd⟩ := appendInt_shape t.UTC.year 4 h0 (by norm_num; omega) (by decide)
  obtain ⟨ml, md⟩ := appendInt_shape t.UTC.month 2 (by omega) (by norm_num; omega) (by decide)
  obtain ⟨dl, dd⟩ := appendInt_shape t.UTC.day 2 (by omega) (by norm_num; omega) (by decide)
  obtain ⟨hl, hd⟩ := appendInt_shape t.UTC.hour 2 hh1 (by norm_num; omega) (by decide)
  obtain ⟨il, id⟩ := appendInt_shape t.UTC.minute 2 hi1 (by norm_num; omega) (by decide)
  obtain ⟨sl, sd⟩ := appendInt_shape t.UTC.second 2 hs1 (by norm_num; omega) (by decide)
  refine ⟨⟨_, _, _, _, _, _, rfl, yl, ml, dl, hl, il, sl, ?_⟩, ?_⟩
  · intro c hc
    simp only [List.mem_append] at hc
    rcases hc with ((((hc | hc) | hc) | hc) | hc) | hc
    · exact yd c hc
    · exact md c hc
    · exact dd c hc
    · exact hd c hc
    · exact id c hc
    · exact sd c hc
  · simp only [SQLTime, List.length_append, yl, ml, dl, hl, il, sl]
    rfl

/-- C7, amended: for a struct whose tagged fields carry pairwise distinct
tags, are exported, have pairwise distinct Go names and hold no non-nil pointer
to a struct other than `time.Time`, and whose table is unregistered or
registered from the same struct type, `GetMapValues` returns a map with exactly
as many entries as the struct has tagged fields, and the keys of the map are
the tags of those fields, each once. -/
theorem GetMapValues_entries (o : RangeOrder (GoString × fieldStruct)) (m : Struct)
    (w : World) (hn : (m.tagged.map (fun f => f.Name)).Nodup) (hread : m.readable = true)
    (hfit : RegistryFits w m) (htags : (m.tagged.map (fun f => f.Tag)).Nodup) :
    ∃ (mp : GoMap GoString) (w1 : World), GetMapValues o m w = some (mp, w1)
      ∧ mp.length = m.tagged.length
      ∧ (mp.map Prod.fst).Perm (m.tagged.map (fun f => f.Tag))
      ∧ (mp.map Prod.fst).Nodup := by
  obtain ⟨mp, w1, hmap, hr, _⟩ := GetMapValues_returns o m w hn hread hfit
  have hcols : ((o.pick (taggedFrom 0 m.Fields)).map (fun e => e.2.SQLName)).Perm
      (m.tagged.map (fun f => f.Tag)) := by
    have h := (o.perm (taggedFrom 0 m.Fields)).map (fun e => e.2.SQLName)
    rw [(taggedFrom_columns m.Fields 0).1] at h
    exact h
  have heq := renderFields_eq m.Fields (o.pick (taggedFrom 0 m.Fields)) []
    (fun e he => by
      obtain ⟨f, hf, _, _, ht⟩ := taggedFrom_index m.Fields e ((o.perm _).mem_iff.mp he)
      exact ⟨f, hf, readable_of_tagged m hread f (List.getElem?_mem hf) ht⟩)
    (hcols.nodup_iff.mpr htags) (by simp)
  rw [hr] at heq
  have hmp : mp.map Prod.fst = (o.pick (taggedFrom 0 m.Fields)).map (fun e => e.2.SQLName) := by
    rw [Option.some.inj heq]
    simp [List.map_map, Function.comp_def]
  refine ⟨mp, w1, hmap, ?_, hmp ▸ hcols, hmp ▸ hcols.nodup_iff.mpr htags⟩
  have hlen := congrArg List.length hmp
  rw [List.length_map, List.length_map] at hlen
  rw [hlen, (o.perm _).length_eq]
  have h2 := congrArg List.length (taggedFrom_columns m.Fields 0).1
  rw [List.length_map, List.length_map] at h2
  exact h2

/-- C7 at the struct of `teststruct1`: five tagged fields, five entries. -/
theorem GetMapValues_entries_witness :
    ∃ (mp : GoMap GoString) (w1 : World),
      GetMapValues (RangeOrder.reversed _)
          (teststruct1 23 "bob".toList none none none).toStruct World.fresh = some (mp, w1)
        ∧ mp.length = 5
        ∧ (mp.map Prod.fst).Perm ["id".toList, "name".toList, "created_at".toList,
            "updated_at".toList, "deleted_at".toList] := by
  obtain ⟨mp, w1, h1, h2, h3, _⟩ := GetMapValues_entries (RangeOrder.reversed _)
    (teststruct1 23 "bob".toList none none none).toStruct World.fresh
    (by decide) (by decide) (Or.inl rfl) (by decide)
  exact ⟨mp, w1, h1, h2, h3⟩

/-- C7 as stated fails: a struct with two fields that carry the same tag `x`
has two tagged fields, and `GetMapValues` returns a map with one entry. -/
theorem GetMapValues_entries_counterexample :
    (Struct.mk "t".toList [⟨"A".toList, "x".toList, .int 1⟩,
        ⟨"B".toList, "x".toList, .int 2⟩]).tagged.length = 2
      ∧ (GetMapValues (RangeOrder.stored _)
          (Struct.mk "t".toList [⟨"A".toList, "x".toList, .int 1⟩,
            ⟨"B".toList, "x".toList, .int 2⟩]) World.fresh).map (fun r => r.1)
        = some [("x".toList, "2".toList)] := by
  decide

/-- C8, amended: for a struct whose tagged fields are exported, have pairwise
distinct Go names and hold no non-nil pointer to a struct other than
`time.Time`, whose table is unregistered or registered from the same struct
type, and which has a tagged field whose kind is none of signed integer,
unsigned integer, float, string or pointer, `GetMapValues` returns without
failing and its result has an entry for the column name of that field; the
text of the entry is empty when no other field carries the same tag. -/
theorem GetMapValues_other_kind (o : RangeOrder (GoString × fieldStruct)) (m : Struct)
    (w : World) (f : StructField) (hn : (m.tagged.map (fun f => f.Name)).Nodup)
    (hread : m.readable = true)
    (hfit : RegistryFits w m) (hf : f ∈ m.Fields) (ht : f.Tag ≠ [])
    (hkind : f.Val = Value.other) :
    ∃ (mp : GoMap GoString) (w1 : World), GetMapValues o m w = some (mp, w1)
      ∧ (∃ v, GoMap.get? mp f.Tag = some v)
      ∧ ((∀ g ∈ m.Fields, g.Tag = f.Tag → g = f) → GoMap.get? mp f.Tag = some []) := by
  obtain ⟨mp, w1, h1, h2, h3⟩ := GetMapValues_entry o m w f hn hread hfit hf ht
  refine ⟨mp, w1, h1, h2, fun hu => ?_⟩
  rw [h3 hu, hkind]
  rfl

/-- C8 at a struct with a name and a bool field `Flag` tagged `flag`. -/
theorem GetMapValues_other_kind_witness :
    ∃ (mp : GoMap GoString) (w1 : World),
      GetMapValues (RangeOrder.stored _)
          (Struct.mk "t".toList [⟨"Name".toList, "name".toList, .string "bob".toList⟩,
            ⟨"Flag".toList, "flag".toList, .other⟩]) World.fresh = some (mp, w1)
        ∧ GoMap.get? mp "flag".toList = some [] := by
  obtain ⟨mp, w1, h1, _, h3⟩ := GetMapValues_other_kind (RangeOrder.stored _)
    (Struct.mk "t".toList [⟨"Name".toList, "name".toList, .string "bob".toList⟩,
      ⟨"Flag".toList, "flag".toList, .other⟩]) World.fresh
    ⟨"Flag".toList, "flag".toList, .other⟩ (by decide) (by decide) (Or.inl rfl) (by decide)
    (by decide) rfl
  exact ⟨mp, w1, h1, h3 (by decide)⟩

/-- C8 as stated fails: for a struct with a bool field `Flag` tagged `flag`,
the map `GetMapValues` returns has an entry for `flag`, with the empty text. -/
theorem GetMapValues_other_kind_counterexample :
    (GetMapValues (RangeOrder.stored _)
        (Struct.mk "t".toList [⟨"Flag".toList, "flag".toList, .other⟩]) World.fresh).map
        (fun r => GoMap.get? r.1 "flag".toList)
      = some (some []) := by
  decide

/-- C9, amended: for a struct whose tagged fields are exported, have pairwise
distinct Go names and hold no non-nil pointer to a struct other than
`time.Time`, whose table is unregistered or registered from the same struct
type, and a tagged field of type pointer-to-time whose tag no other field
carries, `GetMapValues` returns and renders the field as the text `null` when
the pointer is nil, and, when it points to an instant whose year in UTC is
between 0 and 9999, as a double quote, the text `SQLTime` gives for the
instant, and a double quote, where that text has the 19-character form
`YYYY-MM-DD HH:MM:SS`. The instant 2019-10-10 09:00:00 UTC (1570698000 seconds
after the epoch) renders as `"2019-10-10 09:00:00"`, quotes included. -/
theorem GetMapValues_time_field (o : RangeOrder (GoString × fieldStruct)) (m : Struct)
    (w : World) (f : StructField) (x : Option Time)
    (hn : (m.tagged.map (fun f => f.Name)).Nodup) (hread : m.readable = true)
    (hfit : RegistryFits w m)
    (hf : f ∈ m.Fields) (ht : f.Tag ≠ [])
    (huniq : ∀ g ∈ m.Fields, g.Tag = f.Tag → g = f) (hv : f.Val = Value.timePtr x) :
    (∃ (mp : GoMap GoString) (w1 : World), GetMapValues o m w = some (mp, w1)
      ∧ (x = none → GoMap.get? mp f.Tag = some "null".toList)
      ∧ (∀ t : Time, x = some t → 0 ≤ t.UTC.year → t.UTC.year ≤ 9999 →
          GoMap.get? mp f.Tag = some ("\"".toList ++ SQLTime t ++ "\"".toList)
          ∧ IsDateTimeText (SQLTime t) ∧ (SQLTime t).length = 19))
    ∧ Time.UTC ⟨1570698000⟩ = ⟨2019, 10, 10, 9, 0, 0⟩
    ∧ renderValue (.timePtr (some ⟨1570698000⟩)) = "\"2019-10-10 09:00:00\"".toList := by
  refine ⟨?_, by decide, by decide⟩
  obtain ⟨mp, w1, h1, _, h3⟩ := GetMapValues_entry o m w f hn hread hfit hf ht
  refine ⟨mp, w1, h1, fun hx => ?_, fun t hx h0 h9 => ⟨?_, SQLTime_form t h0 h9⟩⟩
  · rw [h3 huniq, hv, hx]; rfl
  · rw [h3 huniq, hv, hx]; rfl

/-- C9 at the test of the repository: `CreatedAt` at 2019-10-10 09:00:00 UTC,
`UpdatedAt` and `DeletedAt` nil. -/
theorem GetMapValues_time_field_witness :
    ∃ (mp : GoMap GoString) (w1 : World),
      GetMapValues (RangeOrder.stored _)
          (teststruct1 23 "bo\"b".toList (some ⟨1570698000⟩) none none).toStruct World.fresh
        = some (mp, w1)
      ∧ GoMap.get? mp "created_at".toList = some "\"2019-10-10 09:00:00\"".toList := by
  obtain ⟨⟨mp, w1, h1, _, h3⟩, _, _⟩ := GetMapValues_time_field (RangeOrder.stored _)
    (teststruct1 23 "bo\"b".toList (some ⟨1570698000⟩) none none).toStruct World.fresh
    ⟨"CreatedAt".toList, "created_at".toList, .timePtr (some ⟨1570698000⟩)⟩
    (some ⟨1570698000⟩) (by decide) (by decide) (Or.inl rfl) (by decide) (by decide)
    (by decide) rfl
  exact ⟨mp, w1, h1, (h3 ⟨1570698000⟩ rfl (by decide) (by decide)).1.trans (by decide)⟩

/-- C9 as stated fails: the first instant of the year 10000 in UTC
(253402300800 seconds after the epoch) is rendered with a year of five digits,
20 characters between the quotes. -/
theorem GetMapValues_time_field_counterexample :
    (GetMapValues (RangeOrder.stored _)
        (Struct.mk "t".toList
          [⟨"CreatedAt".toList, "created_at".toList, .timePtr (some ⟨253402300800⟩)⟩])
        World.fresh).map (fun r => GoMap.get? r.1 "created_at".toList)
      = some (some "\"10000-01-01 00:00:00\"".toList)
    ∧ (SQLTime ⟨253402300800⟩).length = 20 := by
  decide

/-! ### Select lists -/

theorem stringsSplit_of_no_sep (sep : Char) (s : GoString) (h : sep ∉ s) :
    stringsSplit sep s = [s] := by
  induction s with
  | nil => rfl
  | cons c cs ih =>
    rw [List.mem_cons, not_or] at h
    have hc : ¬ c = sep := fun e => h.1 e.symm
    simp only [stringsSplit, if_neg hc, ih h.2]

theorem foldl_join_old_first {α : Type} (g : α → GoString) (sep : GoString) (l : List α) :
    ∀ a b : GoString,
      l.foldl (fun (st : GoString × GoString) (x : α) =>
          (st.2 ++ g x, st.2 ++ g x ++ sep)) (a, b)
        = (if l.map g = [] then a else b ++ sep.intercalate (l.map g),
            b ++ ((l.map g).map (fun x => x ++ sep)).flatten) := by
  induction l with
  | nil => intro a b; simp
  | cons x xs ih =>
    intro a b
    rw [List.foldl_cons, ih, List.map_cons, intercalate_cons]
    generalize xs.map g = items
    by_cases h : items = []
    · simp [h]
    · simp [h]

theorem chainedEntry_eq (T c : GoString) :
    chainedEntry T (T ++ ".".toList) c = qualifiedEntry T c := by
  simp [chainedEntry, qualifiedEntry]

theorem getChainedFields_plain (o : RangeOrder (GoString × fieldStruct)) (T : GoString)
    (w : World) (F : GoMap fieldStruct) (hdot : '.' ∉ T)
    (hF : w.modelFields.get? T = some F) :
    getChainedFields o T w = some (",\n".toList.intercalate (tableEntries T (o.pick F))) := by
  unfold getChainedFields
  simp only [stringsSplit_of_no_sep '.' T hdot, List.length_singleton, if_true, hF]
  have h := foldl_join_old_first (fun kv : GoString × fieldStruct =>
    chainedEntry T (T ++ ".".toList) kv.2.SQLName) ",\n".toList (o.pick F) [] []
  have h2 : (o.pick F).foldl
        (fun (st : GoString × GoString) (kv : GoString × fieldStruct) =>
          let rawsql := st.2 ++ chainedEntry T (T ++ ".".toList) kv.2.SQLName
          (rawsql, rawsql ++ ",\n".toList))
        ([], [])
      = (_, _) := h
  rw [h2]
  have h3 : (o.pick F).map (fun kv => chainedEntry T (T ++ ".".toList) kv.2.SQLName)
      = tableEntries T (o.pick F) := by
    unfold tableEntries
    exact List.map_congr_left (fun kv _ => chainedEntry_eq T kv.2.SQLName)
  simp only [h3, List.nil_append]
  split_ifs with h0
  · rw [h0]; rfl
  · rfl

theorem eq_of_append_dot (a : GoString) :
    ∀ (b x y : GoString), '.' ∉ a → '.' ∉ b → a ++ '.' :: x = b ++ '.' :: y → a = b := by
  induction a with
  | nil =>
    intro b x y _ hb h
    cases b with
    | nil => rfl
    | cons d ds =>
      simp only [List.nil_append, List.cons_append, List.cons.injEq] at h
      exact absurd (h.1 ▸ List.mem_cons_self _ _) hb
  | cons c cs ih =>
    intro b x y ha hb h
    cases b with
    | nil =>
      simp only [List.nil_append, List.cons_append, List.cons.injEq] at h
      exact absurd (h.1 ▸ List.mem_cons_self _ _) ha
    | cons d ds =>
      simp only [List.cons_append, List.cons.injEq] at h
      rw [h.1, ih ds x y (fun hm => ha (List.mem_cons_of_mem _ hm))
        (fun hm => hb (List.mem_cons_of_mem _ hm)) h.2]

theorem qualifiedEntry_table (A B c1 c2 : GoString) (hA : '.' ∉ A) (hB : '.' ∉ B)
    (h : qualifiedEntry A c1 = qualifiedEntry B c2) : A = B := by
  unfold qualifiedEntry at h
  simp only [List.append_assoc] at h
  exact eq_of_append_dot A B _ _ hA hB h

theorem qualifiedEntry_column (T c1 c2 : GoString)
    (h : qualifiedEntry T c1 = qualifiedEntry T c2) : c1 = c2 := by
  have hlen := congrArg List.length h
  unfold qualifiedEntry at h hlen
  simp only [List.length_append] at hlen
  have hl : c1.length = c2.length := by omega
  simp only [List.append_assoc] at h
  have h2 := List.append_cancel_left h
  have h3 := List.append_cancel_left h2
  exact List.append_inj_left h3 hl

theorem tableEntries_nodup (T : GoString) (l : List (GoString × fieldStruct))
    (h : (l.map (fun kv => kv.2.SQLName)).Nodup) : (tableEntries T l).Nodup := by
  have e : tableEntries T l = (l.map (fun kv => kv.2.SQLName)).map (qualifiedEntry T) := by
    simp [tableEntries, List.map_map, Function.comp_def]
  rw [e]
  exact h.map (fun c1 c2 hc => qualifiedEntry_column T c1 c2 hc)

/-- C10, amended: for two distinct registered tables `A` and `B` whose names
contain no dot, with descriptor sets `Fa` and `Fb` and nothing cached for them,
`GetSQLFields(A, B)` returns the entries of `A` joined by a comma and a
newline, a comma and a newline, and the entries of `B` joined in the same way.
The entries are `|Fa| + |Fb|` in number; they are the entries `T.c "T.c"` of
the columns of `A` and of `B`, one for each descriptor, in some order; and no
entry occurs twice when no column name occurs twice in a table. Both lists are
cached afterwards. -/
theorem GetSQLFields_two_tables (o : GoString → RangeOrder (GoString × fieldStruct))
    (A B : GoString) (Fa Fb : GoMap fieldStruct) (w : World)
    (hA : '.' ∉ A) (hB : '.' ∉ B) (hne : A ≠ B)
    (hFa : w.modelFields.get? A = some Fa) (hFb : w.modelFields.get? B = some Fb)
    (hcA : w.modelSQLFields.get? A = none) (hcB : w.modelSQLFields.get? B = none) :
    GetSQLFields o [A, B] w
        = some (",\n".toList.intercalate (tableEntries A ((o A).pick Fa)) ++ ",\n".toList
              ++ ",\n".toList.intercalate (tableEntries B ((o B).pick Fb)),
            (w.cached A (",\n".toList.intercalate (tableEntries A ((o A).pick Fa)))).cached B
              (",\n".toList.intercalate (tableEntries B ((o B).pick Fb))))
      ∧ (tableEntries A ((o A).pick Fa) ++ tableEntries B ((o B).pick Fb)).length
          = Fa.length + Fb.length
      ∧ (tableEntries A ((o A).pick Fa) ++ tableEntries B ((o B).pick Fb)).Perm
          (tableEntries A Fa ++ tableEntries B Fb)
      ∧ ((Fa.map (fun kv => kv.2.SQLName)).Nodup → (Fb.map (fun kv => kv.2.SQLName)).Nodup →
          (tableEntries A ((o A).pick Fa) ++ tableEntries B ((o B).pick Fb)).Nodup) := by
  refine ⟨?_, ?_, ?_, ?_⟩
  · have h1 := getChainedFields_plain (o A) A w Fa hA hFa
    have hcB2 : GoMap.get? (GoMap.set w.modelSQLFields A
        (",\n".toList.intercalate (tableEntries A ((o A).pick Fa)))) B = none := by
      rw [goMap_get_set_other _ _ _ _ (fun e => hne e.symm)]
      exact hcB
    have h2 := getChainedFields_plain (o B) B
      (w.cached A (",\n".toList.intercalate (tableEntries A ((o A).pick Fa)))) Fb hB hFb
    have hcB3 : GoMap.get? (w.cached A
        (",\n".toList.intercalate (tableEntries A ((o A).pick Fa)))).modelSQLFields B
        = none := hcB2
    simp only [GetSQLFields, GetSQLFieldsLoop, hcA, h1, hcB3, h2, List.nil_append]
  · simp [tableEntries, ((o A).perm Fa).length_eq, ((o B).perm Fb).length_eq]
  · exact List.Perm.append (((o A).perm Fa).map _) (((o B).perm Fb).map _)
  · intro ha hb
    refine List.Nodup.append
      (tableEntries_nodup A _ ((((o A).perm Fa).map _).nodup_iff.mpr ha))
      (tableEntries_nodup B _ ((((o B).perm Fb).map _).nodup_iff.mpr hb)) ?_
    intro e h1 h2
    obtain ⟨kv1, _, e1⟩ := List.mem_map.mp h1
    obtain ⟨kv2, _, e2⟩ := List.mem_map.mp h2
    exact hne (qualifiedEntry_table A B _ _ hA hB (e1.trans e2.symm))

set_option maxRecDepth 100000 in
/-- C10 at the test of the repository: the two test models, ten entries. -/
theorem GetSQLFields_two_tables_witness :
    (GetSQLFields (fun _ => RangeOrder.stored _) ["teststruct1".toList, "teststruct2".toList]
        World.afterInitModels).map (fun r => r.1)
      = some ("teststruct1.id \"teststruct1.id\",\nteststruct1.name \"teststruct1.name\",\nteststruct1.created_at \"teststruct1.created_at\",\nteststruct1.updated_at \"teststruct1.updated_at\",\nteststruct1.deleted_at \"teststruct1.deleted_at\",\nteststruct2.id \"teststruct2.id\",\nteststruct2.name \"teststruct2.name\",\nteststruct2.created_at \"teststruct2.created_at\",\nteststruct2.updated_at \"teststruct2.updated_at\",\nteststruct2.deleted_at \"teststruct2.deleted_at\"".toList) := by
  rw [(GetSQLFields_two_tables (fun _ => RangeOrder.stored _) "teststruct1".toList
    "teststruct2".toList
    (scanFields 0 (teststruct1 0 [] none none none).toStruct.Fields [])
    (scanFields 0 (teststruct2 0 [] none none none).toStruct.Fields [])
    World.afterInitModels (by decide) (by decide) (by decide) (by decide) (by decide)
    (by decide) (by decide)).1]
  decide

/-- C10 as stated fails: with the registered tables `a.b` and `t` and an
empty cache, `GetSQLFields("a.b", "t")` reads the name `a.b` as a path, looks
for the descriptors of a table `b`, and panics on the nil pointer it gets. -/
theorem GetSQLFields_two_tables_counterexample :
    World.dottedTable.modelFields.get? "a.b".toList
        = some [("X".toList, ⟨"x".toList, "X".toList, 0⟩)]
      ∧ World.dottedTable.modelFields.get? "t".toList
        = some [("Y".toList, ⟨"y".toList, "Y".toList, 0⟩)]
      ∧ World.dottedTable.modelSQLFields = []
      ∧ GetSQLFields (fun _ => RangeOrder.stored _) ["a.b".toList, "t".toList]
          World.dottedTable = none := by
  decide

/-! ### Dotted paths -/

theorem stringsSplit_append_sep (sep : Char) (s x : GoString) (h : sep ∉ s) :
    stringsSplit sep (s ++ sep :: x) = s :: stringsSplit sep x := by
  induction s with
  | nil => simp [stringsSplit]
  | cons c cs ih =>
    rw [List.mem_cons, not_or] at h
    have hc : ¬ c = sep := fun e => h.1 e.symm
    have e : stringsSplit sep (c :: (cs ++ sep :: x))
        = match stringsSplit sep (cs ++ sep :: x) with
          | [] => [[c]]
          | seg :: segs => (c :: seg) :: segs := by
      simp only [stringsSplit, if_neg hc]
    rw [List.cons_append, e, ih h.2]

theorem stringsSplit_join (segs : List GoString) (hne : segs ≠ [])
    (hdot : ∀ s ∈ segs, '.' ∉ s) :
    stringsSplit '.' (stringsJoin segs ".".toList) = segs := by
  unfold stringsJoin
  induction segs with
  | nil => exact absurd rfl hne
  | cons s rest ih =>
    rw [intercalate_cons]
    by_cases hr : rest = []
    · rw [if_pos hr, hr]
      exact stringsSplit_of_no_sep '.' s (hdot s (List.mem_cons_self _ _))
    · rw [if_neg hr]
      have e : s ++ ".".toList ++ ".".toList.intercalate rest
          = s ++ '.' :: ".".toList.intercalate rest := by
        simp
      rw [e, stringsSplit_append_sep '.' s _ (hdot s (List.mem_cons_self _ _)),
        ih hr (fun t ht => hdot t (List.mem_cons_of_mem _ ht))]

theorem chainedEntry_alias (L P c : GoString) :
    chainedEntry L (P ++ ".".toList) c = aliasedEntry L P c := by
  simp [chainedEntry, aliasedEntry]

/-- C11: for a dotted path of at least two table names (segments without a
dot, joined by dots) whose last segment `L` is a registered table with
descriptors `F`, `getChainedFields` returns the entries of the descriptors of
`L`, joined by a comma and a newline: one entry for every descriptor, in the
order of the traversal, and nothing else. The entry of the column `c` selects
`L.c` under the alias `P.c`, where `P` is the path without its first segment,
the remaining segments joined by dots. -/
theorem getChainedFields_path (o : RangeOrder (GoString × fieldStruct))
    (segs : List GoString) (F : GoMap fieldStruct) (w : World)
    (hlen : 2 ≤ segs.length) (hdot : ∀ s ∈ segs, '.' ∉ s)
    (hF : w.modelFields.get? (segs.getLastD []) = some F) :
    getChainedFields o (stringsJoin segs ".".toList) w
        = some (",\n".toList.intercalate ((o.pick F).map (fun kv =>
            aliasedEntry (segs.getLastD []) (stringsJoin (segs.drop 1) ".".toList)
              kv.2.SQLName)))
      ∧ ((o.pick F).map (fun kv =>
            aliasedEntry (segs.getLastD []) (stringsJoin (segs.drop 1) ".".toList)
              kv.2.SQLName)).length = F.length
      ∧ ((o.pick F).map (fun kv =>
            aliasedEntry (segs.getLastD []) (stringsJoin (segs.drop 1) ".".toList)
              kv.2.SQLName)).Perm
          (F.map (fun kv =>
            aliasedEntry (segs.getLastD []) (stringsJoin (segs.drop 1) ".".toList)
              kv.2.SQLName)) := by
  refine ⟨?_, by rw [List.length_map, (o.perm F).length_eq], (o.perm F).map _⟩
  have hne : segs ≠ [] := by
    intro h
    rw [h] at hlen
    simp at hlen
  have h1 : ¬ segs.length = 1 := by omega
  unfold getChainedFields
  simp only [stringsSplit_join segs hne hdot, if_neg h1, hF]
  have h := foldl_join_old_first (fun kv : GoString × fieldStruct =>
    chainedEntry (segs.getLastD []) (stringsJoin (segs.drop 1) ".".toList ++ ".".toList)
      kv.2.SQLName) ",\n".toList (o.pick F) [] []
  have h2 : (o.pick F).foldl
        (fun (st : GoString × GoString) (kv : GoString × fieldStruct) =>
          let rawsql := st.2 ++ chainedEntry (segs.getLastD [])
            (stringsJoin (segs.drop 1) ".".toList ++ ".".toList) kv.2.SQLName
          (rawsql, rawsql ++ ",\n".toList))
        ([], [])
      = (_, _) := h
  rw [h2]
  have h3 : (o.pick F).map (fun kv => chainedEntry (segs.getLastD [])
        (stringsJoin (segs.drop 1) ".".toList ++ ".".toList) kv.2.SQLName)
      = (o.pick F).map (fun kv => aliasedEntry (segs.getLastD [])
        (stringsJoin (segs.drop 1) ".".toList) kv.2.SQLName) :=
    List.map_congr_left (fun kv _ => chainedEntry_alias _ _ kv.2.SQLName)
  simp only [h3, List.nil_append]
  split_ifs with h0
  · rw [h0]; rfl
  · rfl

set_option maxRecDepth 100000 in
/-- C11 at the path `a.teststruct1.teststruct2`: the columns of `teststruct2`
under the alias prefix `teststruct1.teststruct2`. -/
theorem getChainedFields_path_witness :
    getChainedFields (RangeOrder.stored _) "a.teststruct1.teststruct2".toList
        World.afterInitModels
      = some "teststruct2.id \"teststruct1.teststruct2.id\",\nteststruct2.name \"teststruct1.teststruct2.name\",\nteststruct2.created_at \"teststruct1.teststruct2.created_at\",\nteststruct2.updated_at \"teststruct1.teststruct2.updated_at\",\nteststruct2.deleted_at \"teststruct1.teststruct2.deleted_at\"".toList :=
  (getChainedFields_path (RangeOrder.stored _)
    ["a".toList, "teststruct1".toList, "teststruct2".toList]
    (scanFields 0 (teststruct2 0 [] none none none).toStruct.Fields [])
    World.afterInitModels (by decide) (by decide) (by decide)).1.trans (by decide)

/-! ### Registration -/

theorem taggedFrom_enum (fs : List StructField) :
    ∀ i : Nat, (taggedFrom i fs).map (fun e => (e.1, e.2.SQLName, e.2.Index))
      = ((fs.enumFrom i).filter (fun p => decide (p.2.Tag ≠ []))).map
          (fun p => (p.2.Name, p.2.Tag, p.1)) := by
  induction fs with
  | nil => intro i; simp [taggedFrom]
  | cons f rest ih =>
    intro i
    by_cases ht : f.Tag.length > 0
    · have h0 : f.Tag ≠ [] := by
        intro h0
        simp [h0] at ht
      have hf : List.filter (fun p : Nat × StructField => decide (p.2.Tag ≠ []))
            ((i, f) :: List.enumFrom (i + 1) rest)
          = (i, f) :: List.filter (fun p : Nat × StructField => decide (p.2.Tag ≠ []))
            (List.enumFrom (i + 1) rest) := by
        rw [List.filter_cons]; simp [h0]
      simp only [taggedFrom, if_pos ht, List.enumFrom_cons, hf, List.map_cons, ih (i + 1)]
    · have h0 : f.Tag = [] := by
        cases hf : f.Tag with
        | nil => rfl
        | cons a b => simp [hf] at ht
      have hf : List.filter (fun p : Nat × StructField => decide (p.2.Tag ≠ []))
            ((i, f) :: List.enumFrom (i + 1) rest)
          = List.filter (fun p : Nat × StructField => decide (p.2.Tag ≠ []))
            (List.enumFrom (i + 1) rest) := by
        rw [List.filter_cons]; simp [h0]
      simp only [taggedFrom, if_neg ht, List.enumFrom_cons, hf, ih (i + 1)]

/-- C12, amended: whatever the package state was, after
`prepareModelForScan(m)` the registry entry of the table of `m` holds, for the
fields of `m` in the order of declaration, one descriptor for every field with
a non-empty tag and none for the others, provided no two tagged fields have the
same Go name: its column name is the tag and its index is the position of the
field in the struct. The entry of every other table, the cache and the executed
statements are as before. -/
theorem prepareModelForScan_entry (m : Struct) (w : World)
    (hn : (m.tagged.map (fun f => f.Name)).Nodup) :
    (∃ ds : GoMap fieldStruct,
        (prepareModelForScan m w).modelFields.get? m.TableName = some ds
        ∧ ds.map (fun e => (e.1, e.2.SQLName, e.2.Index))
          = (m.Fields.enum.filter (fun p => decide (p.2.Tag ≠ []))).map
              (fun p => (p.2.Name, p.2.Tag, p.1))
        ∧ ds.length = m.tagged.length)
      ∧ (∀ T : GoString, T ≠ m.TableName →
          (prepareModelForScan m w).modelFields.get? T = w.modelFields.get? T)
      ∧ (prepareModelForScan m w).modelSQLFields = w.modelSQLFields
      ∧ (prepareModelForScan m w).executed = w.executed := by
  refine ⟨⟨taggedFrom 0 m.Fields, ?_, taggedFrom_enum m.Fields 0, ?_⟩, ?_, rfl, rfl⟩
  · simp only [prepareModelForScan, goMap_get_set_self]
    rw [scanFields_eq_of_tagged m.Fields 0 [] hn (by simp)]
    rfl
  · have h := congrArg List.length (taggedFrom_columns m.Fields 0).1
    rw [List.length_map, List.length_map] at h
    exact h
  · intro T hT
    simp only [prepareModelForScan]
    exact goMap_get_set_other _ _ _ _ hT

/-- C12 at `teststruct1`, registered over an entry of the same table that
held one foreign descriptor: five descriptors, none for the untagged field
`Dummy` at position 2. -/
theorem prepareModelForScan_entry_witness :
    (prepareModelForScan (teststruct1 0 [] none none none).toStruct
        ⟨[("teststruct1".toList, [("Old".toList, ⟨"old".toList, "Old".toList, 7⟩)])], [],
          []⟩).modelFields.get? "teststruct1".toList
      = some [("ID".toList, ⟨"id".toList, "ID".toList, 0⟩),
          ("Name".toList, ⟨"name".toList, "Name".toList, 1⟩),
          ("CreatedAt".toList, ⟨"created_at".toList, "CreatedAt".toList, 3⟩),
          ("UpdatedAt".toList, ⟨"updated_at".toList, "UpdatedAt".toList, 4⟩),
          ("DeletedAt".toList, ⟨"deleted_at".toList, "DeletedAt".toList, 5⟩)]
    ∧ ∃ ds : GoMap fieldStruct,
        (prepareModelForScan (teststruct1 0 [] none none none).toStruct
          ⟨[("teststruct1".toList, [("Old".toList, ⟨"old".toList, "Old".toList, 7⟩)])], [],
            []⟩).modelFields.get? "teststruct1".toList = some ds
        ∧ ds.length = 5 := by
  obtain ⟨⟨ds, h1, _, h3⟩, _⟩ := prepareModelForScan_entry
    (teststruct1 0 [] none none none).toStruct
    ⟨[("teststruct1".toList, [("Old".toList, ⟨"old".toList, "Old".toList, 7⟩)])], [], []⟩
    (by decide)
  exact ⟨by decide, ds, h1, h3⟩

/-- C12 as stated fails: a struct with two blank fields `_`, tagged `a` and
`b`, has two tagged fields, and its registry entry holds one descriptor, the
one of the second field, because the descriptors are kept under the Go name of
the field. -/
theorem prepareModelForScan_entry_counterexample :
    (Struct.mk "t".toList [⟨"_".toList, "a".toList, .int 0⟩,
        ⟨"_".toList, "b".toList, .int 0⟩]).tagged.length = 2
      ∧ (prepareModelForScan (Struct.mk "t".toList [⟨"_".toList, "a".toList, .int 0⟩,
          ⟨"_".toList, "b".toList, .int 0⟩]) World.fresh).modelFields.get? "t".toList
        = some [("_".toList, ⟨"b".toList, "_".toList, 1⟩)] := by
  decide

/-! ### The column list and the value list of an insert -/

theorem rangeOrder_pick_nil {α : Type} (o : RangeOrder α) : o.pick [] = [] :=
  List.Perm.eq_nil (o.perm [])

theorem ite_intercalate (sep : GoString) (items : List GoString) :
    (if items = [] then [] else [] ++ sep.intercalate items) = sep.intercalate items := by
  split_ifs with h0
  · rw [h0]; rfl
  · rfl

theorem foldl_join_pair {α : Type} (gV gK : α → GoString) (sep : GoString) (l : List α) :
    ∀ a b c d : GoString,
      l.foldl (fun (st : GoString × GoString × GoString × GoString) (x : α) =>
          (st.1 ++ gV x ++ sep, st.1 ++ gV x, st.2.2.1 ++ gK x ++ sep, st.2.2.1 ++ gK x))
          (a, b, c, d)
        = (a ++ ((l.map gV).map (fun x => x ++ sep)).flatten,
            (if l.map gV = [] then b else a ++ sep.intercalate (l.map gV)),
            c ++ ((l.map gK).map (fun x => x ++ sep)).flatten,
            (if l.map gK = [] then d else c ++ sep.intercalate (l.map gK))) := by
  induction l with
  | nil => intro a b c d; simp
  | cons x xs ih =>
    intro a b c d
    rw [List.foldl_cons, ih]
    simp only [List.map_cons, intercalate_cons]
    have hk : xs.map gK = [] ↔ xs.map gV = [] := by simp
    generalize hV : xs.map gV = itemsV at hk
    generalize hK : xs.map gK = itemsK at hk
    by_cases h : itemsV = []
    · have h2 : itemsK = [] := hk.mpr h
      simp [h, h2]
    · have h2 : ¬ itemsK = [] := fun e => h (hk.mp e)
      simp [h, h2]

theorem scanFields_of_no_tag (fs : List StructField) :
    ∀ (i : Nat) (acc : GoMap fieldStruct),
      fs.filter (fun f => decide (f.Tag ≠ [])) = [] → scanFields i fs acc = acc := by
  induction fs with
  | nil => intro i acc _; rfl
  | cons f rest ih =>
    intro i acc h
    have h0 : f.Tag = [] := by
      by_contra hne
      rw [List.filter_cons] at h
      simp [hne] at h
    have hrest : rest.filter (fun f => decide (f.Tag ≠ [])) = [] := by
      rw [List.filter_cons] at h
      simpa [h0] using h
    have ht : ¬ f.Tag.length > 0 := by simp [h0]
    simp only [scanFields, if_neg ht]
    exact ih _ _ hrest

/-- C17: whatever the order `oV` in which the rendered map `mp` is traversed,
`GetSQLFieldsAndValues` returns the column list and the value list built from
one and the same sequence of entries, a rearrangement of the entries of `mp`:
the columns are the keys between backquotes, the values are the values, item
`i` of each list coming from entry `i` of the sequence, so that both lists have
as many items as the map has entries; both are joined by `, ` without a
trailing separator. For a struct without a tagged field (and a registry that
fits) both lists are empty. -/
theorem GetSQLFieldsAndValues_lists (oF : RangeOrder (GoString × fieldStruct))
    (oV : RangeOrder (GoString × GoString)) (m : Struct) (w w1 : World)
    (mp : GoMap GoString) (hmap : GetMapValues oF m w = some (mp, w1)) :
    GetSQLFieldsAndValues oF oV m w
        = some ((stringsJoin ((oV.pick mp).map columnItem) ", ".toList,
            stringsJoin ((oV.pick mp).map Prod.snd) ", ".toList), w1)
      ∧ (oV.pick mp).Perm mp
      ∧ ((oV.pick mp).map columnItem).length = mp.length
      ∧ ((oV.pick mp).map Prod.snd).length = mp.length
      ∧ (m.tagged = [] → RegistryFits w m →
          GetSQLFieldsAndValues oF oV m w = some (([], []), w1)) := by
  have hmain : GetSQLFieldsAndValues oF oV m w
      = some ((stringsJoin ((oV.pick mp).map columnItem) ", ".toList,
          stringsJoin ((oV.pick mp).map Prod.snd) ", ".toList), w1) := by
    have h := foldl_join_pair (fun kv : GoString × GoString => kv.2)
      (fun kv : GoString × GoString => "`".toList ++ kv.1 ++ "`".toList)
      ", ".toList (oV.pick mp) [] [] [] []
    have h2 : (oV.pick mp).foldl
          (fun (st : GoString × GoString × GoString × GoString)
              (kv : GoString × GoString) =>
            let resultV := st.1 ++ kv.2
            let resultK := st.2.2.1 ++ ("`".toList ++ kv.1 ++ "`".toList)
            (resultV ++ ", ".toList, resultV, resultK ++ ", ".toList, resultK))
          ([], [], [], [])
        = (_, _, _, _) := h
    unfold GetSQLFieldsAndValues
    simp only [hmap]
    rw [h2]
    have eK : (oV.pick mp).map (fun kv => "`".toList ++ kv.1 ++ "`".toList)
        = (oV.pick mp).map columnItem := rfl
    have eV : (oV.pick mp).map (fun kv : GoString × GoString => kv.2)
        = (oV.pick mp).map Prod.snd := rfl
    simp only [eK, eV, ite_intercalate, stringsJoin]
  refine ⟨hmain, oV.perm mp, by rw [List.length_map, (oV.perm mp).length_eq],
    by rw [List.length_map, (oV.perm mp).length_eq], fun ht hfit => ?_⟩
  have hscan : scanFields 0 m.Fields [] = [] := scanFields_of_no_tag m.Fields 0 [] ht
  have hmp : mp = [] := by
    have hperm : ∀ l : List (GoString × fieldStruct), l = [] →
        (oF.pick l) = [] := fun l hl => by
      subst hl
      exact rangeOrder_pick_nil oF
    unfold GetMapValues at hmap
    rcases hfit with h | h
    · simp only [h, prepareModelForScan, goMap_get_set_self, hscan, hperm [] rfl,
        renderFields, Option.some.injEq, Prod.mk.injEq] at hmap
      exact hmap.1.symm
    · simp only [h, hscan, hperm [] rfl, renderFields, Option.some.injEq,
        Prod.mk.injEq] at hmap
      exact hmap.1.symm
  rw [hmain]
  have hp : oV.pick mp = [] := by
    subst hmp
    exact rangeOrder_pick_nil oV
  rw [hp]
  rfl

set_option maxRecDepth 100000 in
/-- C17 at `teststruct1` (identifier 23, name `bob`, no timestamps), the
rendered map traversed in reverse order. -/
theorem GetSQLFieldsAndValues_lists_witness :
    (GetSQLFieldsAndValues (RangeOrder.stored _) (RangeOrder.reversed _)
        (teststruct1 23 "bob".toList none none none).toStruct World.fresh).map (fun r => r.1)
      = some ("`deleted_at`, `updated_at`, `created_at`, `name`, `id`".toList,
          "null, null, null, \"bob\", 23".toList) := by
  rw [(GetSQLFieldsAndValues_lists (RangeOrder.stored _) (RangeOrder.reversed _)
    (teststruct1 23 "bob".toList none none none).toStruct World.fresh
    (prepareModelForScan (teststruct1 23 "bob".toList none none none).toStruct World.fresh)
    [("id".toList, "23".toList), ("name".toList, "\"bob\"".toList),
      ("created_at".toList, "null".toList), ("updated_at".toList, "null".toList),
      ("deleted_at".toList, "null".toList)]
    (by decide)).1]
  decide

/-! ### The cache of select lists -/

theorem GetSQLFieldsLoop_keeps (o : GoString → RangeOrder (GoString × fieldStruct))
    (q t : GoString) (names : List GoString) :
    ∀ (result oldResult : GoString) (w w1 : World) (text : GoString),
      GetSQLFieldsLoop o names result oldResult w = some (text, w1) →
      w.modelSQLFields.get? q = some t → w1.modelSQLFields.get? q = some t := by
  induction names with
  | nil =>
    intro result oldResult w w1 text h hq
    simp only [GetSQLFieldsLoop, Option.some.injEq, Prod.mk.injEq] at h
    rw [← h.2]
    exact hq
  | cons name rest ih =>
    intro result oldResult w w1 text h hq
    simp only [GetSQLFieldsLoop] at h
    split at h
    · exact ih _ _ _ _ _ h hq
    · rename_i hmiss
      split at h
      · simp at h
      · refine ih _ _ _ _ _ h ?_
        have hne : q ≠ name := by
          rintro rfl
          rw [hq] at hmiss
          simp at hmiss
        simp only [World.cached]
        rw [goMap_get_set_other _ _ _ _ hne]
        exact hq

theorem step_keeps_cache (q t : GoString) (w w1 : World) (h : World.Step w w1)
    (hq : w.modelSQLFields.get? q = some t) : w1.modelSQLFields.get? q = some t := by
  cases h with
  | register m => exact hq
  | render o m _ _ mp h =>
    rw [(GetMapValues_executed o m w w1 mp h).2]
    exact hq
  | fields o names _ _ text h => exact GetSQLFieldsLoop_keeps o q t names [] [] w w1 text h hq
  | exec target query => exact hq

theorem steps_keep_cache (q t : GoString) (w w1 : World) (h : World.Steps w w1)
    (hq : w.modelSQLFields.get? q = some t) : w1.modelSQLFields.get? q = some t := by
  induction h with
  | refl => exact hq
  | tail _ hstep ih => exact step_keeps_cache q t _ _ hstep ih

theorem GetSQLFields_caches (o : GoString → RangeOrder (GoString × fieldStruct))
    (q text : GoString) (w w1 : World) (h : GetSQLFields o [q] w = some (text, w1)) :
    w1.modelSQLFields.get? q = some text := by
  simp only [GetSQLFields, GetSQLFieldsLoop] at h
  split at h
  · rename_i temp hc
    simp only [List.nil_append, Option.some.injEq, Prod.mk.injEq] at h
    rw [← h.2, ← h.1]
    exact hc
  · split at h
    · simp at h
    · rename_i temp hg
      simp only [List.nil_append, Option.some.injEq, Prod.mk.injEq] at h
      rw [← h.2, ← h.1]
      simp only [World.cached, goMap_get_set_self]

theorem GetSQLFields_of_cached (o : GoString → RangeOrder (GoString × fieldStruct))
    (q text : GoString) (w : World) (h : w.modelSQLFields.get? q = some text) :
    GetSQLFields o [q] w = some (text, w) := by
  simp only [GetSQLFields, GetSQLFieldsLoop, h, List.nil_append]

/-! The operations that change the package state are made of the changes
of `World.Step`. -/

theorem GetSQLFieldsAndValues_steps (oF : RangeOrder (GoString × fieldStruct))
    (oV : RangeOrder (GoString × GoString)) (m : Struct) (w w1 : World)
    (r : GoString × GoString) (h : GetSQLFieldsAndValues oF oV m w = some (r, w1)) :
    World.Steps w w1 := by
  unfold GetSQLFieldsAndValues at h
  cases hg : GetMapValues oF m w with
  | none => rw [hg] at h; cases h
  | some p =>
    obtain ⟨mp, w0⟩ := p
    rw [hg] at h
    simp only [Option.some.injEq, Prod.mk.injEq] at h
    rw [← h.2]
    exact Relation.ReflTransGen.single (World.Step.render oF m w w0 mp hg)

theorem prepareUpdateQuery_steps (now : Time) (oF : RangeOrder (GoString × fieldStruct))
    (oV : RangeOrder (GoString × GoString)) (m m1 : Model) (w w1 : World)
    (r : GoString × Option Error)
    (h : prepareUpdateQuery now oF oV m w = some (r, m1, w1)) : World.Steps w w1 := by
  unfold prepareUpdateQuery at h
  by_cases hid : m.GetID = 0
  · rw [if_pos hid] at h
    simp only [Option.some.injEq, Prod.mk.injEq] at h
    rw [← h.2.2]
    exact Relation.ReflTransGen.refl
  · rw [if_neg hid] at h
    cases ht : setTimeField m "UpdatedAt".toList now with
    | none => rw [ht] at h; cases h
    | some m2 =>
      rw [ht] at h
      simp only at h
      cases hg : GetMapValues oF m2.toStruct w with
      | none => rw [hg] at h; cases h
      | some p =>
        obtain ⟨mp, w0⟩ := p
        rw [hg] at h
        simp only [Option.some.injEq, Prod.mk.injEq] at h
        rw [← h.2.2]
        exact Relation.ReflTransGen.single (World.Step.render oF _ w w0 mp hg)

theorem Update_steps (d : Driver) (now : Time) (oF : RangeOrder (GoString × fieldStruct))
    (oV : RangeOrder (GoString × GoString)) (m m1 : Model) (transaction : Option Tx)
    (w w1 : World) (e : Option Error)
    (h : Update d now oF oV m transaction w = some (e, m1, w1)) : World.Steps w w1 := by
  unfold Update at h
  cases hp : prepareUpdateQuery now oF oV m w with
  | none => rw [hp] at h; cases h
  | some p =>
    obtain ⟨⟨query, err⟩, m2, w0⟩ := p
    have h0 := prepareUpdateQuery_steps now oF oV m m2 w w0 _ hp
    rw [hp] at h
    cases err with
    | some err =>
      simp only [Option.some.injEq, Prod.mk.injEq] at h
      rw [← h.2.2]
      exact h0
    | none =>
      cases transaction with
      | some t =>
        have hw : w1 = w0.record (.tx t) query := by
          simp only at h
          cases hd : d.exec (.tx t) query <;> rw [hd] at h <;>
            simp only [Option.some.injEq, Prod.mk.injEq] at h <;> exact h.2.2.symm
        rw [hw]
        exact Relation.ReflTransGen.tail h0 (World.Step.exec w0 _ query)
      | none =>
        have hw : w1 = w0.record .db query := by
          simp only at h
          cases hd : d.exec .db query <;> rw [hd] at h <;>
            simp only [Option.some.injEq, Prod.mk.injEq] at h <;> exact h.2.2.symm
        rw [hw]
        exact Relation.ReflTransGen.tail h0 (World.Step.exec w0 _ query)

theorem Save_steps (d : Driver) (now : Time) (oF : RangeOrder (GoString × fieldStruct))
    (oV : RangeOrder (GoString × GoString)) (m m1 : Model) (transaction : Option Tx)
    (w w1 : World) (e : Option Error)
    (h : Save d now oF oV m transaction w = some (e, m1, w1)) : World.Steps w w1 := by
  unfold Save at h
  by_cases hid : m.GetID ≠ 0
  · rw [if_pos hid] at h
    exact Update_steps d now oF oV m m1 transaction w w1 e h
  · rw [if_neg hid] at h
    cases hc : setTimeField m "CreatedAt".toList now with
    | none => rw [hc] at h; cases h
    | some m2 =>
      rw [hc] at h
      simp only at h
      cases hu : setTimeField m2 "UpdatedAt".toList now with
      | none => rw [hu] at h; cases h
      | some m3 =>
        rw [hu] at h
        simp only at h
        cases hg : GetSQLFieldsAndValues oF oV m3.toStruct w with
        | none => rw [hg] at h; cases h
        | some p =>
          obtain ⟨⟨fields, values⟩, w0⟩ := p
          have h0 := GetSQLFieldsAndValues_steps oF oV _ w w0 _ hg
          rw [hg] at h
          cases transaction with
          | some t =>
            have hw : w1 = w0.record (.tx t) (insertQuery m3.TableName fields values) := by
              simp only at h
              cases hd : d.exec (.tx t) ("insert into ".toList ++ m3.TableName ++ " ( ".toList
                  ++ fields ++ ") VALUES (".toList ++ values ++ ")".toList) <;>
                rw [hd] at h <;>
                simp only [Option.some.injEq, Prod.mk.injEq] at h <;> exact h.2.2.symm
            rw [hw]
            exact Relation.ReflTransGen.tail h0 (World.Step.exec w0 _ _)
          | none =>
            have hw : w1 = w0.record .db (insertQuery m3.TableName fields values) := by
              simp only at h
              cases hd : d.exec .db ("insert into ".toList ++ m3.TableName ++ " ( ".toList
                  ++ fields ++ ") VALUES (".toList ++ values ++ ")".toList) <;>
                rw [hd] at h <;>
                simp only [Option.some.injEq, Prod.mk.injEq] at h <;> exact h.2.2.symm
            rw [hw]
            exact Relation.ReflTransGen.tail h0 (World.Step.exec w0 _ _)

theorem FindByColumn_steps (d : QueryDriver)
    (o : GoString → RangeOrder (GoString × fieldStruct)) (oM : RangeOrder (GoString × GoString))
    (tablename : GoString) (m : GoMap GoString) (w w1 : World)
    (r : Option Row × Option Error)
    (h : FindByColumn d o oM tablename m w = some (r, w1)) : World.Steps w w1 := by
  unfold FindByColumn at h
  cases hg : GetSQLFields o [tablename] w with
  | none => rw [hg] at h; cases h
  | some p =>
    obtain ⟨fields, w0⟩ := p
    rw [hg] at h
    have hw : w1 = w0 := by
      simp only at h
      cases hd : d.queryRowx
          (findQuery oM fields tablename m ".deleted_at is null limit 1".toList) <;>
        rw [hd] at h <;>
        simp only [Option.some.injEq, Prod.mk.injEq] at h <;> exact h.2.symm
    rw [hw]
    exact Relation.ReflTransGen.single (World.Step.fields o _ w w0 fields hg)

theorem FindAllByColumn_steps (d : QueryDriver)
    (o : GoString → RangeOrder (GoString × fieldStruct)) (oM : RangeOrder (GoString × GoString))
    (tablename : GoString) (m : GoMap GoString) (w w1 : World)
    (r : Option (List Row) × Option Error)
    (h : FindAllByColumn d o oM tablename m w = some (r, w1)) : World.Steps w w1 := by
  unfold FindAllByColumn at h
  cases hg : GetSQLFields o [tablename] w with
  | none => rw [hg] at h; cases h
  | some p =>
    obtain ⟨fields, w0⟩ := p
    rw [hg] at h
    have hw : w1 = w0 := by
      simp only at h
      cases hd : d.queryx (findQuery oM fields tablename m ".deleted_at is null".toList) <;>
        rw [hd] at h <;>
        simp only [Option.some.injEq, Prod.mk.injEq] at h <;> exact h.2.symm
    rw [hw]
    exact Relation.ReflTransGen.single (World.Step.fields o _ w w0 fields hg)

/-- C19: once `GetSQLFields(q)` has returned a text, every later call
`GetSQLFields(q)` returns the same text and leaves the package state as it is,
whatever the package has done in between (registrations, renderings, other
select lists, executions) and whatever the order of the traversals; in
particular right after a re-registration of the table of `q` with another
field set. -/
theorem GetSQLFields_repeat (o1 o2 : GoString → RangeOrder (GoString × fieldStruct))
    (q text : GoString) (w w1 w2 : World)
    (hfirst : GetSQLFields o1 [q] w = some (text, w1)) (hlater : World.Steps w1 w2) :
    GetSQLFields o2 [q] w2 = some (text, w2)
      ∧ ∀ m : Struct, GetSQLFields o2 [q] (prepareModelForScan m w1)
          = some (text, prepareModelForScan m w1) := by
  have hc := GetSQLFields_caches o1 q text w w1 hfirst
  exact ⟨GetSQLFields_of_cached o2 q text w2 (steps_keep_cache q text w1 w2 hlater hc),
    fun m => GetSQLFields_of_cached o2 q text _ hc⟩

set_option maxRecDepth 100000 in
/-- C19 at the test models: the list of `teststruct1` is computed, the table
is registered again from a struct with the single column `x`, and the list is
asked for again, with the opposite order of traversal. -/
theorem GetSQLFields_repeat_witness :
    (GetSQLFields (fun _ => RangeOrder.reversed _) ["teststruct1".toList]
        (prepareModelForScan ⟨"teststruct1".toList, [⟨"X".toList, "x".toList, .int 0⟩]⟩
          (World.afterInitModels.cached "teststruct1".toList
            teststruct1List))).map
        (fun r => r.1)
      = some teststruct1List := by
  rw [(GetSQLFields_repeat (fun _ => RangeOrder.stored _) (fun _ => RangeOrder.reversed _)
    "teststruct1".toList teststruct1List World.afterInitModels _ _ (by decide)
    (Relation.ReflTransGen.single (World.Step.register
      ⟨"teststruct1".toList, [⟨"X".toList, "x".toList, .int 0⟩]⟩ _))).1]
  rfl

/-! ### Coercion helpers -/

theorem numeralValue_ge (s : GoString) :
    ∀ a v : Nat, numeralValue s a = some v → a ≤ v := by
  induction s with
  | nil =>
    intro a v h
    simp only [numeralValue, Option.some.injEq] at h
    omega
  | cons c cs ih =>
    intro a v h
    simp only [numeralValue] at h
    split_ifs at h
    have := ih _ _ h
    omega

theorem parseUintLoop_eq (maxVal : Nat) (s : GoString) :
    ∀ a : Nat, a ≤ maxVal →
      parseUintLoop maxVal s a
        = (numeralValue s a).bind (fun v => if v ≤ maxVal then some v else none) := by
  induction s with
  | nil =>
    intro a ha
    simp [parseUintLoop, numeralValue, ha]
  | cons c cs ih =>
    intro a ha
    simp only [parseUintLoop, numeralValue]
    by_cases hd : c.isDigit = true
    · rw [if_pos hd, if_pos hd]
      by_cases hbig : a * 10 + (c.toNat - 48) > maxVal
      · rw [if_pos hbig]
        cases hv : numeralValue cs (a * 10 + (c.toNat - 48)) with
        | none => rfl
        | some v =>
          have := numeralValue_ge cs _ _ hv
          have hnot : ¬ v ≤ maxVal := by omega
          simp [hnot]
      · rw [if_neg hbig]
        exact ih _ (by omega)
    · rw [if_neg hd, if_neg hd]
      rfl

theorem ParseUint_eq (b : GoString) (bitSize : Nat) :
    ParseUint b bitSize
      = (unsignedNumeral b).bind (fun v => if v ≤ 2 ^ bitSize - 1 then some v else none) := by
  unfold ParseUint unsignedNumeral
  split_ifs
  · rfl
  · exact parseUintLoop_eq _ b 0 (Nat.zero_le _)

theorem pow_pred_le (bitSize : Nat) (h : 1 ≤ bitSize) :
    2 ^ (bitSize - 1) ≤ 2 ^ bitSize - 1 := by
  have e : 2 ^ bitSize = 2 ^ (bitSize - 1) * 2 := by
    rw [← pow_succ]; congr 1; omega
  have hpos : 0 < 2 ^ (bitSize - 1) := Nat.two_pow_pos _
  omega

theorem ParseInt_eq (b : GoString) (bitSize : Nat) (hbits : 1 ≤ bitSize) :
    ParseInt b bitSize
      = (signedNumeral b).bind (fun n =>
          if -((2 ^ (bitSize - 1) : Nat) : Int) ≤ n ∧ n < ((2 ^ (bitSize - 1) : Nat) : Int)
          then some n else none) := by
  have hK := pow_pred_le bitSize hbits
  cases b with
  | nil => rfl
  | cons c ds =>
    simp only [ParseInt, signedNumeral, ParseUint_eq]
    have hpos : 0 < 2 ^ (bitSize - 1) := Nat.two_pow_pos _
    generalize 2 ^ (bitSize - 1) = K at hK hpos ⊢
    generalize 2 ^ bitSize - 1 = M at hK
    by_cases hplus : c = '+'
    · have hminus : ¬ c = '-' := by rw [hplus]; decide
      simp only [hplus, true_or, if_true, show ¬ ('+' = '-') by decide, if_false]
      cases hv : unsignedNumeral ds with
      | none => rfl
      | some v =>
        simp only [Option.bind, Option.map]
        by_cases h1 : v ≤ M
        · simp only [if_pos h1]
          by_cases h2 : v ≥ K
          · rw [if_pos h2]
            show _ = (if -(K : Int) ≤ (v : Int) ∧ (v : Int) < (K : Int)
              then some (v : Int) else none)
            rw [if_neg (by omega)]
          · rw [if_neg h2]
            show _ = (if -(K : Int) ≤ (v : Int) ∧ (v : Int) < (K : Int)
              then some (v : Int) else none)
            rw [if_pos (by omega)]
        · simp only [if_neg h1]
          show _ = (if -(K : Int) ≤ (v : Int) ∧ (v : Int) < (K : Int)
            then some (v : Int) else none)
          rw [if_neg (by omega)]
    · by_cases hminus : c = '-'
      · simp only [hminus, or_true, if_true, show ¬ ('-' = '+') by decide, if_false]
        cases hv : unsignedNumeral ds with
        | none => rfl
        | some v =>
          simp only [Option.bind, Option.map]
          by_cases h1 : v ≤ M
          · simp only [if_pos h1]
            by_cases h2 : v > K
            · rw [if_pos h2]
              show _ = (if -(K : Int) ≤ -(v : Int) ∧ -(v : Int) < (K : Int)
                then some (-(v : Int)) else none)
              rw [if_neg (by omega)]
            · rw [if_neg h2]
              show _ = (if -(K : Int) ≤ -(v : Int) ∧ -(v : Int) < (K : Int)
                then some (-(v : Int)) else none)
              rw [if_pos (by omega)]
          · simp only [if_neg h1]
            show _ = (if -(K : Int) ≤ -(v : Int) ∧ -(v : Int) < (K : Int)
              then some (-(v : Int)) else none)
            rw [if_neg (by omega)]
      · simp only [hplus, hminus, or_self, if_false]
        cases hv : unsignedNumeral (c :: ds) with
        | none => rfl
        | some v =>
          simp only [Option.bind, Option.map]
          by_cases h1 : v ≤ M
          · simp only [if_pos h1]
            by_cases h2 : v ≥ K
            · rw [if_pos h2]
              show _ = (if -(K : Int) ≤ (v : Int) ∧ (v : Int) < (K : Int)
                then some (v : Int) else none)
              rw [if_neg (by omega)]
            · rw [if_neg h2]
              show _ = (if -(K : Int) ≤ (v : Int) ∧ (v : Int) < (K : Int)
                then some (v : Int) else none)
              rw [if_pos (by omega)]
          · simp only [if_neg h1]
            show _ = (if -(K : Int) ≤ (v : Int) ∧ (v : Int) < (K : Int)
              then some (v : Int) else none)
            rw [if_neg (by omega)]

theorem digitChar_toNat (d : Nat) (h : d < 10) : (digitChar d).toNat - 48 = d := by
  interval_cases d <;> decide

theorem numeralValue_append (xs ys : GoString) :
    ∀ a : Nat, numeralValue (xs ++ ys) a = (numeralValue xs a).bind (numeralValue ys) := by
  induction xs with
  | nil => intro a; rfl
  | cons c cs ih =>
    intro a
    simp only [List.cons_append, numeralValue]
    split_ifs
    · exact ih _
    · rfl

theorem decimalDigits_digits (fuel : Nat) :
    ∀ n : Nat, ∀ c ∈ decimalDigits fuel n, c.isDigit = true := by
  induction fuel with
  | zero => intro n c h; simp [decimalDigits] at h
  | succ fuel ih =>
    intro n c h
    simp only [decimalDigits] at h
    split_ifs at h with h10
    · rw [List.mem_singleton] at h
      exact h ▸ digitChar_isDigit n h10
    · rw [List.mem_append, List.mem_singleton] at h
      rcases h with h | h
      · exact ih _ c h
      · exact h ▸ digitChar_isDigit _ (Nat.mod_lt _ (by decide))

theorem decimalDigits_value (fuel : Nat) :
    ∀ n : Nat, n < fuel →
      decimalDigits fuel n ≠ [] ∧ numeralValue (decimalDigits fuel n) 0 = some n := by
  induction fuel with
  | zero => intro n h; omega
  | succ fuel ih =>
    intro n h
    simp only [decimalDigits]
    split_ifs with h10
    · refine ⟨by simp, ?_⟩
      simp only [numeralValue, digitChar_isDigit n h10, if_true, digitChar_toNat n h10]
      simp
    · obtain ⟨_, hv⟩ := ih (n / 10) (by omega)
      refine ⟨by simp, ?_⟩
      rw [numeralValue_append, hv]
      simp only [Option.bind, numeralValue, digitChar_isDigit _ (Nat.mod_lt n (by decide)),
        if_true, digitChar_toNat _ (Nat.mod_lt n (by decide))]
      congr 1
      omega

theorem unsignedNumeral_FormatUint (n : Nat) : unsignedNumeral (FormatUint n) = some n := by
  obtain ⟨hne, hv⟩ := decimalDigits_value (n + 1) n (by omega)
  unfold unsignedNumeral FormatUint
  rw [if_neg hne, hv]

theorem signedNumeral_FormatInt (n : Int) : signedNumeral (FormatInt n) = some n := by
  unfold FormatInt
  by_cases hneg : n < 0
  · rw [if_pos hneg]
    simp only [signedNumeral, show ¬ ('-' = '+') by decide, if_false, if_true,
      unsignedNumeral_FormatUint, Option.map]
    show some (-(n.natAbs : Int)) = some n
    rw [Int.ofNat_natAbs_of_nonpos (le_of_lt hneg), neg_neg]
  · rw [if_neg hneg]
    have hu := unsignedNumeral_FormatUint n.natAbs
    have hd := decimalDigits_digits (n.natAbs + 1) n.natAbs
    cases hf : FormatUint n.natAbs with
    | nil =>
      rw [hf] at hu
      simp [unsignedNumeral] at hu
    | cons c ds =>
      have hc : c.isDigit = true := hd c (by
        have : FormatUint n.natAbs = decimalDigits (n.natAbs + 1) n.natAbs := rfl
        rw [← this, hf]
        exact List.mem_cons_self _ _)
      have hplus : ¬ c = '+' := by
        rintro rfl
        exact absurd hc (by decide)
      have hminus : ¬ c = '-' := by
        rintro rfl
        exact absurd hc (by decide)
      rw [hf] at hu
      simp only [signedNumeral, if_neg hplus, if_neg hminus, hu, Option.map]
      show some (n.natAbs : Int) = some n
      rw [Int.natAbs_of_nonneg (not_lt.mp hneg)]

theorem int64_of_range (v : Int) (h0 : -2 ^ 63 ≤ v) (h1 : v < 2 ^ 63) : int64 v = v := by
  unfold int64
  rw [Int.emod_eq_of_lt (by omega) (by omega)]
  omega

/-- C13, amended: for every byte sequence `b` the two helpers return (no
panic). `SafeInt64(b)` is `n` when `b` denotes the integer `n` in base 10 (an
optional sign `+` or `-`, then one or more decimal digits) and `n` lies in the
signed 64-bit range, and 0 for every other `b`. `SafeUint64(b)` is `n` when `b`
consists of one or more decimal digits, without a sign, that denote `n` and `n`
lies in the unsigned 64-bit range, and 0 for every other `b`. In particular the
text `strconv.FormatInt` (`FormatUint`) writes for a number of the range is
read back as that number. -/
theorem SafeInt64_SafeUint64_bytes (b : GoString) :
    SafeInt64 (.bytes b)
        = some (match signedNumeral b with
          | some n => if -2 ^ 63 ≤ n ∧ n < 2 ^ 63 then n else 0
          | none => 0)
      ∧ SafeUint64 (.bytes b)
        = some (match unsignedNumeral b with
          | some n => if n < 2 ^ 64 then n else 0
          | none => 0)
      ∧ (∀ n : Int, -2 ^ 63 ≤ n → n < 2 ^ 63 → SafeInt64 (.bytes (FormatInt n)) = some n)
      ∧ (∀ n : Nat, n < 2 ^ 64 → SafeUint64 (.bytes (FormatUint n)) = some n) := by
  have hI : ∀ b : GoString, SafeInt64 (.bytes b)
      = some (match signedNumeral b with
        | some n => if -2 ^ 63 ≤ n ∧ n < 2 ^ 63 then n else 0
        | none => 0) := by
    intro b
    simp only [SafeInt64, ParseInt_eq b 64 (by decide)]
    cases signedNumeral b with
    | none => rfl
    | some n =>
      simp only [Option.bind]
      by_cases h : -2 ^ 63 ≤ n ∧ n < 2 ^ 63
      · have h2 : -((2 ^ (64 - 1) : Nat) : Int) ≤ n ∧ n < ((2 ^ (64 - 1) : Nat) : Int) := by
          norm_num
          exact h
        rw [if_pos h2, if_pos h]
      · have h2 : ¬ (-((2 ^ (64 - 1) : Nat) : Int) ≤ n ∧ n < ((2 ^ (64 - 1) : Nat) : Int)) := by
          norm_num
          simpa using h
        rw [if_neg h2, if_neg h]
  have hU : ∀ b : GoString, SafeUint64 (.bytes b)
      = some (match unsignedNumeral b with
        | some n => if n < 2 ^ 64 then n else 0
        | none => 0) := by
    intro b
    simp only [SafeUint64, ParseUint_eq]
    cases unsignedNumeral b with
    | none => rfl
    | some n =>
      simp only [Option.bind]
      by_cases h : n < 2 ^ 64
      · rw [if_pos (by omega), if_pos h]
      · rw [if_neg (by omega), if_neg h]
  refine ⟨hI b, hU b, fun n h0 h1 => ?_, fun n h => ?_⟩
  · rw [hI, signedNumeral_FormatInt]
    simp only
    rw [if_pos ⟨h0, h1⟩]
  · rw [hU, unsignedNumeral_FormatUint]
    simp only
    rw [if_pos h]

/-- C13 as stated fails at the text `+5`: `SafeInt64` reads it as 5 and
`SafeUint64` as 0, so the two helpers do not agree on whether it is the
base-10 text of 5; the text `strconv.FormatInt` writes for 5 is `5`. Leading
zeros are read too: `007` gives 7. -/
theorem SafeInt64_SafeUint64_bytes_counterexample :
    SafeInt64 (.bytes "+5".toList) = some 5
      ∧ SafeUint64 (.bytes "+5".toList) = some 0
      ∧ FormatInt 5 = "5".toList
      ∧ SafeInt64 (.bytes "007".toList) = some 7
      ∧ SafeUint64 (.bytes "007".toList) = some 7 := by
  decide

/-- C14, amended: for an input of type int16, int32, int64, uint16 or uint32
each of `SafeUint64`, `SafeInt64` and `SafeInt` returns the input converted to
its target type, and so do `SafeUint64` and `SafeInt64` for a uint64; a
conversion keeps every value the target type can hold. For an input of type
int8 or uint8 each of the three panics. -/
theorem Safe_fixed_width (v : Int) (u : Nat) :
    (SafeUint64 (.int16 v) = some (uint64 v) ∧ SafeUint64 (.int32 v) = some (uint64 v)
        ∧ SafeUint64 (.int64 v) = some (uint64 v) ∧ SafeUint64 (.uint16 u) = some (uint64 u)
        ∧ SafeUint64 (.uint32 u) = some (uint64 u) ∧ SafeUint64 (.uint64 u) = some (uint64 u))
      ∧ (SafeInt64 (.int16 v) = some (int64 v) ∧ SafeInt64 (.int32 v) = some (int64 v)
        ∧ SafeInt64 (.int64 v) = some (int64 v) ∧ SafeInt64 (.uint16 u) = some (int64 u)
        ∧ SafeInt64 (.uint32 u) = some (int64 u) ∧ SafeInt64 (.uint64 u) = some (int64 u))
      ∧ (SafeInt (.int16 v) = some (int64 v) ∧ SafeInt (.int32 v) = some (int64 v)
        ∧ SafeInt (.int64 v) = some (int64 v) ∧ SafeInt (.uint16 u) = some (int64 u)
        ∧ SafeInt (.uint32 u) = some (int64 u))
      ∧ ((0 ≤ v → v < 2 ^ 64 → (uint64 v : Int) = v)
        ∧ (-2 ^ 63 ≤ v → v < 2 ^ 63 → int64 v = v))
      ∧ (SafeUint64 (.int8 v) = none ∧ SafeUint64 (.uint8 u) = none
        ∧ SafeInt64 (.int8 v) = none ∧ SafeInt64 (.uint8 u) = none
        ∧ SafeInt (.int8 v) = none ∧ SafeInt (.uint8 u) = none) :=
  ⟨⟨rfl, rfl, rfl, rfl, rfl, rfl⟩, ⟨rfl, rfl, rfl, rfl, rfl, rfl⟩, ⟨rfl, rfl, rfl, rfl, rfl⟩,
    ⟨uint64_of_nonneg v, int64_of_range v⟩, ⟨rfl, rfl, rfl, rfl, rfl, rfl⟩⟩

/-- C14 as stated fails: an int8 or a uint8 makes each helper panic. -/
theorem Safe_fixed_width_counterexample :
    SafeUint64 (.int8 5) = none ∧ SafeInt64 (.int8 5) = none ∧ SafeInt (.int8 5) = none
      ∧ SafeUint64 (.uint8 5) = none ∧ SafeInt64 (.uint8 5) = none
      ∧ SafeInt (.uint8 5) = none := by
  decide

/-- The two paths of `SafeInt` compared: for an integer `n` of the signed
64-bit range, `SafeInt` of `n` given as an int64 is `n`, and `SafeInt` of the
byte sequence that holds the base-10 text of `n` is `n` when `n` lies in the
signed 32-bit range and 0 otherwise (the text is parsed with a bit size of
32); the two agree exactly on the signed 32-bit range. -/
theorem SafeInt_bytes_int64 (n : Int) (h0 : -2 ^ 63 ≤ n) (h1 : n < 2 ^ 63) :
    SafeInt (.int64 n) = some n
      ∧ SafeInt (.bytes (FormatInt n)) = some (if -2 ^ 31 ≤ n ∧ n < 2 ^ 31 then n else 0)
      ∧ (-2 ^ 31 ≤ n → n < 2 ^ 31 →
          SafeInt (.bytes (FormatInt n)) = SafeInt (.int64 n)) := by
  have hA : SafeInt (.int64 n) = some n := by
    simp only [SafeInt, int64_of_range n h0 h1]
  have hB : SafeInt (.bytes (FormatInt n))
      = some (if -2 ^ 31 ≤ n ∧ n < 2 ^ 31 then n else 0) := by
    simp only [SafeInt, ParseInt_eq _ 32 (by decide), signedNumeral_FormatInt, Option.bind]
    by_cases h : -2 ^ 31 ≤ n ∧ n < 2 ^ 31
    · have h2 : -((2 ^ (32 - 1) : Nat) : Int) ≤ n ∧ n < ((2 ^ (32 - 1) : Nat) : Int) := by
        norm_num
        exact h
      rw [if_pos h2, if_pos h]
      simp only [int64_of_range n h0 h1]
    · have h2 : ¬ (-((2 ^ (32 - 1) : Nat) : Int) ≤ n ∧ n < ((2 ^ (32 - 1) : Nat) : Int)) := by
        norm_num
        simpa using h
      rw [if_neg h2, if_neg h]
  refine ⟨hA, hB, fun h2 h3 => ?_⟩
  rw [hA, hB, if_pos ⟨h2, h3⟩]

/-- C20 (the code at the failing input): for `n = 2147483648`, given as an
int64 `SafeInt` returns it as it is; given as the byte sequence of its base-10
text, `SafeInt` parses with a bit size of 32, the text does not fit, and 0 is
returned. -/
theorem SafeInt_bytes_out_of_int32 :
    FormatInt 2147483648 = "2147483648".toList
      ∧ SafeInt (.bytes (FormatInt 2147483648)) = some 0
      ∧ SafeInt (.int64 2147483648) = some 2147483648 := by
  decide

/-! ### Finding rows -/

/-- C15: when the select list of the table is available and the database
finds no row for the query built from the table name and the predicate map
(`MapScan` answers `sql.ErrNoRows` for the single row, `Queryx` answers with
no row and no error), `FindByColumn` returns no row and no error, and
`FindAllByColumn` returns the empty slice, not nil, and no error. -/
theorem Find_no_rows (d : QueryDriver) (o : GoString → RangeOrder (GoString × fieldStruct))
    (oM : RangeOrder (GoString × GoString)) (tablename fields : GoString)
    (m : GoMap GoString) (w w1 : World)
    (hfields : GetSQLFields o [tablename] w = some (fields, w1))
    (hone : d.queryRowx (findQuery oM fields tablename m
      ".deleted_at is null limit 1".toList) = .noRows)
    (hall : d.queryx (findQuery oM fields tablename m ".deleted_at is null".toList)
      = .rows []) :
    FindByColumn d o oM tablename m w = some ((none, none), w1)
      ∧ FindAllByColumn d o oM tablename m w = some ((some [], none), w1) := by
  constructor
  · simp only [FindByColumn, hfields, hone]
  · simp only [FindAllByColumn, hfields, hall, scanRows]

set_option maxRecDepth 100000 in
/-- C15 at the table `teststruct1` of the test models and the predicate
`name="bob"`, with a database that finds nothing. -/
theorem Find_no_rows_witness :
    FindByColumn ⟨fun _ => .noRows, fun _ => .rows []⟩ (fun _ => RangeOrder.stored _)
        (RangeOrder.stored _) "teststruct1".toList [("name".toList, "\"bob\"".toList)]
        World.afterInitModels
      = some ((none, none), World.afterInitModels.cached "teststruct1".toList teststruct1List)
    ∧ FindAllByColumn ⟨fun _ => .noRows, fun _ => .rows []⟩ (fun _ => RangeOrder.stored _)
        (RangeOrder.stored _) "teststruct1".toList [("name".toList, "\"bob\"".toList)]
        World.afterInitModels
      = some ((some [], none),
          World.afterInitModels.cached "teststruct1".toList teststruct1List) :=
  Find_no_rows ⟨fun _ => .noRows, fun _ => .rows []⟩ (fun _ => RangeOrder.stored _)
    (RangeOrder.stored _) "teststruct1".toList teststruct1List
    [("name".toList, "\"bob\"".toList)] World.afterInitModels _ (by decide) rfl rfl

/-! ### The connection -/

/-- C16: without a stored handle `CheckDB` returns the error
`DB not initialized` and neither probes nor connects (the state, with its
record of probes and attempts, is as before). With a stored handle it probes
that handle once; when the probe succeeds it returns the handle and does
nothing else; when the probe fails it makes one connection attempt with the
stored connection string, and returns the new handle, now stored, when the
attempt succeeds, and the error of the attempt when it fails. -/
theorem CheckDB_cases (net : Network) (c : Conn) :
    (c.dbx = none → CheckDB net c = ((none, some "DB not initialized".toList), c))
      ∧ (∀ db : DB, c.dbx = some db → net.ping db = none →
          CheckDB net c = ((some db, none), { c with events := c.events ++ [.ping db] }))
      ∧ (∀ (db db2 : DB) (e : Error), c.dbx = some db → net.ping db = some e →
          net.sqlxOpen c.connectionString = .opened db2 →
          CheckDB net c = ((some db2, none),
            { c with dbx := some db2
                     events := c.events ++ [.ping db, .sqlxOpen c.connectionString] }))
      ∧ (∀ (db : DB) (e err2 : Error), c.dbx = some db → net.ping db = some e →
          net.sqlxOpen c.connectionString = .failed err2 →
          CheckDB net c = ((none, some err2),
            { c with dbx := none
                     events := c.events ++ [.ping db, .sqlxOpen c.connectionString] })) := by
  refine ⟨fun h => ?_, fun db h hp => ?_, fun db db2 e h hp ho => ?_,
    fun db e err2 h hp ho => ?_⟩
  · simp only [CheckDB, h]
  · simp only [CheckDB, h, hp]
  · simp [CheckDB, h, hp, connectDB, ho]
  · simp [CheckDB, h, hp, connectDB, ho]

/-! ### Select lists of tables without a column -/

/-- C18 (the code at the failing input): with a registered table `a` that has
no column and a registered table `b` with the column `y`, `GetSQLFields` of
`a` and `b` starts with a separator, and of `b`, `a` and `b` has two
separators in a row. -/
theorem GetSQLFields_empty_table :
    World.emptyTable.modelFields.get? "a".toList = some []
      ∧ (GetSQLFields (fun _ => RangeOrder.stored _) ["a".toList, "b".toList]
          World.emptyTable).map (fun r => r.1) = some ",\nb.y \"b.y\"".toList
      ∧ (GetSQLFields (fun _ => RangeOrder.stored _) ["b".toList, "a".toList, "b".toList]
          World.emptyTable).map (fun r => r.1)
        = some "b.y \"b.y\",\n,\nb.y \"b.y\"".toList := by
  decide
